import Mathlib

/-! Enterprise wallet: address records, address lists and the wallet structure.

A shallow embedding of `address/address.go` and `wallet/guiWalletStruct.go`.

* A Go `string` and a Go `[]byte` are both modelled as `List UInt8` (a Go string is a
  byte sequence, `len` counts bytes, and slicing is by byte).
* A `uint64` is a `Nat` with explicit `% 2 ^ 64` at every increment and decrement.
* A run-time fault (slice bounds out of range) is the outer `none` of a result; a slice
  is taken to have its capacity equal to its length.
* The functions of the `factom` and `base58` packages are not part of this repository.
  They are taken as a parameter `F : Factom`; the two balance lookups are parameters of
  `AddBalancesToAddresses`.
* A Go map is the list of its entries; the lock of the wallet is not modelled.
* The `float64` field `Balance` holds the number that the `float64` denotes: the code
  stores only integers in it, and the conversion of an `int64` amount rounds to 53
  significant bits.
-/

namespace EnterpriseWallet

/-- A Go byte slice. -/
abbrev Bytes := List UInt8

/-- A Go string: an immutable byte sequence. -/
abbrev GoString := List UInt8

/-- The error values created in the two packages, one constructor for each message. -/
inductive Error where
  | nameTooLong          -- "Name must be max %d characters"
  | addressInvalid       -- "Address is invalid"
  | changeNameTooLong    -- "Name too long, must be less than %d characters"
  | nilAddressNamePair   -- "Nil AddressNamePair"
  | addressOrNameExists  -- "Address or Name already exists"
  | addressExists        -- "Address already exists"
  | notFound             -- "Not found"
  | parseBoolInvalid (s : Bytes) -- strconv.ParseBool: parsing s: invalid text
  | invalidList          -- "Invalid list"
  | inAddressbook (nick : GoString) -- "You cannot add this address as it is located ..."
  | notValidFactoid      -- "Not a valid factoid address"
  | notValidEntryCredit  -- "Not a valid entry credit address"
  | notValidAddress      -- "Not a valid address"
  | shouldNotHappen      -- "Encountered an error, this should not be able to happen"
  | addressNotFound      -- "Address not found"
  | couldNotChangeName   -- "Could not change name"
  | thisShouldNeverHappen -- "This should never happen"
  | noAddressFound       -- "No address found"
  | impossibleToReach    -- "Impossible to reach."
  deriving DecidableEq, Repr

/-- The collaborators from `github.com/FactomProject/factom` and
`github.com/FactomProject/btcutil/base58`. -/
structure Factom where
  /-- The function factom.IsValidAddress. -/
  IsValidAddress : GoString → Bool
  /-- The function base58.Decode. -/
  base58Decode : GoString → Bytes
  /-- The function base58.Encode. -/
  base58Encode : Bytes → GoString

/-- The facts about the collaborators that the round trip of a record relies on: a valid
address decodes to exactly 38 bytes (the first test of `factom.IsValidAddress`), and
encoding inverts decoding on valid addresses. -/
structure Factom.Lawful (F : Factom) : Prop where
  decode_length : ∀ a, F.IsValidAddress a = true → (F.base58Decode a).length = 38
  encode_decode : ∀ a, F.IsValidAddress a = true → F.base58Encode (F.base58Decode a) = a

/-! ## Go built-ins and standard library functions used by the source -/

/-- The built-in `copy(dst, src)`, returning the new contents of `dst`: the first
`min (len dst) (len src)` bytes are overwritten. -/
def goCopy (dst src : Bytes) : Bytes :=
  src.take dst.length ++ dst.drop src.length

/-- The slice expression `s[:n]`; faults when `n` exceeds the length. -/
def sliceTo (s : Bytes) (n : Nat) : Option Bytes :=
  if n ≤ s.length then some (s.take n) else none

/-- The slice expression `s[n:]`; faults when `n` exceeds the length. -/
def sliceFrom (s : Bytes) (n : Nat) : Option Bytes :=
  if n ≤ s.length then some (s.drop n) else none

/-- The call `bytes.Trim(s, "\x00")`: leading and trailing zero bytes are removed. -/
def trimNul (s : Bytes) : Bytes :=
  (s.dropWhile (· == 0)).rdropWhile (· == 0)

/-- The call `strconv.AppendBool(b, v)`. -/
def AppendBool (b : Bytes) (v : Bool) : Bytes :=
  if v then b ++ [116, 114, 117, 101] else b ++ [102, 97, 108, 115, 101]

/-- The function strconv.ParseBool: accepts 1, t, T, TRUE, true, True, 0, f, F, FALSE,
false, False and rejects any other text. -/
def ParseBool (str : Bytes) : Except Error Bool :=
  if str = [49] ∨ str = [116] ∨ str = [84] ∨ str = [84, 82, 85, 69]
      ∨ str = [116, 114, 117, 101] ∨ str = [84, 114, 117, 101] then .ok true
  else if str = [48] ∨ str = [102] ∨ str = [70] ∨ str = [70, 65, 76, 83, 69]
      ∨ str = [102, 97, 108, 115, 101] ∨ str = [70, 97, 108, 115, 101] then .ok false
  else .error (.parseBoolInvalid str)

/-! ## address.go: AddressNamePair -/

/-- The constant `MaxNameLength`. -/
def MaxNameLength : Nat := 20

/-- The struct `AddressNamePair`. `Balance` is a `float64` in the source; it is never
marshalled, compared or computed with, and the values that the code stores in it are 0
(by `new`), -1 and an `int64` amount converted to `float64`, all of them integers. The
field holds the number that the `float64` denotes; the rounding of the conversion is
`float64OfInt64`. -/
structure AddressNamePair where
  Name : GoString
  Address : GoString
  Seeded : Bool
  Balance : Int
  deriving DecidableEq, Repr

/-- The value of `new(AddressNamePair)`. -/
def AddressNamePair.new : AddressNamePair :=
  { Name := [], Address := [], Seeded := false, Balance := 0 }

/-- The function `NewAddress`. -/
def NewAddress (F : Factom) (name address : GoString) : Except Error AddressNamePair :=
  if name.length > MaxNameLength then .error .nameTooLong
  else if !F.IsValidAddress address then .error .addressInvalid
  else .ok { AddressNamePair.new with Name := name, Address := address, Seeded := false }

/-- The function `NewSeededAddress`. -/
def NewSeededAddress (F : Factom) (name address : GoString) : Except Error AddressNamePair :=
  match NewAddress F name address with
  | .error e => .error e
  | .ok add => .ok { add with Seeded := true }

/-- The method `ChangeName`: the record after the call and the error returned. -/
def AddressNamePair.ChangeName (anp : AddressNamePair) (name : GoString) :
    AddressNamePair × Option Error :=
  if name.length > MaxNameLength then (anp, some .changeNameTooLong)
  else ({ anp with Name := name }, none)

/-- The method `IsSimilarTo`. -/
def AddressNamePair.IsSimilarTo (anp b : AddressNamePair) : Bool :=
  if anp.Address ≠ b.Address then false else true

/-- The method `IsSameAs` of a record. -/
def AddressNamePair.IsSameAs (anp b : AddressNamePair) : Bool :=
  if !anp.IsSimilarTo b then false
  else if anp.Name ≠ b.Name then false
  else true

/-- The method `MarshalBinary` of a record: the bytes written and the error (always nil). -/
def AddressNamePair.MarshalBinary (F : Factom) (anp : AddressNamePair) :
    Bytes × Option Error :=
  let n := goCopy (List.replicate MaxNameLength 0) anp.Name
  let add := F.base58Decode anp.Address
  let a := goCopy (List.replicate 38 0) add
  let b := AppendBool [] anp.Seeded
  let b := if anp.Seeded then b ++ [0x00] else b
  (n ++ a ++ b, none)

/-- The method `UnmarshalBinaryData` of a record. The result is `none` when a slice
expression faults, and otherwise the receiver after the call, the returned bytes and
the returned error. -/
def AddressNamePair.UnmarshalBinaryData (F : Factom) (anp : AddressNamePair) (data : Bytes) :
    Option (AddressNamePair × Bytes × Option Error) := do
  let newData := data
  let nameData := trimNul (← sliceTo newData MaxNameLength)
  let anp := { anp with Name := nameData }
  let newData ← sliceFrom newData MaxNameLength
  let anp := { anp with Address := F.base58Encode (← sliceTo newData 38) }
  let newData ← sliceFrom newData 38
  let booldata ← sliceTo newData 5
  let booldata := if booldata[4]? = some 0 then booldata.take 4 else booldata
  match ParseBool booldata with
  | .error err => some (anp, data, some err)
  | .ok b =>
    let anp := { anp with Seeded := b }
    let newData ← sliceFrom newData 5
    some (anp, newData, none)

/-! ## address.go: AddressList -/

/-- The Go type `[]AddressNamePair`. -/
abbrev Records := List AddressNamePair

/-- The struct `AddressList`. `Length` is a `uint64`. -/
structure AddressList where
  Length : Nat
  List : Records
  deriving DecidableEq, Repr

/-- The function `NewAddressList`. -/
def NewAddressList : AddressList := { Length := 0, List := [] }

/-- The `range` loop of `Get`, started at index `i`: the first record whose address
compares equal, with its index. -/
def AddressList.getLoop (address : GoString) :
    Records → Nat → Option (AddressNamePair × Nat)
  | [], _ => none
  | ianp :: rest, i =>
    if ianp.Address = address then some (ianp, i) else getLoop address rest (i + 1)

/-- The method `Get`. The Go result `(nil, -1)` is `none`; a result `(&ianp, i)` is
`some (ianp, i)`, where `ianp` is a copy of the record found. -/
def AddressList.Get (F : Factom) (addList : AddressList) (address : GoString) :
    Option (AddressNamePair × Nat) :=
  if !F.IsValidAddress address then none
  else AddressList.getLoop address addList.List 0

/-- The method `AddANP`: the list after the call and the error returned. -/
def AddressList.AddANP (F : Factom) (addList : AddressList) (anp : AddressNamePair) :
    AddressList × Option Error :=
  if anp.Name.length = 0 ∨ !F.IsValidAddress anp.Address then
    (addList, some .nilAddressNamePair)
  else
    match addList.Get F anp.Address with
    | none =>
      ({ Length := (addList.Length + 1) % 2 ^ 64, List := addList.List ++ [anp] }, none)
    | some _ => (addList, some .addressOrNameExists)

/-- The unexported method `add`: the list after the call, the record returned and the
error returned. -/
def AddressList.add (F : Factom) (addList : AddressList) (anp : AddressNamePair) :
    AddressList × Option AddressNamePair × Option Error :=
  if anp.Name.length = 0 then (addList, none, some .nilAddressNamePair)
  else
    match addList.Get F anp.Address with
    | none =>
      ({ Length := (addList.Length + 1) % 2 ^ 64, List := addList.List ++ [anp] },
        some anp, none)
    | some _ => (addList, none, some .addressExists)

/-- The method `AddSeeded`. -/
def AddressList.AddSeeded (F : Factom) (addList : AddressList) (name address : GoString) :
    AddressList × Option AddressNamePair × Option Error :=
  match NewSeededAddress F name address with
  | .error err => (addList, none, some err)
  | .ok anp => addList.add F anp

/-- The method `Add`. -/
def AddressList.Add (F : Factom) (addList : AddressList) (name address : GoString) :
    AddressList × Option AddressNamePair × Option Error :=
  match NewAddress F name address with
  | .error err => (addList, none, some err)
  | .ok anp => addList.add F anp

/-- The method `Remove`: the list after the call and the error returned. -/
def AddressList.Remove (F : Factom) (addList : AddressList) (removeAdd : GoString) :
    AddressList × Option Error :=
  match addList.Get F removeAdd with
  | none => (addList, some .notFound)
  | some (_, i) =>
    ({ Length := (addList.Length + 2 ^ 64 - 1) % 2 ^ 64,
       List := addList.List.take i ++ addList.List.drop (i + 1) }, none)

/-- The method `ResetSeeded` of a list. -/
def AddressList.ResetSeeded (addList : AddressList) : AddressList :=
  { addList with List := addList.List.map fun r => { r with Seeded := false } }

/-- The call `binary.BigEndian.PutUint64(number[:], v)`: the eight bytes written. -/
def putUint64 (v : Nat) : Bytes :=
  [UInt8.ofNat (v / 2 ^ 56), UInt8.ofNat (v / 2 ^ 48), UInt8.ofNat (v / 2 ^ 40),
   UInt8.ofNat (v / 2 ^ 32), UInt8.ofNat (v / 2 ^ 24), UInt8.ofNat (v / 2 ^ 16),
   UInt8.ofNat (v / 2 ^ 8), UInt8.ofNat v]

/-- The call `binary.BigEndian.Uint64(b)` on a slice of eight bytes. -/
def getUint64 (b : Bytes) : Nat :=
  b.foldl (fun acc x => acc * 256 + x.toNat) 0

/-- The `range` loop of the list's `MarshalBinary`, with the buffer written so far. -/
def AddressList.marshalLoop (F : Factom) : Records → Bytes → Bytes × Option Error
  | [], buf => (buf, none)
  | anp :: rest, buf =>
    match anp.MarshalBinary F with
    | (_, some err) => ([], some err)
    | (anpData, none) => marshalLoop F rest (buf ++ anpData)

/-- The method `MarshalBinary` of a list. -/
def AddressList.MarshalBinary (F : Factom) (addList : AddressList) : Bytes × Option Error :=
  AddressList.marshalLoop F addList.List (putUint64 addList.Length)

/-- The `for i < addList.Length` loop of the list's `UnmarshalBinaryData`, with `n` the
number of iterations still to run, the slice built so far, the bytes still unread and
the error of the latest iteration. A fault in a record's decoding faults the loop. -/
def AddressList.unmarshalLoop (F : Factom) :
    Nat → Records → Bytes → Option Error →
      Option (Records × Bytes × Option Error)
  | 0, acc, newData, err => some (acc, newData, err)
  | n + 1, acc, newData, _ =>
    match AddressNamePair.UnmarshalBinaryData F AddressNamePair.new newData with
    | none => none
    | some (anp, newData, err) => unmarshalLoop F n (acc ++ [anp]) newData err

/-- The method `UnmarshalBinaryData` of a list: `none` on a fault, otherwise the list
after the call, the returned bytes and the returned error. -/
def AddressList.UnmarshalBinaryData (F : Factom) (addList : AddressList) (data : Bytes) :
    Option (AddressList × Bytes × Option Error) := do
  let newData := data
  let length := getUint64 (← sliceTo data 8)
  let newData ← sliceFrom newData 8
  let (list, newData, err) ← AddressList.unmarshalLoop F length addList.List newData none
  some ({ Length := length, List := list }, newData, err)

/-- The `range` loop of the list's `IsSameAs`. -/
def AddressList.isSameLoop (F : Factom) (b : AddressList) : Records → Bool
  | [] => true
  | anp :: rest =>
    match b.Get F anp.Address with
    | none => false
    | some (inap, _) => if !anp.IsSameAs inap then false else isSameLoop F b rest

/-- The method `IsSameAs` of a list. -/
def AddressList.IsSameAs (F : Factom) (addList b : AddressList) : Bool :=
  if addList.Length ≠ b.Length then false
  else AddressList.isSameLoop F b addList.List

/-! ## guiWalletStruct.go: WalletStruct

The three list pointers are taken to be non-nil, as `NewWallet` makes them. The lock
is not modelled: every method here is one atomic step. -/

/-- The struct `WalletStruct` (without its lock). -/
structure WalletStruct where
  FactoidAddresses : AddressList
  EntryCreditAddresses : AddressList
  ExternalAddresses : AddressList
  FactoidTotal : Int
  ECTotal : Int
  deriving DecidableEq, Repr

/-- The function `NewWallet`. -/
def NewWallet : WalletStruct :=
  { FactoidAddresses := NewAddressList, EntryCreditAddresses := NewAddressList,
    ExternalAddresses := NewAddressList, FactoidTotal := 0, ECTotal := 0 }

/-- The string "FA". -/
def strFA : GoString := [70, 65]

/-- The string "EC". -/
def strEC : GoString := [69, 67]

/-- The method `GetAddress`: the record pointer (`none` for nil), the list number and
the index. -/
def WalletStruct.GetAddress (F : Factom) (w : WalletStruct) (address : GoString) :
    Option AddressNamePair × Int × Int :=
  match w.FactoidAddresses.Get F address with
  | some (anp, index) => (some anp, 1, index)
  | none =>
    match w.EntryCreditAddresses.Get F address with
    | some (anp, index) => (some anp, 2, index)
    | none =>
      match w.ExternalAddresses.Get F address with
      | some (anp, index) => (some anp, 3, index)
      | none => (none, -1, -1)

/-- The unexported method `addAddress`: `none` when `address[:2]` faults, otherwise the
error returned (`some none` for a nil error). -/
def WalletStruct.addAddress (F : Factom) (w : WalletStruct) (_name address : GoString)
    (list : Int) : Option (Option Error) :=
  if list > 3 ∨ list ≤ 0 then some (some .invalidList)
  else
    let located : Option Error :=
      if list = 3 then
        match w.GetAddress F address with
        | (anp, getList, _) =>
          if getList ≠ -1 then
            -- anp is non-nil whenever getList is not -1
            some (.inAddressbook (anp.elim [] AddressNamePair.Name))
          else none
      else none
    match located with
    | some err => some (some err)
    | none =>
      -- list is 1, 2 or 3 here, and each case of the switch evaluates address[:2]
      match sliceTo address 2 with
      | none => none
      | some pre =>
        if list = 1 ∧ pre ≠ strFA then some (some .notValidFactoid)
        else if list = 2 ∧ pre ≠ strEC then some (some .notValidEntryCredit)
        else if list = 3 ∧ ¬ (pre = strEC ∨ pre = strFA) then some (some .notValidAddress)
        else if !F.IsValidAddress address then some (some .notValidAddress)
        else some none

/-- The method `AddAddress`: `none` on a fault, otherwise the wallet after the call, the
record returned and the error returned. -/
def WalletStruct.AddAddress (F : Factom) (w : WalletStruct) (name address : GoString)
    (list : Int) : Option (WalletStruct × Option AddressNamePair × Option Error) :=
  match w.addAddress F name address list with
  | none => none
  | some (some err) => some (w, none, some err)
  | some none =>
    if list = 1 then
      match w.FactoidAddresses.Add F name address with
      | (l, anp, err) => some ({ w with FactoidAddresses := l }, anp, err)
    else if list = 2 then
      match w.EntryCreditAddresses.Add F name address with
      | (l, anp, err) => some ({ w with EntryCreditAddresses := l }, anp, err)
    else if list = 3 then
      match w.ExternalAddresses.Add F name address with
      | (l, anp, err) => some ({ w with ExternalAddresses := l }, anp, err)
    else some (w, none, some .shouldNotHappen)

/-- The method `AddSeededAddress`; for list 3 the source calls `Add`, not `AddSeeded`. -/
def WalletStruct.AddSeededAddress (F : Factom) (w : WalletStruct) (name address : GoString)
    (list : Int) : Option (WalletStruct × Option AddressNamePair × Option Error) :=
  match w.addAddress F name address list with
  | none => none
  | some (some err) => some (w, none, some err)
  | some none =>
    if list = 1 then
      match w.FactoidAddresses.AddSeeded F name address with
      | (l, anp, err) => some ({ w with FactoidAddresses := l }, anp, err)
    else if list = 2 then
      match w.EntryCreditAddresses.AddSeeded F name address with
      | (l, anp, err) => some ({ w with EntryCreditAddresses := l }, anp, err)
    else if list = 3 then
      match w.ExternalAddresses.Add F name address with
      | (l, anp, err) => some ({ w with ExternalAddresses := l }, anp, err)
    else some (w, none, some .shouldNotHappen)

/-- The expression `l.List[i].ChangeName(toName)` on one of the wallet's lists: `none`
when the index is out of range, otherwise the list after the call and the error. -/
def AddressList.changeNameAt (l : AddressList) (i : Int) (toName : GoString) :
    Option (AddressList × Option Error) :=
  if i < 0 then none
  else
    match l.List[i.toNat]? with
    | none => none
    | some r =>
      match r.ChangeName toName with
      | (r', err) => some ({ l with List := l.List.set i.toNat r' }, err)

/-- The method `ChangeAddressName`: `none` on a fault, otherwise the wallet after the
call and the error returned. -/
def WalletStruct.ChangeAddressName (F : Factom) (w : WalletStruct)
    (address toName : GoString) : Option (WalletStruct × Option Error) :=
  match w.GetAddress F address with
  | (none, _, _) => some (w, some .addressNotFound)
  | (some anp, list, i) =>
    if list = -1 ∨ i = -1 then some (w, some .addressNotFound)
    else if anp.Address = address then
      if list = 1 then
        (w.FactoidAddresses.changeNameAt i toName).map fun (l, err) =>
          ({ w with FactoidAddresses := l }, err)
      else if list = 2 then
        (w.EntryCreditAddresses.changeNameAt i toName).map fun (l, err) =>
          ({ w with EntryCreditAddresses := l }, err)
      else if list = 3 then
        (w.ExternalAddresses.changeNameAt i toName).map fun (l, err) =>
          ({ w with ExternalAddresses := l }, err)
      else some (w, some .couldNotChangeName)
    else some (w, some .couldNotChangeName)

/-- The method `ResetSeeded` of the wallet: the factoid and entry credit lists are
reset, the external list is not touched. -/
def WalletStruct.ResetSeeded (w : WalletStruct) : WalletStruct :=
  { w with FactoidAddresses := w.FactoidAddresses.ResetSeeded,
           EntryCreditAddresses := w.EntryCreditAddresses.ResetSeeded }

/-- The method `RemoveAddress`: the wallet after the call, the string returned and the
error returned. -/
def WalletStruct.RemoveAddress (F : Factom) (w : WalletStruct) (address : GoString)
    (list : Int) : WalletStruct × GoString × Option Error :=
  if list = 0 then (w, [], some .noAddressFound)
  else if list = 1 then
    match w.FactoidAddresses.Remove F address with
    | (l, some err) => ({ w with FactoidAddresses := l }, [], some err)
    | (l, none) => ({ w with FactoidAddresses := l }, address, none)
  else if list = 2 then
    match w.EntryCreditAddresses.Remove F address with
    | (l, some err) => ({ w with EntryCreditAddresses := l }, [], some err)
    | (l, none) => ({ w with EntryCreditAddresses := l }, address, none)
  else if list = 3 then
    match w.ExternalAddresses.Remove F address with
    | (l, some err) => ({ w with ExternalAddresses := l }, [], some err)
    | (l, none) => ({ w with ExternalAddresses := l }, address, none)
  else (w, [], some .impossibleToReach)

/-- The method `RemoveAddressFromAnyList`: the wallet after the call, the record
returned and the error returned. -/
def WalletStruct.RemoveAddressFromAnyList (F : Factom) (w : WalletStruct)
    (address : GoString) : WalletStruct × Option AddressNamePair × Option Error :=
  match w.GetAddress F address with
  | (anp, list, _) =>
    if list > 3 then (w, none, some .thisShouldNeverHappen)
    else
      match w.RemoveAddress F address list with
      | (w', _, some err) => (w', none, some err)
      | (w', _, none) => (w', anp, none)

/-! ## Sequences of calls -/

/-- A call of one of the mutating methods of an `AddressList`. -/
inductive ListOp where
  | Add (name address : GoString)
  | AddSeeded (name address : GoString)
  | AddANP (anp : AddressNamePair)
  | Remove (address : GoString)
  | ResetSeeded
  deriving DecidableEq, Repr

/-- A sequence of calls on an `AddressList`. -/
abbrev ListOps := List ListOp

/-- The list after one call, whether the call succeeds or returns an error. -/
def AddressList.step (F : Factom) (l : AddressList) : ListOp → AddressList
  | .Add name address => (l.Add F name address).1
  | .AddSeeded name address => (l.AddSeeded F name address).1
  | .AddANP anp => (l.AddANP F anp).1
  | .Remove address => (l.Remove F address).1
  | .ResetSeeded => l.ResetSeeded

/-- The list after a sequence of calls, the head of `ops` first. -/
def AddressList.run (F : Factom) (l : AddressList) (ops : ListOps) : AddressList :=
  ops.foldl (AddressList.step F) l

/-- A call of one of the mutating methods of a `WalletStruct`. -/
inductive WalletOp where
  | AddAddress (name address : GoString) (list : Int)
  | AddSeededAddress (name address : GoString) (list : Int)
  | RemoveAddress (address : GoString) (list : Int)
  | RemoveAddressFromAnyList (address : GoString)
  | ChangeAddressName (address toName : GoString)
  | ResetSeeded
  deriving DecidableEq, Repr

/-- The wallet after one call, whether the call succeeds or returns an error; `none`
when the call faults. -/
def WalletStruct.step (F : Factom) (w : WalletStruct) : WalletOp → Option WalletStruct
  | .AddAddress name address list => (w.AddAddress F name address list).map (·.1)
  | .AddSeededAddress name address list => (w.AddSeededAddress F name address list).map (·.1)
  | .RemoveAddress address list => some (w.RemoveAddress F address list).1
  | .RemoveAddressFromAnyList address => some (w.RemoveAddressFromAnyList F address).1
  | .ChangeAddressName address toName => (w.ChangeAddressName F address toName).map (·.1)
  | .ResetSeeded => some w.ResetSeeded

/-- The wallet after a sequence of calls, the head of `ops` first; `none` when one of
the calls faults. -/
def WalletStruct.run (F : Factom) (w : WalletStruct) : List WalletOp → Option WalletStruct
  | [] => some w
  | op :: ops =>
    match w.step F op with
    | none => none
    | some w' => WalletStruct.run F w' ops

/-! ## The collaborators at three addresses

The values of `base58.Decode` and `factom.IsValidAddress` at three real addresses (two
factoid addresses and one entry credit address). Each decodes to 38 bytes whose last
four bytes are the double SHA-256 checksum of the first 34. -/

/-- The address FA2jK2HcLnRdS94dEcU27rF3meoJfpUcZPSinpb7AwQvPRY6RL1Q. -/
def addrFA1 : GoString :=
  [70, 65, 50, 106, 75, 50, 72, 99, 76, 110, 82, 100, 83, 57, 52, 100, 69, 99, 85, 50, 55,
   114, 70, 51, 109, 101, 111, 74, 102, 112, 85, 99, 90, 80, 83, 105, 110, 112, 98, 55, 65,
   119, 81, 118, 80, 82, 89, 54, 82, 76, 49, 81]

/-- The 38 bytes that `addrFA1` decodes to. -/
def rawFA1 : Bytes :=
  [95, 177, 100, 111, 62, 135, 80, 197, 80, 228, 88, 46, 202, 80, 71, 84, 111, 254, 248,
   156, 19, 161, 117, 152, 94, 50, 2, 50, 186, 202, 200, 28, 196, 40, 75, 47, 181, 51]

/-- The address FA3EPZYqodgyEGXNMbiZKE5TS2x2J9wF8J9MvPZb52iGR78xMgCb. -/
def addrFA2 : GoString :=
  [70, 65, 51, 69, 80, 90, 89, 113, 111, 100, 103, 121, 69, 71, 88, 78, 77, 98, 105, 90,
   75, 69, 53, 84, 83, 50, 120, 50, 74, 57, 119, 70, 56, 74, 57, 77, 118, 80, 90, 98, 53,
   50, 105, 71, 82, 55, 56, 120, 77, 103, 67, 98]

/-- The 38 bytes that `addrFA2` decodes to. -/
def rawFA2 : Bytes :=
  [95, 177, 166, 117, 213, 173, 116, 44, 204, 79, 51, 245, 118, 151, 36, 225, 82, 43, 227,
   60, 200, 176, 158, 87, 224, 231, 58, 37, 194, 34, 120, 71, 129, 27, 120, 95, 114, 140]

/-- The address EC2DKSYyRcNWf7RS963VFYgMExoHRYLHVeCfQ9PGPmNzwrcmgm2r. -/
def addrEC1 : GoString :=
  [69, 67, 50, 68, 75, 83, 89, 121, 82, 99, 78, 87, 102, 55, 82, 83, 57, 54, 51, 86, 70,
   89, 103, 77, 69, 120, 111, 72, 82, 89, 76, 72, 86, 101, 67, 102, 81, 57, 80, 71, 80,
   109, 78, 122, 119, 114, 99, 109, 103, 109, 50, 114]

/-- The 38 bytes that `addrEC1` decodes to. -/
def rawEC1 : Bytes :=
  [89, 42, 59, 106, 39, 188, 206, 182, 164, 45, 98, 163, 168, 208, 42, 111, 13, 115, 101,
   50, 21, 119, 29, 226, 67, 166, 58, 192, 72, 161, 139, 89, 218, 41, 17, 216, 102, 147]

/-- The collaborators restricted to the three addresses above: exactly these three
strings count as valid, and decoding and encoding are the table lookups. Concrete
evaluations below use only these three addresses. -/
def tableFactom : Factom where
  IsValidAddress a := a = addrFA1 || a = addrFA2 || a = addrEC1
  base58Decode a :=
    if a = addrFA1 then rawFA1 else if a = addrFA2 then rawFA2
    else if a = addrEC1 then rawEC1 else []
  base58Encode b :=
    if b = rawFA1 then addrFA1 else if b = rawFA2 then addrFA2
    else if b = rawEC1 then addrEC1 else []


/-! ## Properties stated about the code -/

/-- The round trip of a record through its wire form on receiver `anp0`: decoding the
encoding succeeds, consumes every byte and gives back name, address and seeded flag. -/
def RecordRoundTrips (F : Factom) (anp0 r : AddressNamePair) : Prop :=
  ∃ r', AddressNamePair.UnmarshalBinaryData F anp0 (r.MarshalBinary F).1 = some (r', [], none)
    ∧ r'.Name = r.Name ∧ r'.Address = r.Address ∧ r'.Seeded = r.Seeded

/-- The list after a successful insertion of `anp`. -/
def AddressList.appended (l : AddressList) (anp : AddressNamePair) : AddressList :=
  { Length := (l.Length + 1) % 2 ^ 64, List := l.List ++ [anp] }

/-- No two records of the list have the same address. -/
def AddressList.NoDuplicates (l : AddressList) : Prop :=
  (l.List.map AddressNamePair.Address).Nodup

/-- The counter agrees with the slice: `Length` is the number of records in `List`. -/
def AddressList.LengthOk (l : AddressList) : Prop :=
  l.Length = l.List.length

/-- The wire forms of the records, concatenated in list order. -/
def recordsWire (F : Factom) : Records → Bytes
  | [] => []
  | r :: rest => (r.MarshalBinary F).1 ++ recordsWire F rest

/-- Every record of the list carries a valid address. -/
def AddressList.AllValid (F : Factom) (l : AddressList) : Prop :=
  ∀ r ∈ l.List, F.IsValidAddress r.Address = true

/-- The counter agrees with the slice as a `uint64`. -/
def AddressList.LengthMod (l : AddressList) : Prop :=
  l.Length = l.List.length % 2 ^ 64

/-- A name that survives the wire form: at most 20 bytes, and neither starting nor
ending with a zero byte. -/
def NameOk (name : GoString) : Prop :=
  name.length ≤ 20 ∧ name.head? ≠ some 0 ∧ name.getLast? ≠ some 0

/-- The round trip of a list through its wire form, decoded into a new list: the
decoding succeeds, consumes every byte, and gives a list that `IsSameAs` reports equal
to the original in both directions. -/
def ListRoundTrips (F : Factom) (l : AddressList) : Prop :=
  ∃ m, NewAddressList.UnmarshalBinaryData F (l.MarshalBinary F).1 = some (m, [], none)
    ∧ m.IsSameAs F l = true ∧ l.IsSameAs F m = true

/-- What decoding gives for a record: the wire fields, and the zero balance of a new
record. -/
def decoded (r : AddressNamePair) : AddressNamePair :=
  { AddressNamePair.new with Name := r.Name, Address := r.Address, Seeded := r.Seeded }


instance (name : GoString) : Decidable (NameOk name) := by
  unfold NameOk
  infer_instance

/-- A sequence of address strings. -/
abbrev Addresses := List GoString

/-- The addresses of the records of a list, in list order. -/
def AddressList.addresses (l : AddressList) : Addresses :=
  l.List.map AddressNamePair.Address

/-- Cross-list exclusivity as the specification states it: over the three lists taken
together, no address occurs twice. -/
def WalletStruct.Exclusive (w : WalletStruct) : Prop :=
  (w.FactoidAddresses.addresses ++ w.EntryCreditAddresses.addresses
    ++ w.ExternalAddresses.addresses).Nodup

/-- Exclusivity as the code keeps it: no address occurs twice within one list, and no
address occurs in both the factoid list and the entry credit list. -/
def WalletStruct.OwnedExclusive (w : WalletStruct) : Prop :=
  w.FactoidAddresses.NoDuplicates ∧ w.EntryCreditAddresses.NoDuplicates ∧
  w.ExternalAddresses.NoDuplicates ∧
  ∀ a ∈ w.FactoidAddresses.addresses, a ∉ w.EntryCreditAddresses.addresses

/-- The relation between a wallet and its successor that keeps exclusivity: each list
stays free of duplicates, every address new to the factoid list starts with "FA", and
every address new to the entry credit list starts with "EC". -/
def WalletStruct.Keeps (w w' : WalletStruct) : Prop :=
  (w.FactoidAddresses.NoDuplicates → w'.FactoidAddresses.NoDuplicates) ∧
  (w.EntryCreditAddresses.NoDuplicates → w'.EntryCreditAddresses.NoDuplicates) ∧
  (w.ExternalAddresses.NoDuplicates → w'.ExternalAddresses.NoDuplicates) ∧
  (∀ a ∈ w'.FactoidAddresses.addresses,
    a ∈ w.FactoidAddresses.addresses ∨ a.take 2 = strFA) ∧
  (∀ a ∈ w'.EntryCreditAddresses.addresses,
    a ∈ w.EntryCreditAddresses.addresses ∨ a.take 2 = strEC)

/-- The invariant behind exclusivity: no list holds an address twice, the factoid list
holds only addresses that start with "FA" and the entry credit list only addresses that
start with "EC". -/
def WalletStruct.Classed (w : WalletStruct) : Prop :=
  w.FactoidAddresses.NoDuplicates ∧ w.EntryCreditAddresses.NoDuplicates ∧
  w.ExternalAddresses.NoDuplicates ∧
  (∀ a ∈ w.FactoidAddresses.addresses, a.take 2 = strFA) ∧
  (∀ a ∈ w.EntryCreditAddresses.addresses, a.take 2 = strEC)

/-- The text of bytes 58..62 of a buffer, with byte 62 dropped when it is 0x00. -/
def boolText (b : Bytes) : Bytes :=
  if b[62]? = some 0 then (b.drop 58).take 4 else (b.drop 58).take 5

/-- A 63-byte record buffer whose name field is 0x00, "A" and 18 zero bytes, whose
address field is `rawFA1` and whose boolean field is "false". -/
def bufLeadingNul : Bytes :=
  [0, 65] ++ List.replicate 18 0 ++ rawFA1 ++ [102, 97, 108, 115, 101]

/-- A 63-byte record buffer whose name field is "A" and 19 zero bytes, whose address
field is `rawFA1` and whose boolean field is the text "xxxxx". -/
def bufBadBool : Bytes :=
  [65] ++ List.replicate 19 0 ++ rawFA1 ++ [120, 120, 120, 120, 120]

/-- A record buffer decodes without error into a new record. -/
def RecordDecodes (F : Factom) (rec : Bytes) : Prop :=
  ∃ r rest, AddressNamePair.UnmarshalBinaryData F AddressNamePair.new rec = some (r, rest, none)

/-- Record number `k` (from 0) of a list buffer: the 63 bytes that follow the 8-byte
prefix and `k` earlier records. -/
def recordAt (b : Bytes) (k : Nat) : Bytes :=
  (b.drop (8 + 63 * k)).take 63

/-- The list invariants: every address is valid, no two records share an address, and
`Length` is the number of records. -/
def AddressList.Invariants (F : Factom) (l : AddressList) : Prop :=
  l.AllValid F ∧ l.NoDuplicates ∧ l.LengthOk

/-- Every record of `a` has a record in `b` with the same address and the same name. -/
def AddressList.Covers (a b : AddressList) : Prop :=
  ∀ r ∈ a.List, ∃ r' ∈ b.List, r'.Address = r.Address ∧ r'.Name = r.Name

/-- No record of the list is marked as seeded. -/
def AddressList.Unseeded (l : AddressList) : Prop :=
  ∀ r ∈ l.List, r.Seeded = false

/-- The failing input of C23: a new wallet whose external list received a seeded record
through the list's own `AddSeeded`. -/
def walletSeededExternal : WalletStruct :=
  { NewWallet with ExternalAddresses := (NewAddressList.AddSeeded tableFactom [65] addrFA1).1 }

/-! ## guiWalletStruct.go: the wallet's codec and balances -/

/-- The method `MarshalBinary` of the wallet: the bytes returned and the error. -/
def WalletStruct.MarshalBinary (F : Factom) (w : WalletStruct) : Bytes × Option Error :=
  match w.FactoidAddresses.MarshalBinary F with
  | (_, some err) => ([], some err)
  | (data, none) =>
    let buf := data
    match w.EntryCreditAddresses.MarshalBinary F with
    | (_, some err) => ([], some err)
    | (data, none) =>
      let buf := buf ++ data
      match w.ExternalAddresses.MarshalBinary F with
      | (_, some err) => ([], some err)
      | (data, none) => (buf ++ data, none)

/-- The method `UnmarshalBinaryData` of the wallet: `none` when the decoding of a list
faults, otherwise the wallet after the call, the returned bytes and the returned error. -/
def WalletStruct.UnmarshalBinaryData (F : Factom) (w : WalletStruct) (data : Bytes) :
    Option (WalletStruct × Bytes × Option Error) :=
  match w.FactoidAddresses.UnmarshalBinaryData F data with
  | none => none
  | some (fa, newData, some err) => some ({ w with FactoidAddresses := fa }, newData, some err)
  | some (fa, newData, none) =>
    match w.EntryCreditAddresses.UnmarshalBinaryData F newData with
    | none => none
    | some (ec, newData, some err) =>
      some ({ w with FactoidAddresses := fa, EntryCreditAddresses := ec }, newData, some err)
    | some (ec, newData, none) =>
      match w.ExternalAddresses.UnmarshalBinaryData F newData with
      | none => none
      | some (ex, newData, err) =>
        some ({ w with FactoidAddresses := fa, EntryCreditAddresses := ec,
                       ExternalAddresses := ex }, newData, err)

/-- A Go `map[string]address.AddressNamePair`, as the list of its entries, one for each
key. The order of the entries stands for the order in which `range` visits them. -/
abbrev AnpMap := List (GoString × AddressNamePair)

/-- The assignment `m[k] = v`: the entry of `k` is replaced, or a new entry is added. -/
def mapSet : AnpMap → GoString → AddressNamePair → AnpMap
  | [], k, v => [(k, v)]
  | (k', v') :: rest, k, v =>
    if k' = k then (k, v) :: rest else (k', v') :: mapSet rest k v

/-- The lookup `v, ok := m[k]`. -/
def mapGet : AnpMap → GoString → Option AddressNamePair
  | [], _ => none
  | (k', v') :: rest, k => if k' = k then some v' else mapGet rest k

/-- The loop `for _, a := range list { m[a.Address] = a }`. -/
def fillMap : Records → AnpMap → AnpMap
  | [], m => m
  | a :: rest, m => fillMap rest (mapSet m a.Address a)

/-- An `int64` addition: the sum wraps around. -/
def addInt64 (x y : Int) : Int :=
  (x + y + 2 ^ 63) % 2 ^ 64 - 2 ^ 63

/-- The number of halvings that bring `a` below 2^53, at most `fuel` of them; `a`
halvings are always enough (for the magnitude of an `int64`, at most 2^63, there are at
most eleven). -/
def float64Shift : Nat → Nat → Nat
  | 0, _ => 0
  | fuel + 1, a => if a < 2 ^ 53 then 0 else float64Shift fuel (a / 2) + 1

/-- The conversion `float64(x)` of an `int64`, as the integer that the resulting
`float64` denotes. A `float64` has 53 significant bits: a magnitude below 2^53 is kept,
and a magnitude of 53 + k bits is rounded to the nearest multiple of 2^k, a tie going to
the even multiple. -/
def float64OfInt64 (x : Int) : Int :=
  let a := x.natAbs
  let ulp := 2 ^ float64Shift a a
  let q := a / ulp
  let r := a % ulp
  let q' := if 2 * r < ulp then q else if ulp < 2 * r then q + 1
    else if q % 2 = 0 then q else q + 1
  if x < 0 then -((q' * ulp : Nat) : Int) else ((q' * ulp : Nat) : Int)

/-- The loop over `faList` (and over `ecList`) of `AddBalancesToAddresses`, with the
lookup `getBalance` (`none` for a non-nil error): each entry gets the sentinel -1 or the
amount looked up, and the amounts are added to the total. The assignment
`fa.Balance = bal` puts an `int64` into the `float64` field: it is taken as the
conversion `float64(bal)`, which `addBalancesToAddresses` of walletDB.go writes out. -/
def lookupLoop (getBalance : GoString → Option Int) : AnpMap → Int → AnpMap × Int
  | [], total => ([], total)
  | (i, fa) :: rest, total =>
    match getBalance fa.Address with
    | none =>
      let (m, t) := lookupLoop getBalance rest total
      ((i, { fa with Balance := -1 }) :: m, t)
    | some bal =>
      let (m, t) := lookupLoop getBalance rest (addInt64 total bal)
      ((i, { fa with Balance := float64OfInt64 bal }) :: m, t)

/-- The balance that a lookup gives to a record: the amount as a `float64`, or -1 on an
error. -/
def balanceOf (getBalance : GoString → Option Int) (a : AddressNamePair) : AddressNamePair :=
  match getBalance a.Address with
  | none => { a with Balance := -1 }
  | some bal => { a with Balance := float64OfInt64 bal }

/-- The loop over `exList`: the lookup is chosen by `a.Address[:2]`, which faults on an
address shorter than two bytes; an entry with another start is left as it is. -/
def externalLoop (getFactoidBalance getECBalance : GoString → Option Int) :
    AnpMap → Option AnpMap
  | [] => some []
  | (i, a) :: rest =>
    match sliceTo a.Address 2 with
    | none => none
    | some pre =>
      let a' :=
        if pre = strFA then balanceOf getFactoidBalance a
        else if pre = strEC then balanceOf getECBalance a
        else a
      (externalLoop getFactoidBalance getECBalance rest).map fun m => (i, a') :: m

/-- The loop `for i, fa := range list { if a, ok := m[fa.Address]; ok { list[i].Balance =
a.Balance } }`. -/
def writeBack (m : AnpMap) : Records → Records
  | [] => []
  | fa :: rest =>
    (match mapGet m fa.Address with
      | some a => { fa with Balance := a.Balance }
      | none => fa) :: writeBack m rest

/-- The method `AddBalancesToAddresses`, with the two lookups of the `factom` package as
parameters: `none` when the loop over the external addresses faults, otherwise the
wallet after the call. The lock is released between the copy and the write back; here
the call is one step, so no other call comes in between. -/
def WalletStruct.AddBalancesToAddresses (getFactoidBalance getECBalance : GoString → Option Int)
    (w : WalletStruct) : Option WalletStruct :=
  let faList := fillMap w.FactoidAddresses.List []
  let ecList := fillMap w.EntryCreditAddresses.List []
  let exList := fillMap w.ExternalAddresses.List []
  let fa := if faList.length > 0 then lookupLoop getFactoidBalance faList 0 else (faList, 0)
  let ec := if ecList.length > 0 then lookupLoop getECBalance ecList 0 else (ecList, 0)
  match (if exList.length > 0 then externalLoop getFactoidBalance getECBalance exList
         else some exList) with
  | none => none
  | some ex =>
    some { FactoidAddresses :=
             { w.FactoidAddresses with List := writeBack fa.1 w.FactoidAddresses.List },
           EntryCreditAddresses :=
             { w.EntryCreditAddresses with
               List := writeBack ec.1 w.EntryCreditAddresses.List },
           ExternalAddresses :=
             { w.ExternalAddresses with List := writeBack ex w.ExternalAddresses.List },
           FactoidTotal := fa.2,
           ECTotal := ec.2 }

/-- The wallet of C25's counterexample: one factoid record, and an external record whose
address is the single byte "F". -/
def walletShortExternal : WalletStruct :=
  { NewWallet with
    FactoidAddresses :=
      { Length := 1,
        List := [{ Name := [65], Address := addrFA1, Seeded := false, Balance := 0 }] },
    ExternalAddresses :=
      { Length := 1,
        List := [{ Name := [66], Address := [70], Seeded := false, Balance := 0 }] } }

/-- Every value of the map is filed under its own address. -/
def Keyed (m : AnpMap) : Prop :=
  ∀ k v, mapGet m k = some v → v.Address = k

/-- The list `l'` is the list `l` with balances looked up by `getBalance`: the same
number of records and, position by position, the same name, address and seeded flag,
with `Balance = -1` where the lookup of the record's address fails and, where it
succeeds, the amount looked up as a `float64`, which is the amount itself when its
magnitude is at most 2^53. -/
def Enriched (getBalance : GoString → Option Int) (l l' : Records) : Prop :=
  l'.length = l.length ∧
  ∀ (i : Nat) (r : AddressNamePair), l[i]? = some r →
    ∃ r', l'[i]? = some r' ∧ r'.Name = r.Name ∧ r'.Address = r.Address ∧
      r'.Seeded = r.Seeded ∧ (getBalance r.Address = none → r'.Balance = -1) ∧
      (∀ bal, getBalance r.Address = some bal →
        r'.Balance = float64OfInt64 bal ∧ (bal.natAbs ≤ 2 ^ 53 → r'.Balance = bal))

/-- A lookup that fails for the first factoid address, gives 2^53 + 1 for the second
and 7 for every other address. -/
def lookupDemo : GoString → Option Int :=
  fun a => if a = addrFA1 then none else if a = addrFA2 then some 9007199254740993
    else some 7

/-- The address EC3TsJHUs8bzbbVnratBafub6toRYdgzgbR7kWwCW4tqbmyySRmg. -/
def addrEC2 : GoString :=
  [69, 67, 51, 84, 115, 74, 72, 85, 115, 56, 98, 122, 98, 98, 86, 110, 114, 97, 116, 66, 97,
   102, 117, 98, 54, 116, 111, 82, 89, 100, 103, 122, 103, 98, 82, 55, 107, 87, 119, 67, 87,
   52, 116, 113, 98, 109, 121, 121, 83, 82, 109, 103]

/-- A wallet with two factoid records, one entry credit record and one external record,
an entry credit address that the wallet does not own. -/
def walletThreeLists : WalletStruct :=
  { NewWallet with
    FactoidAddresses :=
      { Length := 2,
        List := [{ Name := [65], Address := addrFA1, Seeded := false, Balance := 0 },
                 { Name := [66], Address := addrFA2, Seeded := true, Balance := 0 }] },
    EntryCreditAddresses :=
      { Length := 1,
        List := [{ Name := [67], Address := addrEC1, Seeded := false, Balance := 0 }] },
    ExternalAddresses :=
      { Length := 1,
        List := [{ Name := [68], Address := addrEC2, Seeded := false, Balance := 0 }] } }

/-- A wallet with one factoid record and nothing else. -/
def walletOneFactoid : WalletStruct :=
  { NewWallet with
    FactoidAddresses :=
      { Length := 1,
        List := [{ Name := [65], Address := addrFA1, Seeded := false, Balance := 0 }] } }

/-! ## Theorems -/

theorem tableFactom_lawful : tableFactom.Lawful := by
  constructor
  · intro a h
    simp only [tableFactom, Bool.or_eq_true, decide_eq_true_eq] at h ⊢
    rcases h with (h | h) | h <;> subst h <;> decide
  · intro a h
    simp only [tableFactom, Bool.or_eq_true, decide_eq_true_eq] at h ⊢
    rcases h with (h | h) | h <;> subst h <;> decide

theorem goCopy_length (dst src : Bytes) : (goCopy dst src).length = dst.length := by
  simp only [goCopy, List.length_append, List.length_take, List.length_drop]
  omega

theorem goCopy_replicate (n : Nat) (src : Bytes) :
    goCopy (List.replicate n 0) src = src.take n ++ List.replicate (n - src.length) 0 := by
  simp [goCopy]

theorem goCopy_replicate_getElem? (n : Nat) (src : Bytes) (i : Nat) (hi : i < n) :
    (goCopy (List.replicate n 0) src)[i]? = some (src.getD i 0) := by
  rw [goCopy_replicate]
  by_cases h : i < src.length
  · rw [List.getElem?_append_left (by simp; omega)]
    simp [List.getElem?_take, hi, List.getD_eq_getElem?_getD, h]
  · rw [List.getElem?_append_right (by simp; omega)]
    have h' : src.length ≤ i := by omega
    simp [List.getD_eq_getElem?_getD, List.getElem?_eq_none h', List.getElem?_replicate]
    omega

/-- C2: for every record, `MarshalBinary` returns no error and exactly 63 bytes: byte
`i < 20` is byte `i` of the name, or 0x00 past its end; byte `20 + i` for `i < 38` is byte
`i` of the base58 decoding of the address, or 0x00 past its end; bytes 58..62 are "true"
followed by 0x00 when `Seeded` is true and "false" when it is false. -/
theorem C2_marshal_layout (F : Factom) (anp : AddressNamePair) :
    (anp.MarshalBinary F).2 = none ∧
    (anp.MarshalBinary F).1.length = 63 ∧
    (∀ i, i < 20 → (anp.MarshalBinary F).1[i]? = some (anp.Name.getD i 0)) ∧
    (∀ i, i < 38 →
      (anp.MarshalBinary F).1[20 + i]? = some ((F.base58Decode anp.Address).getD i 0)) ∧
    (anp.MarshalBinary F).1.drop 58 =
      (if anp.Seeded then [116, 114, 117, 101, 0] else [102, 97, 108, 115, 101]) := by
  have hn := goCopy_length (List.replicate MaxNameLength 0) anp.Name
  have ha := goCopy_length (List.replicate 38 0) (F.base58Decode anp.Address)
  simp only [List.length_replicate, MaxNameLength] at hn ha
  refine ⟨rfl, ?_, ?_, ?_, ?_⟩
  · simp only [AddressNamePair.MarshalBinary, List.length_append, hn, ha, MaxNameLength]
    cases anp.Seeded <;> rfl
  · intro i hi
    simp only [AddressNamePair.MarshalBinary, List.append_assoc, MaxNameLength]
    rw [List.getElem?_append_left (by omega)]
    exact goCopy_replicate_getElem? 20 _ i hi
  · intro i hi
    simp only [AddressNamePair.MarshalBinary, List.append_assoc, MaxNameLength]
    rw [List.getElem?_append_right (by omega), hn, Nat.add_sub_cancel_left,
      List.getElem?_append_left (by omega)]
    exact goCopy_replicate_getElem? 38 _ i hi
  · have h58 : (goCopy (List.replicate 20 0) anp.Name ++
        goCopy (List.replicate 38 0) (F.base58Decode anp.Address)).length = 58 := by
      rw [List.length_append, hn, ha]
    simp only [AddressNamePair.MarshalBinary, MaxNameLength]
    rw [List.drop_append_eq_append_drop, h58, List.drop_of_length_le (by omega)]
    cases anp.Seeded <;> rfl

theorem sliceTo_append (a b : Bytes) (n : Nat) (h : a.length = n) :
    sliceTo (a ++ b) n = some a := by
  subst h
  simp [sliceTo]

theorem sliceFrom_append (a b : Bytes) (n : Nat) (h : a.length = n) :
    sliceFrom (a ++ b) n = some b := by
  subst h
  simp [sliceFrom]

/-- Decoding a buffer that starts with a 20-byte field, a 38-byte field and a 5-byte
field. -/
theorem unmarshal_fields (F : Factom) (anp : AddressNamePair) (n a b rest : Bytes)
    (hn : n.length = 20) (ha : a.length = 38) (hb : b.length = 5) :
    AddressNamePair.UnmarshalBinaryData F anp (n ++ (a ++ (b ++ rest))) =
      match ParseBool (if b[4]? = some 0 then b.take 4 else b) with
      | .error err =>
        some ({ anp with Name := trimNul n, Address := F.base58Encode a },
          n ++ (a ++ (b ++ rest)), some err)
      | .ok v =>
        some ({ anp with Name := trimNul n, Address := F.base58Encode a, Seeded := v },
          rest, none) := by
  simp only [AddressNamePair.UnmarshalBinaryData, MaxNameLength, sliceTo_append _ _ 20 hn,
    sliceFrom_append _ _ 20 hn, sliceTo_append _ _ 38 ha, sliceFrom_append _ _ 38 ha,
    sliceTo_append _ _ 5 hb, sliceFrom_append _ _ 5 hb, Option.bind_eq_bind, Option.some_bind,
    Option.pure_def, bind_pure_comp]


theorem rdropWhile_append_replicate_zero (l : Bytes) (k : Nat) :
    (l ++ List.replicate k 0).rdropWhile (· == 0) = l.rdropWhile (· == 0) := by
  induction k with
  | zero => simp
  | succ k ih =>
    rw [List.replicate_succ', ← List.append_assoc, List.rdropWhile_concat_pos _ _ _ (by simp)]
    exact ih

/-- Trimming a zero-padded name gives the name back when the name neither starts nor
ends with a zero byte. -/
theorem trimNul_pad (name : Bytes) (k : Nat) (hh : name.head? ≠ some 0)
    (hl : name.getLast? ≠ some 0) : trimNul (name ++ List.replicate k 0) = name := by
  unfold trimNul
  cases name with
  | nil =>
    have h : (List.replicate k (0 : UInt8)).dropWhile (· == 0) = [] := by
      rw [List.dropWhile_eq_nil_iff]
      intro x hx
      simp [List.eq_of_mem_replicate hx]
    simp only [List.nil_append, h]
    rfl
  | cons x t =>
    have hx : x ≠ 0 := by simpa using hh
    have h1 : ((x :: t) ++ List.replicate k 0).dropWhile (· == 0)
        = (x :: t) ++ List.replicate k 0 := by
      simp [List.dropWhile_cons, hx]
    rw [h1, rdropWhile_append_replicate_zero, List.rdropWhile_eq_self_iff]
    intro hne
    have : (x :: t).getLast? = some ((x :: t).getLast hne) := List.getLast?_eq_getLast _ hne
    intro h0
    apply hl
    rw [this]
    simpa using h0


theorem marshal_eq (F : Factom) (r : AddressNamePair) (hn : r.Name.length ≤ 20)
    (hd : (F.base58Decode r.Address).length = 38) :
    (r.MarshalBinary F).1 =
      (r.Name ++ List.replicate (20 - r.Name.length) 0) ++ (F.base58Decode r.Address ++
        ((if r.Seeded then [116, 114, 117, 101, 0] else [102, 97, 108, 115, 101]) ++ [])) := by
  simp only [AddressNamePair.MarshalBinary, MaxNameLength, goCopy_replicate, hd,
    List.take_of_length_le hn, List.take_of_length_le (Nat.le_of_eq hd), Nat.sub_self,
    List.replicate_zero, List.append_nil, List.append_assoc]
  cases r.Seeded <;> rfl

theorem getLoop_eq_none_iff (address : GoString) (l : Records) (i : Nat) :
    AddressList.getLoop address l i = none ↔ ∀ r ∈ l, r.Address ≠ address := by
  induction l generalizing i with
  | nil => simp [AddressList.getLoop]
  | cons x t ih =>
    by_cases h : x.Address = address
    · simp [AddressList.getLoop, h]
    · simp [AddressList.getLoop, h, ih]

/-- What a successful scan returns: the record at the returned position, carrying the
address, with no earlier record carrying it. -/
theorem getLoop_eq_some (address : GoString) (l : Records) (i : Nat) (r : AddressNamePair)
    (j : Nat) (h : AddressList.getLoop address l i = some (r, j)) :
    ∃ k, j = i + k ∧ l[k]? = some r ∧ r.Address = address ∧
      ∀ r' ∈ l.take k, r'.Address ≠ address := by
  induction l generalizing i with
  | nil => simp [AddressList.getLoop] at h
  | cons x t ih =>
    by_cases hx : x.Address = address
    · simp only [AddressList.getLoop, hx, if_true, Option.some.injEq, Prod.mk.injEq] at h
      exact ⟨0, by omega, by simp [h.1], h.1 ▸ hx, by simp⟩
    · simp only [AddressList.getLoop, hx, if_false] at h
      obtain ⟨k, hj, hk, ha, hb⟩ := ih (i + 1) h
      refine ⟨k + 1, by omega, by simpa using hk, ha, ?_⟩
      intro r' hr'
      simp only [List.take_succ_cons, List.mem_cons] at hr'
      rcases hr' with rfl | hr'
      · exact hx
      · exact hb r' hr'

theorem Get_eq_none_iff (F : Factom) (l : AddressList) (address : GoString) :
    l.Get F address = none ↔
      F.IsValidAddress address = false ∨ ∀ r ∈ l.List, r.Address ≠ address := by
  unfold AddressList.Get
  cases hv : F.IsValidAddress address
  · simp
  · simp [getLoop_eq_none_iff]

theorem Get_eq_some (F : Factom) (l : AddressList) (address : GoString)
    (r : AddressNamePair) (j : Nat) (h : l.Get F address = some (r, j)) :
    F.IsValidAddress address = true ∧ l.List[j]? = some r ∧ r.Address = address ∧
      ∀ r' ∈ l.List.take j, r'.Address ≠ address := by
  unfold AddressList.Get at h
  cases hv : F.IsValidAddress address
  · simp [hv] at h
  · simp only [hv, Bool.not_true, Bool.false_eq_true, if_false] at h
    obtain ⟨k, hj, hk, ha, hb⟩ := getLoop_eq_some _ _ _ _ _ h
    have : j = k := by omega
    subst this
    exact ⟨rfl, hk, ha, hb⟩

/-- A valid address carried by some record of the list is found. -/
theorem Get_isSome_of_mem (F : Factom) (l : AddressList) (r : AddressNamePair)
    (hr : r ∈ l.List) (hv : F.IsValidAddress r.Address = true) :
    ∃ r' j, l.Get F r.Address = some (r', j) := by
  cases h : l.Get F r.Address with
  | none =>
    rw [Get_eq_none_iff] at h
    rcases h with h | h
    · simp [hv] at h
    · exact absurd rfl (h r hr)
  | some p => exact ⟨p.1, p.2, rfl⟩

theorem getLoop_append_new (address : GoString) (l : Records) (anp : AddressNamePair)
    (i : Nat) (hnone : ∀ r ∈ l, r.Address ≠ address) (ha : anp.Address = address) :
    AddressList.getLoop address (l ++ [anp]) i = some (anp, i + l.length) := by
  induction l generalizing i with
  | nil => simp [AddressList.getLoop, ha]
  | cons x t ih =>
    have hx : x.Address ≠ address := hnone x (by simp)
    have ht : ∀ r ∈ t, r.Address ≠ address := fun r hr => hnone r (by simp [hr])
    rw [List.cons_append, AddressList.getLoop, if_neg hx, ih (i + 1) ht, List.length_cons,
      Nat.add_assoc, Nat.add_comm 1]

theorem add_of_absent (F : Factom) (l : AddressList) (anp : AddressNamePair)
    (hne : anp.Name.length ≠ 0) (hget : l.Get F anp.Address = none) :
    l.add F anp = (l.appended anp, some anp, none) := by
  simp [AddressList.add, hne, hget, AddressList.appended]

theorem add_of_present (F : Factom) (l : AddressList) (anp : AddressNamePair)
    (p : AddressNamePair × Nat) (hget : l.Get F anp.Address = some p) :
    (l.add F anp).1 = l ∧ (l.add F anp).2.1 = none ∧ (l.add F anp).2.2 ≠ none := by
  unfold AddressList.add
  by_cases hne : anp.Name.length = 0
  · simp [hne]
  · simp [hne, hget]

theorem add_of_empty_name (F : Factom) (l : AddressList) (anp : AddressNamePair)
    (hne : anp.Name.length = 0) :
    l.add F anp = (l, none, some .nilAddressNamePair) := by
  simp [AddressList.add, hne]

theorem NewAddress_ok (F : Factom) (name address : GoString) (hlen : name.length ≤ 20)
    (hv : F.IsValidAddress address = true) :
    NewAddress F name address =
      .ok { Name := name, Address := address, Seeded := false, Balance := 0 } := by
  have : ¬ name.length > 20 := by omega
  simp [NewAddress, MaxNameLength, this, hv, AddressNamePair.new]

theorem NewAddress_error_iff (F : Factom) (name address : GoString) :
    (∃ e, NewAddress F name address = .error e) ↔
      (name.length > 20 ∨ F.IsValidAddress address = false) := by
  unfold NewAddress
  simp only [MaxNameLength]
  by_cases h : name.length > 20
  · simp [h]
  · cases hv : F.IsValidAddress address <;> simp [h]

/-- C7: for a non-empty name of at most 20 bytes and a valid address that `Get` does
not find, `Add` returns no error and the record (name, address, not seeded); the list is
the old list with that record appended, `Length` is the old `Length` plus 1 (uint64
addition, so exactly old + 1 unless the counter was at its maximum), and `Get` then
finds that record at the index that was the old number of records. `AddSeeded` does the
same with `Seeded = true`. -/
theorem C7_add_appends (F : Factom) (l : AddressList) (name address : GoString)
    (hne : name ≠ []) (hlen : name.length ≤ 20) (hv : F.IsValidAddress address = true)
    (hget : l.Get F address = none) :
    (l.Add F name address =
        ({ Length := (l.Length + 1) % 2 ^ 64,
           List := l.List ++ [{ Name := name, Address := address, Seeded := false, Balance := 0 }] },
          some { Name := name, Address := address, Seeded := false, Balance := 0 }, none)
      ∧ (l.Length + 1 < 2 ^ 64 → (l.Add F name address).1.Length = l.Length + 1)
      ∧ (l.Add F name address).1.Get F address =
          some ({ Name := name, Address := address, Seeded := false, Balance := 0 },
            l.List.length)) ∧
    (l.AddSeeded F name address =
        ({ Length := (l.Length + 1) % 2 ^ 64,
           List := l.List ++ [{ Name := name, Address := address, Seeded := true, Balance := 0 }] },
          some { Name := name, Address := address, Seeded := true, Balance := 0 }, none)
      ∧ (l.Length + 1 < 2 ^ 64 → (l.AddSeeded F name address).1.Length = l.Length + 1)
      ∧ (l.AddSeeded F name address).1.Get F address =
          some ({ Name := name, Address := address, Seeded := true, Balance := 0 },
            l.List.length)) := by
  have hlen0 : name.length ≠ 0 := by
    intro h
    exact hne (List.length_eq_zero.mp h)
  have habs : ∀ r ∈ l.List, r.Address ≠ address := by
    rcases (Get_eq_none_iff F l address).mp hget with h | h
    · simp [hv] at h
    · exact h
  have hA : l.Add F name address =
      (l.appended { Name := name, Address := address, Seeded := false, Balance := 0 },
        some { Name := name, Address := address, Seeded := false, Balance := 0 }, none) := by
    simp only [AddressList.Add, NewAddress_ok F name address hlen hv]
    exact add_of_absent F l _ hlen0 hget
  have hS : l.AddSeeded F name address =
      (l.appended { Name := name, Address := address, Seeded := true, Balance := 0 },
        some { Name := name, Address := address, Seeded := true, Balance := 0 }, none) := by
    simp only [AddressList.AddSeeded, NewSeededAddress, NewAddress_ok F name address hlen hv]
    exact add_of_absent F l _ hlen0 hget
  refine ⟨⟨hA, ?_, ?_⟩, ⟨hS, ?_, ?_⟩⟩
  · intro hlt
    rw [hA]
    exact Nat.mod_eq_of_lt hlt
  · rw [hA]
    simp only [AddressList.Get, hv, AddressList.appended, Bool.not_true, Bool.false_eq_true,
      if_false]
    rw [getLoop_append_new address l.List _ 0 habs rfl, Nat.zero_add]
  · intro hlt
    rw [hS]
    exact Nat.mod_eq_of_lt hlt
  · rw [hS]
    simp only [AddressList.Get, hv, AddressList.appended, Bool.not_true, Bool.false_eq_true,
      if_false]
    rw [getLoop_append_new address l.List _ 0 habs rfl, Nat.zero_add]

theorem NewAddress_eq_ok (F : Factom) (name address : GoString) (anp : AddressNamePair)
    (h : NewAddress F name address = .ok anp) :
    anp = { Name := name, Address := address, Seeded := false, Balance := 0 } ∧
      name.length ≤ 20 ∧ F.IsValidAddress address = true := by
  unfold NewAddress at h
  simp only [MaxNameLength] at h
  by_cases hl : name.length > 20
  · simp [hl] at h
  · cases hv : F.IsValidAddress address
    · simp [hl, hv] at h
    · simp only [hl, hv, if_false, Bool.not_true, Bool.false_eq_true, Except.ok.injEq,
        AddressNamePair.new] at h
      exact ⟨h.symm, by omega, rfl⟩

theorem NewSeededAddress_eq_ok (F : Factom) (name address : GoString) (anp : AddressNamePair)
    (h : NewSeededAddress F name address = .ok anp) :
    anp = { Name := name, Address := address, Seeded := true, Balance := 0 } ∧
      name.length ≤ 20 ∧ F.IsValidAddress address = true := by
  unfold NewSeededAddress at h
  cases h' : NewAddress F name address with
  | error e => simp [h'] at h
  | ok a =>
    obtain ⟨rfl, h1, h2⟩ := NewAddress_eq_ok F name address a h'
    simp only [h', Except.ok.injEq] at h
    exact ⟨h.symm, h1, h2⟩

/-- The three possible outcomes of the unexported `add`. -/
theorem add_cases (F : Factom) (l : AddressList) (anp : AddressNamePair) :
    (l.add F anp = (l.appended anp, some anp, none) ∧ anp.Name.length ≠ 0 ∧
        l.Get F anp.Address = none) ∨
    ((l.add F anp).1 = l ∧ (l.add F anp).2.1 = none ∧ (l.add F anp).2.2 ≠ none ∧
        (anp.Name.length = 0 ∨ ∃ p, l.Get F anp.Address = some p)) := by
  by_cases hne : anp.Name.length = 0
  · right
    rw [add_of_empty_name F l anp hne]
    simp [hne]
  · cases hg : l.Get F anp.Address with
    | none => exact Or.inl ⟨add_of_absent F l anp hne hg, hne, rfl⟩
    | some p =>
      obtain ⟨h1, h2, h3⟩ := add_of_present F l anp p hg
      exact Or.inr ⟨h1, h2, h3, Or.inr ⟨p, rfl⟩⟩

/-- C8 (as amended): `Add` returns an error if and only if the name is empty, or longer
than 20 bytes, or the address is not valid, or some record of the list already has the
address; in every other case it appends the record and returns it, and whenever it
returns an error the list is unchanged and no record is returned. -/
theorem C8_add_error_iff (F : Factom) (l : AddressList) (name address : GoString) :
    ((l.Add F name address).2.2 ≠ none ↔
      (name = [] ∨ name.length > 20 ∨ F.IsValidAddress address = false ∨
        ∃ r ∈ l.List, r.Address = address)) ∧
    ((l.Add F name address).2.2 = none →
      l.Add F name address =
        ({ Length := (l.Length + 1) % 2 ^ 64,
           List := l.List ++ [{ Name := name, Address := address, Seeded := false, Balance := 0 }] },
          some { Name := name, Address := address, Seeded := false, Balance := 0 }, none)) ∧
    ((l.Add F name address).2.2 ≠ none →
      (l.Add F name address).1 = l ∧ (l.Add F name address).2.1 = none) := by
  cases hN : NewAddress F name address with
  | error e =>
    have hc := (NewAddress_error_iff F name address).mp ⟨e, hN⟩
    have hA : l.Add F name address = (l, none, some e) := by simp [AddressList.Add, hN]
    rw [hA]
    refine ⟨⟨fun _ => ?_, fun _ => by simp⟩, by simp, by simp⟩
    rcases hc with hc | hc
    · exact Or.inr (Or.inl hc)
    · exact Or.inr (Or.inr (Or.inl hc))
  | ok anp =>
    obtain ⟨rfl, hlen, hv⟩ := NewAddress_eq_ok F name address anp hN
    have hA : l.Add F name address =
        l.add F { Name := name, Address := address, Seeded := false, Balance := 0 } := by
      simp [AddressList.Add, hN]
    rw [hA]
    rcases add_cases F l { Name := name, Address := address, Seeded := false, Balance := 0 }
      with ⟨h, hne, hg⟩ | ⟨h1, h2, h3, h4⟩
    · rw [h]
      refine ⟨⟨fun hc => absurd rfl hc, fun hc => ?_⟩, fun _ => rfl, fun hc => absurd rfl hc⟩
      exfalso
      rcases hc with hc | hc | hc | ⟨r, hr, hra⟩
      · exact hne (by simp [hc])
      · omega
      · simp [hv] at hc
      · rcases (Get_eq_none_iff F l address).mp hg with h' | h'
        · simp [hv] at h'
        · exact h' r hr hra
    · refine ⟨⟨fun _ => ?_, fun _ => h3⟩, fun hc => absurd hc h3, fun _ => ⟨h1, h2⟩⟩
      rcases h4 with h4 | ⟨⟨r, j⟩, hp⟩
      · exact Or.inl (List.length_eq_zero.mp h4)
      · obtain ⟨-, hj, ha, -⟩ := Get_eq_some F l address r j hp
        exact Or.inr (Or.inr (Or.inr ⟨r, List.getElem?_mem hj, ha⟩))

/-- C9: for a valid address that some record of the list already has, `Add`, `AddSeeded`
and `AddANP` with that address and any name return an error and leave the list (its
`List` and its `Length`) as it was. -/
theorem C9_duplicate_rejected (F : Factom) (l : AddressList) (name address : GoString) (anp : AddressNamePair)
    (hv : F.IsValidAddress address = true) (hmem : ∃ r ∈ l.List, r.Address = address)
    (hanp : anp.Address = address) :
    ((l.Add F name address).1 = l ∧ (l.Add F name address).2.2 ≠ none) ∧
    ((l.AddSeeded F name address).1 = l ∧ (l.AddSeeded F name address).2.2 ≠ none) ∧
    ((l.AddANP F anp).1 = l ∧ (l.AddANP F anp).2 ≠ none) := by
  obtain ⟨r, hr, hra⟩ := hmem
  have hfound : ∃ p, l.Get F address = some p := by
    subst hra
    obtain ⟨r', j, h⟩ := Get_isSome_of_mem F l r hr hv
    exact ⟨_, h⟩
  obtain ⟨p, hp⟩ := hfound
  refine ⟨?_, ?_, ?_⟩
  · cases hN : NewAddress F name address with
    | error e => simp [AddressList.Add, hN]
    | ok a =>
      obtain ⟨rfl, -, -⟩ := NewAddress_eq_ok F name address a hN
      simp only [AddressList.Add, hN]
      obtain ⟨h1, -, h3⟩ := add_of_present F l
        { Name := name, Address := address, Seeded := false, Balance := 0 } p hp
      exact ⟨h1, h3⟩
  · cases hN : NewSeededAddress F name address with
    | error e => simp [AddressList.AddSeeded, hN]
    | ok a =>
      obtain ⟨rfl, -, -⟩ := NewSeededAddress_eq_ok F name address a hN
      simp only [AddressList.AddSeeded, hN]
      obtain ⟨h1, -, h3⟩ := add_of_present F l
        { Name := name, Address := address, Seeded := true, Balance := 0 } p hp
      exact ⟨h1, h3⟩
  · subst hanp
    unfold AddressList.AddANP
    split
    · exact ⟨rfl, by simp⟩
    · simp [hp]

/-- C7, witness: adding "Alice" at the first factoid address to the empty list. -/
theorem C7_add_appends_witness :
    (NewAddressList.Add tableFactom [65, 108, 105, 99, 101] addrFA1).1.Length = 1 ∧
    (NewAddressList.Add tableFactom [65, 108, 105, 99, 101] addrFA1).1.Get tableFactom addrFA1 =
      some ({ Name := [65, 108, 105, 99, 101], Address := addrFA1, Seeded := false,
              Balance := 0 }, 0) :=
  have h := (C7_add_appends tableFactom NewAddressList [65, 108, 105, 99, 101] addrFA1
    (by decide) (by decide) (by decide) (by decide)).1
  ⟨h.2.1 (by decide), h.2.2⟩

/-- C8, counterexample: the empty name with a valid address that is not in the list is
rejected, although the name is not longer than 20 bytes. -/
theorem C8_counterexample_empty_name :
    (NewAddressList.Add tableFactom [] addrFA1).2.2 = some Error.nilAddressNamePair ∧
    ¬ (([] : GoString).length > 20 ∨ tableFactom.IsValidAddress addrFA1 = false ∨
        ∃ r ∈ NewAddressList.List, r.Address = addrFA1) := by
  refine ⟨by decide, ?_⟩
  rintro (h | h | ⟨r, hr, -⟩)
  · exact absurd h (by decide)
  · exact absurd h (by decide)
  · simp [NewAddressList] at hr

/-- C9, witness: a second insertion of the first factoid address under another name. -/
theorem C9_duplicate_rejected_witness :
    ((NewAddressList.Add tableFactom [65] addrFA1).1.Add tableFactom [66] addrFA1).1 =
      (NewAddressList.Add tableFactom [65] addrFA1).1 ∧
    ((NewAddressList.Add tableFactom [65] addrFA1).1.Add tableFactom [66] addrFA1).2.2 ≠ none :=
  (C9_duplicate_rejected tableFactom (NewAddressList.Add tableFactom [65] addrFA1).1 [66]
    addrFA1 { Name := [66], Address := addrFA1, Seeded := false, Balance := 0 } (by decide)
    ⟨{ Name := [65], Address := addrFA1, Seeded := false, Balance := 0 }, by decide, rfl⟩ rfl).1

theorem appended_noDuplicates (l : AddressList) (anp : AddressNamePair)
    (h : l.NoDuplicates) (habs : ∀ r ∈ l.List, r.Address ≠ anp.Address) :
    (l.appended anp).NoDuplicates := by
  unfold AddressList.NoDuplicates AddressList.appended at *
  simp only [List.map_append, List.map_cons, List.map_nil]
  rw [List.nodup_append]
  refine ⟨h, List.nodup_singleton _, ?_⟩
  intro a ha hb
  simp only [List.mem_singleton] at hb
  subst hb
  obtain ⟨r, hr, hra⟩ := List.mem_map.mp ha
  exact habs r hr hra

theorem add_noDuplicates (F : Factom) (l : AddressList) (anp : AddressNamePair)
    (hv : F.IsValidAddress anp.Address = true) (h : l.NoDuplicates) :
    (l.add F anp).1.NoDuplicates := by
  rcases add_cases F l anp with ⟨he, -, hg⟩ | ⟨he, -⟩
  · rw [he]
    apply appended_noDuplicates l anp h
    rcases (Get_eq_none_iff F l anp.Address).mp hg with h' | h'
    · simp [hv] at h'
    · exact h'
  · rw [he]
    exact h

theorem AddANP_cases (F : Factom) (l : AddressList) (anp : AddressNamePair) :
    (l.AddANP F anp = (l.appended anp, none) ∧ F.IsValidAddress anp.Address = true ∧
        l.Get F anp.Address = none) ∨
    ((l.AddANP F anp).1 = l ∧ (l.AddANP F anp).2 ≠ none) := by
  unfold AddressList.AddANP
  split
  · exact Or.inr ⟨rfl, by simp⟩
  · rename_i hc
    have hv : F.IsValidAddress anp.Address = true := by
      cases hv : F.IsValidAddress anp.Address
      · exact absurd (Or.inr (by simp [hv])) hc
      · rfl
    cases hg : l.Get F anp.Address with
    | none => exact Or.inl ⟨rfl, hv, rfl⟩
    | some p => exact Or.inr ⟨rfl, by simp⟩

theorem Remove_cases (F : Factom) (l : AddressList) (address : GoString) :
    (l.Remove F address = (l, some .notFound) ∧ l.Get F address = none) ∨
    (∃ r i, l.Get F address = some (r, i) ∧ i < l.List.length ∧
      l.Remove F address =
        ({ Length := (l.Length + 2 ^ 64 - 1) % 2 ^ 64, List := l.List.eraseIdx i }, none)) := by
  unfold AddressList.Remove
  cases hg : l.Get F address with
  | none => exact Or.inl ⟨rfl, rfl⟩
  | some p =>
    obtain ⟨r, i⟩ := p
    obtain ⟨-, hi, -, -⟩ := Get_eq_some F l address r i hg
    have hlt : i < l.List.length := by
      by_contra hc
      rw [List.getElem?_eq_none (by omega)] at hi
      exact absurd hi (by simp)
    exact Or.inr ⟨r, i, rfl, hlt, by simp [List.eraseIdx_eq_take_drop_succ]⟩

theorem step_noDuplicates (F : Factom) (l : AddressList) (op : ListOp)
    (h : l.NoDuplicates) : (l.step F op).NoDuplicates := by
  cases op with
  | Add name address =>
    simp only [AddressList.step, AddressList.Add]
    cases hN : NewAddress F name address with
    | error e => exact h
    | ok a =>
      obtain ⟨rfl, -, hv⟩ := NewAddress_eq_ok F name address a hN
      exact add_noDuplicates F l _ hv h
  | AddSeeded name address =>
    simp only [AddressList.step, AddressList.AddSeeded]
    cases hN : NewSeededAddress F name address with
    | error e => exact h
    | ok a =>
      obtain ⟨rfl, -, hv⟩ := NewSeededAddress_eq_ok F name address a hN
      exact add_noDuplicates F l _ hv h
  | AddANP anp =>
    simp only [AddressList.step]
    rcases AddANP_cases F l anp with ⟨he, hv, hg⟩ | ⟨he, -⟩
    · rw [he]
      apply appended_noDuplicates l anp h
      rcases (Get_eq_none_iff F l anp.Address).mp hg with h' | h'
      · simp [hv] at h'
      · exact h'
    · rw [he]
      exact h
  | Remove address =>
    simp only [AddressList.step]
    rcases Remove_cases F l address with ⟨he, -⟩ | ⟨r, i, -, -, he⟩
    · rw [he]
      exact h
    · rw [he]
      exact List.Nodup.sublist ((List.eraseIdx_sublist l.List i).map _) h
  | ResetSeeded =>
    simp only [AddressList.step, AddressList.ResetSeeded, AddressList.NoDuplicates,
      List.map_map]
    exact h

theorem run_noDuplicates (F : Factom) (l : AddressList) (ops : ListOps)
    (h : l.NoDuplicates) : (l.run F ops).NoDuplicates := by
  induction ops generalizing l with
  | nil => exact h
  | cons op ops ih => exact ih (l.step F op) (step_noDuplicates F l op h)

/-- C4: after any sequence of `Add`, `AddSeeded`, `AddANP`, `Remove` (and `ResetSeeded`)
calls on a new list, with any arguments and whether each call succeeds or fails, no two
records of the list have the same address. -/
theorem C4_no_duplicate_addresses (F : Factom) (ops : ListOps) :
    (NewAddressList.run F ops).NoDuplicates := by
  apply run_noDuplicates
  simp [AddressList.NoDuplicates, NewAddressList]

theorem unmarshalLoop_length (F : Factom) (n : Nat) (acc : Records) (data : Bytes)
    (err : Option Error) (res : Records × Bytes × Option Error)
    (h : AddressList.unmarshalLoop F n acc data err = some res) :
    res.1.length = acc.length + n := by
  induction n generalizing acc data err with
  | zero =>
    simp only [AddressList.unmarshalLoop, Option.some.injEq] at h
    simp [← h]
  | succ n ih =>
    simp only [AddressList.unmarshalLoop] at h
    cases hu : AddressNamePair.UnmarshalBinaryData F AddressNamePair.new data with
    | none => simp [hu] at h
    | some p =>
      obtain ⟨anp, d, e⟩ := p
      simp only [hu] at h
      rw [ih _ _ _ h]
      simp
      omega

theorem step_lengthOk (F : Factom) (l : AddressList) (op : ListOp)
    (hinv : l.LengthOk) (hcap : l.List.length < 2 ^ 63) : (l.step F op).LengthOk := by
  unfold AddressList.LengthOk at *
  have happ : ∀ anp, (l.appended anp).Length = (l.appended anp).List.length := by
    intro anp
    simp only [AddressList.appended, List.length_append, List.length_singleton, hinv]
    omega
  cases op with
  | Add name address =>
    simp only [AddressList.step, AddressList.Add]
    cases hN : NewAddress F name address with
    | error e => exact hinv
    | ok a =>
      rcases add_cases F l a with ⟨he, -, -⟩ | ⟨he, -⟩
      · simp only [he]; exact happ a
      · simp only [he]; exact hinv
  | AddSeeded name address =>
    simp only [AddressList.step, AddressList.AddSeeded]
    cases hN : NewSeededAddress F name address with
    | error e => exact hinv
    | ok a =>
      rcases add_cases F l a with ⟨he, -, -⟩ | ⟨he, -⟩
      · simp only [he]; exact happ a
      · simp only [he]; exact hinv
  | AddANP anp =>
    simp only [AddressList.step]
    rcases AddANP_cases F l anp with ⟨he, -, -⟩ | ⟨he, -⟩
    · simp only [he]; exact happ anp
    · simp only [he]; exact hinv
  | Remove address =>
    simp only [AddressList.step]
    rcases Remove_cases F l address with ⟨he, -⟩ | ⟨r, i, -, hi, he⟩
    · simp only [he]; exact hinv
    · simp only [he, List.length_eraseIdx, hi, if_true, hinv]
      omega
  | ResetSeeded =>
    simp only [AddressList.step, AddressList.ResetSeeded, List.length_map]
    exact hinv

/-- C6 (as amended): on a list whose counter agrees with its slice (the slice length
being a Go `int`, below 2^63), every call of `Add`, `AddSeeded`, `AddANP`, `Remove` or
`ResetSeeded`, successful or not, leaves the counter in agreement with the slice; and so
does a call of `UnmarshalBinaryData` on a list that holds no record, whenever it returns
(with or without an error). -/
theorem C6_length_preserved (F : Factom) (l : AddressList) (hinv : l.LengthOk)
    (hcap : l.List.length < 2 ^ 63) :
    (∀ op : ListOp, (l.step F op).LengthOk) ∧
    (∀ data l' rest err, l.List = [] →
      l.UnmarshalBinaryData F data = some (l', rest, err) → l'.LengthOk) := by
  refine ⟨fun op => step_lengthOk F l op hinv hcap, ?_⟩
  intro data l' rest err hnil h
  unfold AddressList.UnmarshalBinaryData at h
  cases h8 : sliceTo data 8 with
  | none => simp [h8] at h
  | some pre =>
    cases h8' : sliceFrom data 8 with
    | none => simp [h8, h8'] at h
    | some body =>
      cases hl : AddressList.unmarshalLoop F (getUint64 pre) l.List body none with
      | none => simp [h8, h8', hl] at h
      | some res =>
        have hlen := unmarshalLoop_length F _ _ _ _ res hl
        obtain ⟨lst, d, e⟩ := res
        simp only [h8, h8', hl, Option.bind_eq_bind, Option.some_bind, Option.some.injEq,
          Prod.mk.injEq] at h
        obtain ⟨rfl, -, -⟩ := h
        simp only [AddressList.LengthOk]
        simp only [hnil, List.length_nil, Nat.zero_add] at hlen
        exact hlen.symm

/-- C6, witness: the new list, every call on it, and the decoding into it of the wire
form of a one-record list. -/
theorem C6_length_preserved_witness :
    (∀ op : ListOp, (NewAddressList.step tableFactom op).LengthOk) ∧
    ∃ l', NewAddressList.UnmarshalBinaryData tableFactom
        (AddressList.MarshalBinary tableFactom
          { Length := 1,
            List := [{ Name := [65], Address := addrFA1, Seeded := true, Balance := 0 }] }).1
        = some (l', [], none) ∧ l'.LengthOk :=
  have h := C6_length_preserved tableFactom NewAddressList rfl (by decide)
  have hev : NewAddressList.UnmarshalBinaryData tableFactom
      (AddressList.MarshalBinary tableFactom
        { Length := 1,
          List := [{ Name := [65], Address := addrFA1, Seeded := true, Balance := 0 }] }).1
      = some ({ Length := 1,
                List := [{ Name := [65], Address := addrFA1, Seeded := true, Balance := 0 }] },
          [], none) := by decide
  ⟨h.1, _, hev, h.2 _ _ _ _ rfl hev⟩

/-- C6, counterexample: decoding the wire form of the empty list (eight zero bytes) into
a list that holds one record returns no error and sets `Length` to 0, while `List` still
holds the record. -/
theorem C6_counterexample_unmarshal_nonempty :
    (AddressList.mk 1 [{ Name := [65], Address := addrFA1, Seeded := false, Balance := 0 }]).LengthOk ∧
    AddressList.UnmarshalBinaryData tableFactom
      (AddressList.mk 1 [{ Name := [65], Address := addrFA1, Seeded := false, Balance := 0 }])
      [0, 0, 0, 0, 0, 0, 0, 0]
      = some (AddressList.mk 0
          [{ Name := [65], Address := addrFA1, Seeded := false, Balance := 0 }], [], none) ∧
    ¬ (AddressList.mk 0
        [{ Name := [65], Address := addrFA1, Seeded := false, Balance := 0 }]).LengthOk := by
  refine ⟨rfl, by decide, ?_⟩
  unfold AddressList.LengthOk
  decide

theorem toNat_ofNat_byte (x : Nat) : (UInt8.ofNat x).toNat = x % 256 := by
  rfl

theorem getUint64_putUint64 (n : Nat) (h : n < 2 ^ 64) : getUint64 (putUint64 n) = n := by
  simp only [getUint64, putUint64, List.foldl_cons, List.foldl_nil, toNat_ofNat_byte]
  omega

theorem putUint64_length (n : Nat) : (putUint64 n).length = 8 := rfl

theorem marshalLoop_eq (F : Factom) (l : Records) (buf : Bytes) :
    AddressList.marshalLoop F l buf = (buf ++ recordsWire F l, none) := by
  induction l generalizing buf with
  | nil => simp [AddressList.marshalLoop, recordsWire]
  | cons r t ih =>
    have h2 : (r.MarshalBinary F).2 = none := rfl
    have hr : r.MarshalBinary F = ((r.MarshalBinary F).1, none) := by rw [← h2]
    rw [AddressList.marshalLoop, hr]
    simp only [ih, recordsWire, List.append_assoc]

theorem MarshalBinary_eq (F : Factom) (l : AddressList) :
    l.MarshalBinary F = (putUint64 l.Length ++ recordsWire F l.List, none) := by
  simp [AddressList.MarshalBinary, marshalLoop_eq]

/-- Decoding the wire form of a record with a surviving name and a valid address, into
any receiver and with any bytes after it. -/
theorem unmarshal_marshal (F : Factom) (hF : F.Lawful) (anp0 r : AddressNamePair)
    (rest : Bytes) (hname : NameOk r.Name) (hvalid : F.IsValidAddress r.Address = true) :
    AddressNamePair.UnmarshalBinaryData F anp0 ((r.MarshalBinary F).1 ++ rest) =
      some ({ anp0 with Name := r.Name, Address := r.Address, Seeded := r.Seeded },
        rest, none) := by
  obtain ⟨hlen, hhead, hlast⟩ := hname
  have hd := hF.decode_length _ hvalid
  have he := hF.encode_decode _ hvalid
  have hshape : (r.MarshalBinary F).1 ++ rest =
      (r.Name ++ List.replicate (20 - r.Name.length) 0) ++ (F.base58Decode r.Address ++
        ((if r.Seeded then [116, 114, 117, 101, 0] else [102, 97, 108, 115, 101]) ++ rest)) := by
    rw [marshal_eq F r hlen hd]
    simp only [List.append_nil, List.append_assoc]
  rw [hshape, unmarshal_fields F anp0 _ _ _ rest (by simp; omega) hd (by cases r.Seeded <;> rfl),
    trimNul_pad _ _ hhead hlast, he]
  cases hs : r.Seeded <;> rfl

/-- C1 (as amended): for every record whose name is at most 20 bytes long and neither
starts nor ends with a 0x00 byte, and whose address is valid, decoding its encoding
succeeds with an empty remainder and gives back its name, address and seeded flag. -/
theorem C1_record_round_trip (F : Factom) (hF : F.Lawful) (anp0 r : AddressNamePair)
    (hlen : r.Name.length ≤ 20) (hhead : r.Name.head? ≠ some 0)
    (hlast : r.Name.getLast? ≠ some 0) (hvalid : F.IsValidAddress r.Address = true) :
    RecordRoundTrips F anp0 r := by
  have h := unmarshal_marshal F hF anp0 r [] ⟨hlen, hhead, hlast⟩ hvalid
  rw [List.append_nil] at h
  exact ⟨_, h, rfl, rfl, rfl⟩

/-- C1, witness: the record named "Alice" at the first factoid address, seeded. -/
theorem C1_record_round_trip_witness :
    RecordRoundTrips tableFactom AddressNamePair.new
      { Name := [65, 108, 105, 99, 101], Address := addrFA1, Seeded := true, Balance := 7 } :=
  C1_record_round_trip tableFactom tableFactom_lawful _ _ (by decide) (by decide) (by decide)
    (by decide)

/-- C1, counterexample: the name "A\x00" is two bytes long and the address is valid, yet
the decoded name is "A": the trailing zero byte cannot be told from the padding. -/
theorem C1_counterexample_trailing_nul :
    tableFactom.Lawful ∧ ([65, 0] : GoString).length ≤ 20 ∧
    tableFactom.IsValidAddress addrFA1 = true ∧
    ¬ RecordRoundTrips tableFactom AddressNamePair.new
      { Name := [65, 0], Address := addrFA1, Seeded := false, Balance := 0 } := by
  refine ⟨tableFactom_lawful, by decide, by decide, ?_⟩
  rintro ⟨r', h, hn, -, -⟩
  have hev : AddressNamePair.UnmarshalBinaryData tableFactom AddressNamePair.new
      (AddressNamePair.MarshalBinary tableFactom
        { Name := [65, 0], Address := addrFA1, Seeded := false, Balance := 0 }).1
      = some ({ Name := [65], Address := addrFA1, Seeded := false, Balance := 0 }, [], none) := by
    decide
  rw [hev] at h
  simp only [Option.some.injEq, Prod.mk.injEq] at h
  rw [← h.1] at hn
  exact absurd hn (by decide)

theorem unmarshalLoop_wire (F : Factom) (hF : F.Lawful) (l acc : Records) (rest : Bytes)
    (hnames : ∀ r ∈ l, NameOk r.Name) (hvalid : ∀ r ∈ l, F.IsValidAddress r.Address = true) :
    AddressList.unmarshalLoop F l.length acc (recordsWire F l ++ rest) none =
      some (acc ++ l.map decoded, rest, none) := by
  induction l generalizing acc with
  | nil => simp [AddressList.unmarshalLoop, recordsWire]
  | cons r t ih =>
    simp only [List.length_cons, AddressList.unmarshalLoop, recordsWire, List.append_assoc]
    rw [unmarshal_marshal F hF _ r _ (hnames r (by simp)) (hvalid r (by simp))]
    simp only
    rw [ih _ (fun x hx => hnames x (by simp [hx])) (fun x hx => hvalid x (by simp [hx]))]
    simp [decoded]


/-- Two records of a duplicate-free list with the same address are the same record. -/
theorem eq_of_same_address (l : AddressList) (h : l.NoDuplicates) (a b : AddressNamePair)
    (ha : a ∈ l.List) (hb : b ∈ l.List) (hab : a.Address = b.Address) : a = b :=
  List.inj_on_of_nodup_map h ha hb hab

/-- The loop of `IsSameAs` answers true when every record scanned has a valid address
and a record with the same address and name in the duplicate-free list `b`. -/
theorem isSameLoop_true (F : Factom) (b : AddressList) (as : Records)
    (hv : ∀ r ∈ as, F.IsValidAddress r.Address = true) (hnd : b.NoDuplicates)
    (hsub : ∀ r ∈ as, ∃ r' ∈ b.List, r'.Address = r.Address ∧ r'.Name = r.Name) :
    AddressList.isSameLoop F b as = true := by
  induction as with
  | nil => rfl
  | cons anp t ih =>
    obtain ⟨r', hr', hra, hrn⟩ := hsub anp (by simp)
    have hvr : F.IsValidAddress r'.Address = true := by rw [hra]; exact hv anp (by simp)
    obtain ⟨inap, j, hg⟩ := Get_isSome_of_mem F b r' hr' hvr
    obtain ⟨-, hj, hia, -⟩ := Get_eq_some F b _ inap j hg
    have heq : inap = r' := eq_of_same_address b hnd inap r' (List.getElem?_mem hj) hr' hia
    subst heq
    rw [hra] at hg
    simp only [AddressList.isSameLoop, hg]
    have hsame : anp.IsSameAs inap = true := by
      simp [AddressNamePair.IsSameAs, AddressNamePair.IsSimilarTo, hra, hrn]
    simp only [hsame, Bool.not_true, Bool.false_eq_true, if_false]
    exact ih (fun r hr => hv r (by simp [hr])) (fun r hr => hsub r (by simp [hr]))

theorem step_allValid (F : Factom) (l : AddressList) (op : ListOp)
    (h : l.AllValid F) : (l.step F op).AllValid F := by
  have happ : ∀ anp, F.IsValidAddress anp.Address = true → (l.appended anp).AllValid F := by
    intro anp hv r hr
    simp only [AddressList.appended, List.mem_append, List.mem_singleton] at hr
    rcases hr with hr | rfl
    · exact h r hr
    · exact hv
  cases op with
  | Add name address =>
    simp only [AddressList.step, AddressList.Add]
    cases hN : NewAddress F name address with
    | error e => exact h
    | ok a =>
      obtain ⟨rfl, -, hv⟩ := NewAddress_eq_ok F name address a hN
      rcases add_cases F l { Name := name, Address := address, Seeded := false, Balance := 0 }
        with ⟨he, -, -⟩ | ⟨he, -⟩
      · simp only [he]; exact happ _ hv
      · simp only [he]; exact h
  | AddSeeded name address =>
    simp only [AddressList.step, AddressList.AddSeeded]
    cases hN : NewSeededAddress F name address with
    | error e => exact h
    | ok a =>
      obtain ⟨rfl, -, hv⟩ := NewSeededAddress_eq_ok F name address a hN
      rcases add_cases F l { Name := name, Address := address, Seeded := true, Balance := 0 }
        with ⟨he, -, -⟩ | ⟨he, -⟩
      · simp only [he]; exact happ _ hv
      · simp only [he]; exact h
  | AddANP anp =>
    simp only [AddressList.step]
    rcases AddANP_cases F l anp with ⟨he, hv, -⟩ | ⟨he, -⟩
    · simp only [he]; exact happ _ hv
    · simp only [he]; exact h
  | Remove address =>
    simp only [AddressList.step]
    rcases Remove_cases F l address with ⟨he, -⟩ | ⟨r, i, -, -, he⟩
    · simp only [he]; exact h
    · simp only [he]
      intro x hx
      exact h x ((List.eraseIdx_sublist l.List i).subset hx)
  | ResetSeeded =>
    simp only [AddressList.step, AddressList.ResetSeeded]
    intro x hx
    simp only [List.mem_map] at hx
    obtain ⟨y, hy, rfl⟩ := hx
    exact h y hy

theorem step_lengthMod (F : Factom) (l : AddressList) (op : ListOp)
    (hinv : l.LengthMod) : (l.step F op).LengthMod := by
  unfold AddressList.LengthMod at *
  have happ : ∀ anp, (l.appended anp).Length = (l.appended anp).List.length % 2 ^ 64 := by
    intro anp
    simp only [AddressList.appended, List.length_append, List.length_singleton, hinv]
    omega
  cases op with
  | Add name address =>
    simp only [AddressList.step, AddressList.Add]
    cases hN : NewAddress F name address with
    | error e => exact hinv
    | ok a =>
      rcases add_cases F l a with ⟨he, -, -⟩ | ⟨he, -⟩
      · simp only [he]; exact happ a
      · simp only [he]; exact hinv
  | AddSeeded name address =>
    simp only [AddressList.step, AddressList.AddSeeded]
    cases hN : NewSeededAddress F name address with
    | error e => exact hinv
    | ok a =>
      rcases add_cases F l a with ⟨he, -, -⟩ | ⟨he, -⟩
      · simp only [he]; exact happ a
      · simp only [he]; exact hinv
  | AddANP anp =>
    simp only [AddressList.step]
    rcases AddANP_cases F l anp with ⟨he, -, -⟩ | ⟨he, -⟩
    · simp only [he]; exact happ anp
    · simp only [he]; exact hinv
  | Remove address =>
    simp only [AddressList.step]
    rcases Remove_cases F l address with ⟨he, -⟩ | ⟨r, i, -, hi, he⟩
    · simp only [he]; exact hinv
    · simp only [he, List.length_eraseIdx, hi, if_true, hinv]
      omega
  | ResetSeeded =>
    simp only [AddressList.step, AddressList.ResetSeeded, List.length_map]
    exact hinv

theorem run_invariants (F : Factom) (l : AddressList) (ops : ListOps)
    (h1 : l.NoDuplicates) (h2 : l.AllValid F) (h3 : l.LengthMod) :
    (l.run F ops).NoDuplicates ∧ (l.run F ops).AllValid F ∧ (l.run F ops).LengthMod := by
  induction ops generalizing l with
  | nil => exact ⟨h1, h2, h3⟩
  | cons op ops ih =>
    exact ih (l.step F op) (step_noDuplicates F l op h1) (step_allValid F l op h2)
      (step_lengthMod F l op h3)

/-- The round trip of a duplicate-free list of valid addresses and surviving names whose
counter agrees with its slice. -/
theorem list_round_trip (F : Factom) (hF : F.Lawful) (l : AddressList)
    (h1 : l.NoDuplicates) (h2 : l.AllValid F) (h3 : l.Length = l.List.length)
    (hcap : l.List.length < 2 ^ 64) (hnames : ∀ r ∈ l.List, NameOk r.Name) :
    ListRoundTrips F l := by
  have hdec : NewAddressList.UnmarshalBinaryData F (l.MarshalBinary F).1 =
      some ({ Length := l.Length, List := l.List.map decoded }, [], none) := by
    rw [MarshalBinary_eq]
    simp only [AddressList.UnmarshalBinaryData,
      sliceTo_append _ _ 8 (putUint64_length l.Length),
      sliceFrom_append _ _ 8 (putUint64_length l.Length), Option.bind_eq_bind,
      Option.some_bind, getUint64_putUint64 l.Length (h3 ▸ hcap), NewAddressList]
    have hloop := unmarshalLoop_wire F hF l.List [] [] hnames h2
    rw [List.append_nil, ← h3] at hloop
    rw [hloop]
    simp
  refine ⟨_, hdec, ?_, ?_⟩
  · simp only [AddressList.IsSameAs, ne_eq, not_true_eq_false, if_false]
    apply isSameLoop_true F l _ _ h1
    · intro r hr
      obtain ⟨y, hy, rfl⟩ := List.mem_map.mp hr
      exact ⟨y, hy, rfl, rfl⟩
    · intro r hr
      obtain ⟨y, hy, rfl⟩ := List.mem_map.mp hr
      exact h2 y hy
  · simp only [AddressList.IsSameAs, ne_eq, not_true_eq_false, if_false]
    apply isSameLoop_true F _ _ h2
    · simp only [AddressList.NoDuplicates, List.map_map]
      exact h1
    · intro r hr
      exact ⟨decoded r, List.mem_map_of_mem _ hr, rfl, rfl⟩

/-- C3 (as amended): for every list reached from `NewAddressList` by `Add`, `AddSeeded`,
`AddANP`, `Remove` and `ResetSeeded` calls in which every name is at most 20 bytes long
and neither starts nor ends with a 0x00 byte (the slice length being a Go `int`, below
2^63), decoding its wire form into a new list succeeds with an empty remainder and gives
a list `M` with `M.IsSameAs(L)` and `L.IsSameAs(M)` both true. -/
theorem C3_list_round_trip (F : Factom) (hF : F.Lawful) (ops : ListOps)
    (hnames : ∀ r ∈ (NewAddressList.run F ops).List, NameOk r.Name)
    (hcap : (NewAddressList.run F ops).List.length < 2 ^ 63) :
    ListRoundTrips F (NewAddressList.run F ops) := by
  obtain ⟨h1, h2, h3⟩ := run_invariants F NewAddressList ops
    (by simp [AddressList.NoDuplicates, NewAddressList])
    (by intro r hr; simp [NewAddressList] at hr)
    (by simp [AddressList.LengthMod, NewAddressList])
  have hlt : (NewAddressList.run F ops).List.length < 2 ^ 64 := by omega
  have h3' : (NewAddressList.run F ops).Length = (NewAddressList.run F ops).List.length := by
    rw [h3]
    exact Nat.mod_eq_of_lt hlt
  exact list_round_trip F hF _ h1 h2 h3' hlt hnames

/-- C3, witness: two insertions, a reset of the seeded flags, a removal and a further
insertion. -/
theorem C3_list_round_trip_witness :
    ListRoundTrips tableFactom
      (NewAddressList.run tableFactom
        [.Add [65, 108, 105, 99, 101] addrFA1, .AddSeeded [66, 111, 98] addrEC1, .ResetSeeded,
         .Remove addrFA1, .AddSeeded [67] addrFA2]) :=
  C3_list_round_trip tableFactom tableFactom_lawful _ (by decide) (by decide)

/-- C3, counterexample: after `Add("A\x00", address)` the decoded list holds the name "A",
and `IsSameAs` reports the decoded list different from the original. -/
theorem C3_counterexample_trailing_nul :
    tableFactom.Lawful ∧
    ¬ ListRoundTrips tableFactom (NewAddressList.run tableFactom [.Add [65, 0] addrFA1]) := by
  refine ⟨tableFactom_lawful, ?_⟩
  rintro ⟨m, hdec, hsame, -⟩
  have hev : NewAddressList.UnmarshalBinaryData tableFactom
      ((NewAddressList.run tableFactom [.Add [65, 0] addrFA1]).MarshalBinary tableFactom).1
      = some ({ Length := 1,
                List := [{ Name := [65], Address := addrFA1, Seeded := false, Balance := 0 }] },
          [], none) := by decide
  rw [hev] at hdec
  simp only [Option.some.injEq, Prod.mk.injEq, and_true] at hdec
  rw [← hdec] at hsame
  exact absurd hsame (by decide)

theorem set_same_address (l : Records) (i : Nat) (r r' : AddressNamePair)
    (hi : l[i]? = some r) (ha : r'.Address = r.Address) :
    (l.set i r').map AddressNamePair.Address = l.map AddressNamePair.Address := by
  apply List.ext_getElem?
  intro j
  simp only [List.map_set, List.getElem?_set, List.length_map, List.getElem?_map]
  by_cases hij : i = j
  · subst hij
    have hlt : i < l.length := by
      by_contra hc
      rw [List.getElem?_eq_none (by omega)] at hi
      exact absurd hi (by simp)
    simp [hlt, hi, ha]
  · simp [hij]

theorem changeNameAt_addresses (l l' : AddressList) (i : Int) (toName : GoString)
    (err : Option Error) (h : l.changeNameAt i toName = some (l', err)) :
    l'.addresses = l.addresses ∧ l'.Length = l.Length := by
  unfold AddressList.changeNameAt at h
  by_cases hi : i < 0
  · simp [hi] at h
  · simp only [hi, if_false] at h
    cases hr : l.List[i.toNat]? with
    | none => simp [hr] at h
    | some r =>
      simp only [hr, Option.some.injEq, Prod.mk.injEq] at h
      obtain ⟨rfl, -⟩ := h
      refine ⟨?_, rfl⟩
      apply set_same_address l.List i.toNat r _ hr
      unfold AddressNamePair.ChangeName
      split <;> rfl

theorem ResetSeeded_addresses (l : AddressList) :
    l.ResetSeeded.addresses = l.addresses := by
  simp [AddressList.ResetSeeded, AddressList.addresses, List.map_map, Function.comp_def]

/-- Every record of the list after `Add` was in the list before or carries the inserted
address. -/
theorem Add_addresses (F : Factom) (l : AddressList) (name address : GoString) :
    ∀ a ∈ (l.Add F name address).1.addresses, a ∈ l.addresses ∨ a = address := by
  intro a ha
  simp only [AddressList.Add] at ha
  cases hN : NewAddress F name address with
  | error e => rw [hN] at ha; exact Or.inl ha
  | ok r =>
    rw [hN] at ha
    obtain ⟨rfl, -, -⟩ := NewAddress_eq_ok F name address r hN
    rcases add_cases F l { Name := name, Address := address, Seeded := false, Balance := 0 }
      with ⟨he, -, -⟩ | ⟨he, -⟩
    · simp only [he, AddressList.appended, AddressList.addresses, List.map_append,
        List.map_cons, List.map_nil, List.mem_append, List.mem_singleton] at ha
      exact ha
    · simp only [he] at ha; exact Or.inl ha

theorem AddSeeded_addresses (F : Factom) (l : AddressList) (name address : GoString) :
    ∀ a ∈ (l.AddSeeded F name address).1.addresses, a ∈ l.addresses ∨ a = address := by
  intro a ha
  simp only [AddressList.AddSeeded] at ha
  cases hN : NewSeededAddress F name address with
  | error e => rw [hN] at ha; exact Or.inl ha
  | ok r =>
    rw [hN] at ha
    obtain ⟨rfl, -, -⟩ := NewSeededAddress_eq_ok F name address r hN
    rcases add_cases F l { Name := name, Address := address, Seeded := true, Balance := 0 }
      with ⟨he, -, -⟩ | ⟨he, -⟩
    · simp only [he, AddressList.appended, AddressList.addresses, List.map_append,
        List.map_cons, List.map_nil, List.mem_append, List.mem_singleton] at ha
      exact ha
    · simp only [he] at ha; exact Or.inl ha

theorem Remove_addresses (F : Factom) (l : AddressList) (address : GoString) :
    ∀ a ∈ (l.Remove F address).1.addresses, a ∈ l.addresses := by
  intro a ha
  rcases Remove_cases F l address with ⟨he, -⟩ | ⟨r, i, -, -, he⟩
  · rw [he] at ha; exact ha
  · rw [he] at ha
    exact ((List.eraseIdx_sublist l.List i).map _).subset ha

theorem sliceTo_eq_some (s pre : Bytes) (n : Nat) (h : sliceTo s n = some pre) :
    pre = s.take n := by
  unfold sliceTo at h
  split at h
  · simpa using h.symm
  · simp at h

/-- What a nil error from `addAddress` establishes. -/
theorem addAddress_ok (F : Factom) (w : WalletStruct) (name address : GoString) (list : Int)
    (h : w.addAddress F name address list = some none) :
    (list = 1 ∨ list = 2 ∨ list = 3) ∧ (list = 1 → address.take 2 = strFA) ∧
      (list = 2 → address.take 2 = strEC) ∧ F.IsValidAddress address = true := by
  have hl : list = 1 ∨ list = 2 ∨ list = 3 := by
    by_contra hc
    have : list > 3 ∨ list ≤ 0 := by omega
    simp [WalletStruct.addAddress, this] at h
  refine ⟨hl, ?_⟩
  cases hs : sliceTo address 2 with
  | none =>
    rcases hl with rfl | rfl | rfl
    · simp [WalletStruct.addAddress, hs] at h
    · simp [WalletStruct.addAddress, hs] at h
    · simp only [WalletStruct.addAddress, hs] at h
      split at h <;> simp at h
      split at h <;> simp at h
  | some pre =>
    have hpre := sliceTo_eq_some _ _ _ hs
    subst hpre
    rcases hl with rfl | rfl | rfl
    · simp [WalletStruct.addAddress, hs] at h
      split at h
      · rename_i hp
        split at h
        · simp at h
        · rename_i hv
          exact ⟨fun _ => hp, fun hc => absurd hc (by decide), by simpa using hv⟩
      · simp at h
    · simp [WalletStruct.addAddress, hs] at h
      split at h
      · rename_i hp
        split at h
        · simp at h
        · rename_i hv
          exact ⟨fun hc => absurd hc (by decide), fun _ => hp, by simpa using hv⟩
      · simp at h
    · simp [WalletStruct.addAddress, hs] at h
      split at h
      · simp at h
      · split at h
        · simp at h
        · split at h
          · simp at h
          · rename_i hv
            exact ⟨fun hc => absurd hc (by decide), fun hc => absurd hc (by decide),
              by simpa using hv⟩


theorem Keeps_refl (w : WalletStruct) : w.Keeps w :=
  ⟨id, id, id, fun _ ha => Or.inl ha, fun _ ha => Or.inl ha⟩

theorem Add_noDuplicates (F : Factom) (l : AddressList) (name address : GoString)
    (h : l.NoDuplicates) : (l.Add F name address).1.NoDuplicates :=
  step_noDuplicates F l (.Add name address) h

theorem AddSeeded_noDuplicates (F : Factom) (l : AddressList) (name address : GoString)
    (h : l.NoDuplicates) : (l.AddSeeded F name address).1.NoDuplicates :=
  step_noDuplicates F l (.AddSeeded name address) h

theorem Remove_noDuplicates (F : Factom) (l : AddressList) (address : GoString)
    (h : l.NoDuplicates) : (l.Remove F address).1.NoDuplicates :=
  step_noDuplicates F l (.Remove address) h

theorem AddAddress_keeps (F : Factom) (w w' : WalletStruct) (name address : GoString)
    (list : Int) (res : Option AddressNamePair × Option Error)
    (h : w.AddAddress F name address list = some (w', res)) : w.Keeps w' := by
  unfold WalletStruct.AddAddress at h
  cases ha : w.addAddress F name address list with
  | none => simp [ha] at h
  | some oe =>
    cases oe with
    | some e =>
      simp only [ha, Option.some.injEq, Prod.mk.injEq] at h
      rw [← h.1]
      exact Keeps_refl w
    | none =>
      obtain ⟨hl, hfa, hec, -⟩ := addAddress_ok F w name address list ha
      simp only [ha] at h
      rcases hl with rfl | rfl | rfl
      · simp only [if_true, Option.some.injEq, Prod.mk.injEq] at h
        rw [← h.1]
        refine ⟨Add_noDuplicates F _ name address, id, id, ?_, fun _ ha => Or.inl ha⟩
        intro a ha'
        rcases Add_addresses F _ name address a ha' with h1 | h1
        · exact Or.inl h1
        · exact Or.inr (h1 ▸ hfa rfl)
      · simp only [show ¬ ((2 : Int) = 1) by decide, if_false, if_true, Option.some.injEq,
          Prod.mk.injEq] at h
        rw [← h.1]
        refine ⟨id, Add_noDuplicates F _ name address, id, fun _ ha => Or.inl ha, ?_⟩
        intro a ha'
        rcases Add_addresses F _ name address a ha' with h1 | h1
        · exact Or.inl h1
        · exact Or.inr (h1 ▸ hec rfl)
      · simp only [show ¬ ((3 : Int) = 1) by decide, show ¬ ((3 : Int) = 2) by decide,
          if_false, if_true, Option.some.injEq, Prod.mk.injEq] at h
        rw [← h.1]
        exact ⟨id, id, Add_noDuplicates F _ name address, fun _ ha => Or.inl ha,
          fun _ ha => Or.inl ha⟩

theorem AddSeededAddress_keeps (F : Factom) (w w' : WalletStruct) (name address : GoString)
    (list : Int) (res : Option AddressNamePair × Option Error)
    (h : w.AddSeededAddress F name address list = some (w', res)) : w.Keeps w' := by
  unfold WalletStruct.AddSeededAddress at h
  cases ha : w.addAddress F name address list with
  | none => simp [ha] at h
  | some oe =>
    cases oe with
    | some e =>
      simp only [ha, Option.some.injEq, Prod.mk.injEq] at h
      rw [← h.1]
      exact Keeps_refl w
    | none =>
      obtain ⟨hl, hfa, hec, -⟩ := addAddress_ok F w name address list ha
      simp only [ha] at h
      rcases hl with rfl | rfl | rfl
      · simp only [if_true, Option.some.injEq, Prod.mk.injEq] at h
        rw [← h.1]
        refine ⟨AddSeeded_noDuplicates F _ name address, id, id, ?_, fun _ ha => Or.inl ha⟩
        intro a ha'
        rcases AddSeeded_addresses F _ name address a ha' with h1 | h1
        · exact Or.inl h1
        · exact Or.inr (h1 ▸ hfa rfl)
      · simp only [show ¬ ((2 : Int) = 1) by decide, if_false, if_true, Option.some.injEq,
          Prod.mk.injEq] at h
        rw [← h.1]
        refine ⟨id, AddSeeded_noDuplicates F _ name address, id, fun _ ha => Or.inl ha, ?_⟩
        intro a ha'
        rcases AddSeeded_addresses F _ name address a ha' with h1 | h1
        · exact Or.inl h1
        · exact Or.inr (h1 ▸ hec rfl)
      · simp only [show ¬ ((3 : Int) = 1) by decide, show ¬ ((3 : Int) = 2) by decide,
          if_false, if_true, Option.some.injEq, Prod.mk.injEq] at h
        rw [← h.1]
        exact ⟨id, id, Add_noDuplicates F _ name address, fun _ ha => Or.inl ha,
          fun _ ha => Or.inl ha⟩

theorem RemoveAddress_keeps (F : Factom) (w : WalletStruct) (address : GoString)
    (list : Int) : w.Keeps (w.RemoveAddress F address list).1 := by
  unfold WalletStruct.RemoveAddress
  split
  · exact Keeps_refl w
  · split
    · have hk : w.Keeps { w with FactoidAddresses := (w.FactoidAddresses.Remove F address).1 } :=
        ⟨Remove_noDuplicates F _ address, id, id,
          fun a ha => Or.inl (Remove_addresses F _ address a ha), fun _ ha => Or.inl ha⟩
      split
      · rename_i he; simp only [he] at hk; exact hk
      · rename_i he; simp only [he] at hk; exact hk
    · split
      · have hk : w.Keeps
            { w with EntryCreditAddresses := (w.EntryCreditAddresses.Remove F address).1 } :=
          ⟨id, Remove_noDuplicates F _ address, id, fun _ ha => Or.inl ha,
            fun a ha => Or.inl (Remove_addresses F _ address a ha)⟩
        split
        · rename_i he; simp only [he] at hk; exact hk
        · rename_i he; simp only [he] at hk; exact hk
      · split
        · have hk : w.Keeps
              { w with ExternalAddresses := (w.ExternalAddresses.Remove F address).1 } :=
            ⟨id, id, Remove_noDuplicates F _ address, fun _ ha => Or.inl ha,
              fun _ ha => Or.inl ha⟩
          split
          · rename_i he; simp only [he] at hk; exact hk
          · rename_i he; simp only [he] at hk; exact hk
        · exact Keeps_refl w

theorem RemoveAddressFromAnyList_keeps (F : Factom) (w : WalletStruct) (address : GoString) :
    w.Keeps (w.RemoveAddressFromAnyList F address).1 := by
  unfold WalletStruct.RemoveAddressFromAnyList
  split
  rename_i anp list idx hg
  split
  · exact Keeps_refl w
  · have hk := RemoveAddress_keeps F w address list
    split
    · rename_i he; simp only [he] at hk; exact hk
    · rename_i he; simp only [he] at hk; exact hk

theorem changeNameAt_noDuplicates (l l' : AddressList) (i : Int) (toName : GoString)
    (err : Option Error) (h : l.changeNameAt i toName = some (l', err))
    (hn : l.NoDuplicates) : l'.NoDuplicates := by
  have := (changeNameAt_addresses l l' i toName err h).1
  unfold AddressList.NoDuplicates
  unfold AddressList.addresses at this
  rw [this]
  exact hn

theorem ChangeAddressName_keeps (F : Factom) (w w' : WalletStruct)
    (address toName : GoString) (err : Option Error)
    (h : w.ChangeAddressName F address toName = some (w', err)) : w.Keeps w' := by
  unfold WalletStruct.ChangeAddressName at h
  split at h
  · simp only [Option.some.injEq, Prod.mk.injEq] at h
    rw [← h.1]; exact Keeps_refl w
  · rename_i anp list i hg
    split at h
    · simp only [Option.some.injEq, Prod.mk.injEq] at h
      rw [← h.1]; exact Keeps_refl w
    · split at h
      · split at h
        · cases hc : w.FactoidAddresses.changeNameAt i toName with
          | none => simp [hc] at h
          | some p =>
            obtain ⟨l', e⟩ := p
            simp only [hc, Option.map_some', Option.some.injEq, Prod.mk.injEq] at h
            rw [← h.1]
            refine ⟨changeNameAt_noDuplicates _ _ _ _ _ hc, id, id, ?_, fun _ ha => Or.inl ha⟩
            intro a ha
            rw [(changeNameAt_addresses _ _ _ _ _ hc).1] at ha
            exact Or.inl ha
        · split at h
          · cases hc : w.EntryCreditAddresses.changeNameAt i toName with
            | none => simp [hc] at h
            | some p =>
              obtain ⟨l', e⟩ := p
              simp only [hc, Option.map_some', Option.some.injEq, Prod.mk.injEq] at h
              rw [← h.1]
              refine ⟨id, changeNameAt_noDuplicates _ _ _ _ _ hc, id, fun _ ha => Or.inl ha, ?_⟩
              intro a ha
              rw [(changeNameAt_addresses _ _ _ _ _ hc).1] at ha
              exact Or.inl ha
          · split at h
            · cases hc : w.ExternalAddresses.changeNameAt i toName with
              | none => simp [hc] at h
              | some p =>
                obtain ⟨l', e⟩ := p
                simp only [hc, Option.map_some', Option.some.injEq, Prod.mk.injEq] at h
                rw [← h.1]
                exact ⟨id, id, changeNameAt_noDuplicates _ _ _ _ _ hc,
                  fun _ ha => Or.inl ha, fun _ ha => Or.inl ha⟩
            · simp only [Option.some.injEq, Prod.mk.injEq] at h
              rw [← h.1]; exact Keeps_refl w
      · simp only [Option.some.injEq, Prod.mk.injEq] at h
        rw [← h.1]; exact Keeps_refl w

theorem ResetSeeded_noDuplicates (l : AddressList) (h : l.NoDuplicates) :
    l.ResetSeeded.NoDuplicates := by
  have := ResetSeeded_addresses l
  unfold AddressList.NoDuplicates
  unfold AddressList.addresses at this
  rw [this]
  exact h

theorem ResetSeeded_keeps (w : WalletStruct) : w.Keeps w.ResetSeeded := by
  refine ⟨ResetSeeded_noDuplicates _, ResetSeeded_noDuplicates _, id, ?_, ?_⟩
  · intro a ha
    simp only [WalletStruct.ResetSeeded, ResetSeeded_addresses] at ha
    exact Or.inl ha
  · intro a ha
    simp only [WalletStruct.ResetSeeded, ResetSeeded_addresses] at ha
    exact Or.inl ha

theorem step_keeps (F : Factom) (w w' : WalletStruct) (op : WalletOp)
    (h : w.step F op = some w') : w.Keeps w' := by
  cases op with
  | AddAddress name address list =>
    simp only [WalletStruct.step, Option.map_eq_some'] at h
    obtain ⟨⟨w1, res⟩, hr, rfl⟩ := h
    exact AddAddress_keeps F w _ name address list res hr
  | AddSeededAddress name address list =>
    simp only [WalletStruct.step, Option.map_eq_some'] at h
    obtain ⟨⟨w1, res⟩, hr, rfl⟩ := h
    exact AddSeededAddress_keeps F w _ name address list res hr
  | RemoveAddress address list =>
    simp only [WalletStruct.step, Option.some.injEq] at h
    rw [← h]; exact RemoveAddress_keeps F w address list
  | RemoveAddressFromAnyList address =>
    simp only [WalletStruct.step, Option.some.injEq] at h
    rw [← h]; exact RemoveAddressFromAnyList_keeps F w address
  | ChangeAddressName address toName =>
    simp only [WalletStruct.step, Option.map_eq_some'] at h
    obtain ⟨⟨w1, err⟩, hr, rfl⟩ := h
    exact ChangeAddressName_keeps F w _ address toName err hr
  | ResetSeeded =>
    simp only [WalletStruct.step, Option.some.injEq] at h
    rw [← h]; exact ResetSeeded_keeps w

theorem Classed_of_keeps (w w' : WalletStruct) (hk : w.Keeps w') (hc : w.Classed) :
    w'.Classed := by
  obtain ⟨k1, k2, k3, k4, k5⟩ := hk
  obtain ⟨c1, c2, c3, c4, c5⟩ := hc
  refine ⟨k1 c1, k2 c2, k3 c3, ?_, ?_⟩
  · intro a ha
    rcases k4 a ha with h | h
    · exact c4 a h
    · exact h
  · intro a ha
    rcases k5 a ha with h | h
    · exact c5 a h
    · exact h

theorem run_classed (F : Factom) (w w' : WalletStruct) (ops : List WalletOp)
    (hc : w.Classed) (h : w.run F ops = some w') : w'.Classed := by
  induction ops generalizing w with
  | nil =>
    simp only [WalletStruct.run, Option.some.injEq] at h
    rw [← h]; exact hc
  | cons op ops ih =>
    simp only [WalletStruct.run] at h
    cases hs : w.step F op with
    | none => simp [hs] at h
    | some w1 =>
      simp only [hs] at h
      exact ih w1 (Classed_of_keeps w w1 (step_keeps F w w1 op hs) hc) h

/-- C5 (as amended): in every wallet reached from `NewWallet` by `AddAddress`,
`AddSeededAddress`, `RemoveAddress`, `RemoveAddressFromAnyList`, `ChangeAddressName` and
`ResetSeeded` calls, each address occurs at most once in each of the three lists, and no
address occurs in both `FactoidAddresses` and `EntryCreditAddresses`. -/
theorem C5_owned_exclusive (F : Factom) (ops : List WalletOp) (w : WalletStruct)
    (h : NewWallet.run F ops = some w) : w.OwnedExclusive := by
  have hc : NewWallet.Classed := by
    simp [WalletStruct.Classed, NewWallet, NewAddressList, AddressList.NoDuplicates,
      AddressList.addresses]
  obtain ⟨c1, c2, c3, c4, c5⟩ := run_classed F NewWallet w ops hc h
  refine ⟨c1, c2, c3, ?_⟩
  intro a ha hb
  have h1 := c4 a ha
  have h2 := c5 a hb
  rw [h1] at h2
  exact absurd h2 (by decide)

/-- C5, witness: one address in each list, then a rename and a removal. -/
theorem C5_owned_exclusive_witness :
    NewWallet.run tableFactom
      [.AddAddress [65] addrFA1 1, .AddSeededAddress [66] addrEC1 2, .AddAddress [67] addrFA2 3,
       .ChangeAddressName addrEC1 [68], .RemoveAddressFromAnyList addrFA1]
      = some { FactoidAddresses := { Length := 0, List := [] },
               EntryCreditAddresses :=
                 { Length := 1,
                   List := [{ Name := [68], Address := addrEC1, Seeded := true, Balance := 0 }] },
               ExternalAddresses :=
                 { Length := 1,
                   List := [{ Name := [67], Address := addrFA2, Seeded := false, Balance := 0 }] },
               FactoidTotal := 0, ECTotal := 0 } ∧
    WalletStruct.OwnedExclusive
      { FactoidAddresses := { Length := 0, List := [] },
        EntryCreditAddresses :=
          { Length := 1,
            List := [{ Name := [68], Address := addrEC1, Seeded := true, Balance := 0 }] },
        ExternalAddresses :=
          { Length := 1,
            List := [{ Name := [67], Address := addrFA2, Seeded := false, Balance := 0 }] },
        FactoidTotal := 0, ECTotal := 0 } :=
  have h : NewWallet.run tableFactom
      [.AddAddress [65] addrFA1 1, .AddSeededAddress [66] addrEC1 2, .AddAddress [67] addrFA2 3,
       .ChangeAddressName addrEC1 [68], .RemoveAddressFromAnyList addrFA1]
      = some { FactoidAddresses := { Length := 0, List := [] },
               EntryCreditAddresses :=
                 { Length := 1,
                   List := [{ Name := [68], Address := addrEC1, Seeded := true, Balance := 0 }] },
               ExternalAddresses :=
                 { Length := 1,
                   List := [{ Name := [67], Address := addrFA2, Seeded := false, Balance := 0 }] },
               FactoidTotal := 0, ECTotal := 0 } := by decide
  ⟨h, C5_owned_exclusive tableFactom _ _ h⟩

/-- C5, counterexample: an address added to the external list and then to the factoid
list is accepted both times (only insertions into the external list look at the other
lists), so it occurs in two lists. -/
theorem C5_counterexample_external_then_factoid :
    NewWallet.run tableFactom [.AddAddress [65] addrFA1 3, .AddAddress [65] addrFA1 1]
      = some { FactoidAddresses :=
                 { Length := 1,
                   List := [{ Name := [65], Address := addrFA1, Seeded := false, Balance := 0 }] },
               EntryCreditAddresses := { Length := 0, List := [] },
               ExternalAddresses :=
                 { Length := 1,
                   List := [{ Name := [65], Address := addrFA1, Seeded := false, Balance := 0 }] },
               FactoidTotal := 0, ECTotal := 0 } ∧
    ¬ WalletStruct.Exclusive
      { FactoidAddresses :=
          { Length := 1,
            List := [{ Name := [65], Address := addrFA1, Seeded := false, Balance := 0 }] },
        EntryCreditAddresses := { Length := 0, List := [] },
        ExternalAddresses :=
          { Length := 1,
            List := [{ Name := [65], Address := addrFA1, Seeded := false, Balance := 0 }] },
        FactoidTotal := 0, ECTotal := 0 } := by
  refine ⟨by decide, ?_⟩
  unfold WalletStruct.Exclusive AddressList.addresses
  decide

/-- C10: when `GetAddress` finds the address in the factoid list or in the entry credit
list (which it does for valid addresses only), `AddAddress` and `AddSeededAddress` with
list 3 return an error, return no record, and leave the wallet, all three lists
included, as it was. -/
theorem C10_external_rejected_when_owned (F : Factom) (w : WalletStruct)
    (name address : GoString)
    (hfound : (w.GetAddress F address).2.1 = 1 ∨ (w.GetAddress F address).2.1 = 2) :
    (∃ e, w.AddAddress F name address 3 = some (w, none, some e)) ∧
    (∃ e, w.AddSeededAddress F name address 3 = some (w, none, some e)) := by
  have hne : (w.GetAddress F address).2.1 ≠ -1 := by
    rcases hfound with h | h <;> rw [h] <;> decide
  have hadd : w.addAddress F name address 3 =
      some (some (.inAddressbook ((w.GetAddress F address).1.elim [] AddressNamePair.Name))) := by
    simp [WalletStruct.addAddress, hne]
  exact ⟨⟨.inAddressbook ((w.GetAddress F address).1.elim [] AddressNamePair.Name),
      by simp [WalletStruct.AddAddress, hadd]⟩,
    ⟨.inAddressbook ((w.GetAddress F address).1.elim [] AddressNamePair.Name),
      by simp [WalletStruct.AddSeededAddress, hadd]⟩⟩

/-- C10, witness: the first factoid address is in the factoid list and is then offered
to the external list. -/
theorem C10_external_rejected_when_owned_witness :
    (∃ e, (WalletStruct.mk
        { Length := 1,
          List := [{ Name := [65], Address := addrFA1, Seeded := false, Balance := 0 }] }
        NewAddressList NewAddressList 0 0).AddAddress tableFactom [66] addrFA1 3
      = some (WalletStruct.mk
        { Length := 1,
          List := [{ Name := [65], Address := addrFA1, Seeded := false, Balance := 0 }] }
        NewAddressList NewAddressList 0 0, none, some e)) :=
  (C10_external_rejected_when_owned tableFactom _ [66] addrFA1 (Or.inl (by decide))).1

theorem split_63 (d : Bytes) :
    d = d.take 20 ++ ((d.drop 20).take 38 ++ ((d.drop 58).take 5 ++ d.drop 63)) := by
  have h1 : (d.drop 58).take 5 ++ d.drop 63 = d.drop 58 := by
    have := List.take_append_drop 5 (d.drop 58)
    rw [List.drop_drop] at this
    exact this
  have h2 : (d.drop 20).take 38 ++ d.drop 58 = d.drop 20 := by
    have := List.take_append_drop 38 (d.drop 20)
    rw [List.drop_drop] at this
    exact this
  rw [h1, h2, List.take_append_drop]

/-- The decoding of any buffer of at least 63 bytes, in terms of its three fields. -/
theorem unmarshal_of_length (F : Factom) (anp : AddressNamePair) (d : Bytes)
    (h : 63 ≤ d.length) :
    AddressNamePair.UnmarshalBinaryData F anp d =
      match ParseBool (boolText d) with
      | .error err =>
        some ({ anp with Name := trimNul (d.take 20),
                         Address := F.base58Encode ((d.drop 20).take 38) }, d, some err)
      | .ok v =>
        some ({ anp with Name := trimNul (d.take 20),
                         Address := F.base58Encode ((d.drop 20).take 38), Seeded := v },
          d.drop 63, none) := by
  have hn : (d.take 20).length = 20 := by simp; omega
  have ha : ((d.drop 20).take 38).length = 38 := by simp; omega
  have hb : ((d.drop 58).take 5).length = 5 := by simp; omega
  have hf := unmarshal_fields F anp _ _ _ (d.drop 63) hn ha hb
  rw [← split_63 d] at hf
  have h4 : ((d.drop 58).take 5)[4]? = d[62]? := by
    rw [List.getElem?_take_of_lt (by omega), List.getElem?_drop]
  have ht : ((d.drop 58).take 5).take 4 = (d.drop 58).take 4 := by
    rw [List.take_take]
    rfl
  rw [hf, h4, ht]
  rfl

/-- A buffer of fewer than 63 bytes faults. -/
theorem unmarshal_short (F : Factom) (anp : AddressNamePair) (d : Bytes)
    (h : d.length < 63) : AddressNamePair.UnmarshalBinaryData F anp d = none := by
  unfold AddressNamePair.UnmarshalBinaryData
  simp only [sliceTo, sliceFrom, MaxNameLength, List.length_drop]
  by_cases h1 : 20 ≤ d.length
  · by_cases h2 : 38 ≤ d.length - 20
    · simp only [h1, h2, if_true, Option.bind_eq_bind, Option.some_bind, Option.pure_def,
        bind_pure_comp, List.drop_drop, List.length_drop]
      have h3 : ¬ 5 ≤ d.length - (20 + 38) := by omega
      simp [h3]
    · simp [h1, h2]
  · simp [h1]

/-- C12: for every buffer of at least 63 bytes, the record's `UnmarshalBinaryData` does
not fault; it returns an error if and only if the boolean text parser does not accept the
text of bytes 58..62 (byte 62 dropped when it is 0x00); with an error the returned bytes
are the whole buffer, and without one they are the buffer less its first 63 bytes and
`Seeded` is the parsed boolean. -/
theorem C12_record_decode_error_iff (F : Factom) (anp : AddressNamePair) (b : Bytes)
    (h : 63 ≤ b.length) :
    AddressNamePair.UnmarshalBinaryData F anp b ≠ none ∧
    ((∃ r rest e, AddressNamePair.UnmarshalBinaryData F anp b = some (r, rest, some e)) ↔
      ∀ v, ParseBool (boolText b) ≠ .ok v) ∧
    (∀ r rest e, AddressNamePair.UnmarshalBinaryData F anp b = some (r, rest, some e) →
      rest = b) ∧
    (∀ r rest, AddressNamePair.UnmarshalBinaryData F anp b = some (r, rest, none) →
      rest = b.drop 63 ∧ ParseBool (boolText b) = .ok r.Seeded) := by
  rw [unmarshal_of_length F anp b h]
  cases hp : ParseBool (boolText b) with
  | error err =>
    refine ⟨by simp, ⟨fun _ v => by simp, fun _ => ⟨_, _, _, rfl⟩⟩, ?_, ?_⟩
    · intro r rest e he
      simp only [Option.some.injEq, Prod.mk.injEq] at he
      exact he.2.1.symm
    · intro r rest he
      simp at he
  | ok v =>
    refine ⟨by simp, ⟨?_, fun hv => absurd rfl (hv v)⟩, ?_, ?_⟩
    · rintro ⟨r, rest, e, he⟩
      simp at he
    · intro r rest e he
      simp at he
    · intro r rest he
      simp only [Option.some.injEq, Prod.mk.injEq, and_true] at he
      obtain ⟨rfl, rfl⟩ := he
      exact ⟨rfl, rfl⟩

theorem rdropWhile_append_rtakeWhile (p : UInt8 → Bool) (l : Bytes) :
    l.rdropWhile p ++ l.rtakeWhile p = l := by
  have h := List.takeWhile_append_dropWhile p l.reverse
  have h2 := congrArg List.reverse h
  rw [List.reverse_append, List.reverse_reverse] at h2
  exact h2

theorem eq_replicate_zero (l : Bytes) (h : ∀ x ∈ l, (x == 0) = true) :
    l = List.replicate l.length 0 := by
  rw [List.eq_replicate_iff]
  exact ⟨rfl, fun x hx => by simpa using h x hx⟩

/-- What `bytes.Trim(s, "\x00")` returns: the part of `s` between its leading and its
trailing zero bytes. -/
theorem trimNul_spec (s : Bytes) :
    ∃ i j, s = List.replicate i 0 ++ trimNul s ++ List.replicate j 0 ∧
      (trimNul s).head? ≠ some 0 ∧ (trimNul s).getLast? ≠ some 0 := by
  have h1 := List.takeWhile_append_dropWhile (· == (0 : UInt8)) s
  have h2 := rdropWhile_append_rtakeWhile (· == (0 : UInt8)) (s.dropWhile (· == 0))
  have hz1 := eq_replicate_zero (s.takeWhile (· == 0))
    (fun x hx => List.mem_takeWhile_imp (p := (· == (0 : UInt8))) hx)
  have hz2 := eq_replicate_zero ((s.dropWhile (· == 0)).rtakeWhile (· == 0))
    (fun x hx => List.mem_rtakeWhile_imp (p := (· == (0 : UInt8))) hx)
  refine ⟨(s.takeWhile (· == 0)).length,
    ((s.dropWhile (· == 0)).rtakeWhile (· == 0)).length, ?_, ?_, ?_⟩
  · rw [← hz1, ← hz2, List.append_assoc]
    unfold trimNul
    rw [h2, h1]
  · unfold trimNul
    intro hh
    have hpre : (s.dropWhile (· == 0)).rdropWhile (· == 0) <+: s.dropWhile (· == 0) :=
      List.rdropWhile_prefix _ _
    obtain ⟨t, ht⟩ := hpre
    cases hr : (s.dropWhile (· == 0)).rdropWhile (· == 0) with
    | nil => rw [hr] at hh; simp at hh
    | cons x xs =>
      rw [hr] at hh ht
      simp only [List.head?_cons, Option.some.injEq] at hh
      have hnot := List.head?_dropWhile_not (· == (0 : UInt8)) s
      rw [← ht] at hnot
      simp [hh] at hnot
  · unfold trimNul
    intro hh
    cases hr : (s.dropWhile (· == 0)).rdropWhile (· == 0) with
    | nil => rw [hr] at hh; simp at hh
    | cons x xs =>
      have hne : (s.dropWhile (· == 0)).rdropWhile (· == 0) ≠ [] := by simp [hr]
      have hnot := List.rdropWhile_last_not (· == (0 : UInt8)) (s.dropWhile (· == 0)) hne
      rw [List.getLast?_eq_getLast _ hne, Option.some.injEq] at hh
      rw [hh] at hnot
      simp at hnot

theorem head?_ne_of_not_mem (name : Bytes) (h : (0 : UInt8) ∉ name) :
    name.head? ≠ some 0 := by
  intro hh
  exact h (List.mem_of_mem_head? hh)

theorem getLast?_ne_of_not_mem (name : Bytes) (h : (0 : UInt8) ∉ name) :
    name.getLast? ≠ some 0 := by
  intro hh
  exact h (List.mem_of_mem_getLast? hh)

/-- C13 (as amended): whenever the record's `UnmarshalBinaryData` succeeds, the decoded
name is the first 20 bytes of the buffer with their leading and their trailing 0x00
bytes removed and nothing else removed; and for every name of at most 20 bytes that
holds no 0x00 byte, decoding the encoding of a record with that name succeeds and reads
back exactly that name. -/
theorem C13_decoded_name (F : Factom) :
    (∀ (anp r : AddressNamePair) (b rest : Bytes),
      AddressNamePair.UnmarshalBinaryData F anp b = some (r, rest, none) →
      ∃ i j, b.take 20 = List.replicate i 0 ++ r.Name ++ List.replicate j 0 ∧
        r.Name.head? ≠ some 0 ∧ r.Name.getLast? ≠ some 0) ∧
    (∀ (anp r : AddressNamePair), r.Name.length ≤ 20 → (0 : UInt8) ∉ r.Name →
      ∃ r' rest, AddressNamePair.UnmarshalBinaryData F anp (r.MarshalBinary F).1
        = some (r', rest, none) ∧ r'.Name = r.Name) := by
  constructor
  · intro anp r b rest hdec
    have hlen : 63 ≤ b.length := by
      by_contra hc
      rw [unmarshal_short F anp b (by omega)] at hdec
      exact absurd hdec (by simp)
    rw [unmarshal_of_length F anp b hlen] at hdec
    cases hp : ParseBool (boolText b) with
    | error err => simp [hp] at hdec
    | ok v =>
      simp only [hp, Option.some.injEq, Prod.mk.injEq, and_true] at hdec
      obtain ⟨rfl, -⟩ := hdec
      exact trimNul_spec (b.take 20)
  · intro anp r hlen hz
    have hn := goCopy_length (List.replicate MaxNameLength 0) r.Name
    have ha := goCopy_length (List.replicate 38 0) (F.base58Decode r.Address)
    simp only [List.length_replicate, MaxNameLength] at hn ha
    have hshape : (r.MarshalBinary F).1 =
        goCopy (List.replicate 20 0) r.Name ++ (goCopy (List.replicate 38 0)
          (F.base58Decode r.Address) ++
          ((if r.Seeded then [116, 114, 117, 101, 0] else [102, 97, 108, 115, 101]) ++ [])) := by
      simp only [AddressNamePair.MarshalBinary, MaxNameLength, List.append_nil,
        List.append_assoc]
      cases r.Seeded <;> rfl
    rw [hshape, unmarshal_fields F anp _ _ _ [] hn ha (by cases r.Seeded <;> rfl),
      goCopy_replicate, List.take_of_length_le hlen,
      trimNul_pad _ _ (head?_ne_of_not_mem _ hz) (getLast?_ne_of_not_mem _ hz)]
    cases r.Seeded
    · exact ⟨_, _, rfl, rfl⟩
    · exact ⟨_, _, rfl, rfl⟩

/-- C12, witness: a 63-byte buffer whose boolean field is the text "xxxxx" is rejected,
and the bytes returned are the whole buffer. -/
theorem C12_record_decode_error_iff_witness :
    AddressNamePair.UnmarshalBinaryData tableFactom AddressNamePair.new bufBadBool
      = some ({ Name := [65], Address := addrFA1, Seeded := false, Balance := 0 }, bufBadBool,
          some (.parseBoolInvalid [120, 120, 120, 120, 120])) ∧
    (∃ r rest e, AddressNamePair.UnmarshalBinaryData tableFactom AddressNamePair.new bufBadBool
      = some (r, rest, some e)) :=
  ⟨by decide,
    (C12_record_decode_error_iff tableFactom AddressNamePair.new bufBadBool (by decide)).2.1.mpr
      (fun v hv => by
        have h : ParseBool (boolText bufBadBool)
            = .error (.parseBoolInvalid [120, 120, 120, 120, 120]) := rfl
        rw [h] at hv
        cases hv)⟩

/-- C13, counterexample: the name field 0x00, "A", 0x00, ... decodes to the name "A",
while removing only the trailing zero bytes would leave 0x00, "A". -/
theorem C13_counterexample_leading_nul :
    AddressNamePair.UnmarshalBinaryData tableFactom AddressNamePair.new bufLeadingNul
      = some ({ Name := [65], Address := addrFA1, Seeded := false, Balance := 0 }, [], none) ∧
    (bufLeadingNul.take 20).rdropWhile (· == 0) = [0, 65] ∧
    ([65] : GoString) ≠ (bufLeadingNul.take 20).rdropWhile (· == 0) := by
  refine ⟨by decide, by decide, by decide⟩

theorem record_marshal_length (F : Factom) (r : AddressNamePair) :
    (r.MarshalBinary F).1.length = 63 := by
  have hn := goCopy_length (List.replicate MaxNameLength 0) r.Name
  have ha := goCopy_length (List.replicate 38 0) (F.base58Decode r.Address)
  simp only [List.length_replicate, MaxNameLength] at hn ha
  simp only [AddressNamePair.MarshalBinary, List.length_append, hn, ha, MaxNameLength]
  cases r.Seeded <;> rfl

theorem recordsWire_length (F : Factom) (l : Records) :
    (recordsWire F l).length = 63 * l.length := by
  induction l with
  | nil => rfl
  | cons r t ih =>
    simp only [recordsWire, List.length_append, record_marshal_length, ih, List.length_cons]
    omega

/-- C14: the list's `MarshalBinary` returns no error, and its bytes are the 8-byte
big-endian encoding of `Length` (byte `i` is `Length / 256^(7-i)` modulo 256) followed by
the 63-byte encodings of the records concatenated in list order, so their number is
8 + 63 * (number of records). -/
theorem C14_list_marshal (F : Factom) (l : AddressList) :
    (l.MarshalBinary F).2 = none ∧
    (l.MarshalBinary F).1 = putUint64 l.Length ++ recordsWire F l.List ∧
    (∀ i, i < 8 →
      (putUint64 l.Length)[i]?.map UInt8.toNat = some (l.Length / 256 ^ (7 - i) % 256)) ∧
    (∀ r rest, recordsWire F (r :: rest) = (r.MarshalBinary F).1 ++ recordsWire F rest) ∧
    recordsWire F [] = [] ∧
    (l.MarshalBinary F).1.length = 8 + 63 * l.List.length := by
  refine ⟨by rw [MarshalBinary_eq], by rw [MarshalBinary_eq], ?_, fun _ _ => rfl, rfl, ?_⟩
  · intro i hi
    interval_cases i <;> simp [putUint64, toNat_ofNat_byte]
  · rw [MarshalBinary_eq]
    simp only [List.length_append, putUint64_length, recordsWire_length]

theorem boolText_take (d : Bytes) : boolText (d.take 63) = boolText d := by
  unfold boolText
  have h1 : (d.take 63)[62]? = d[62]? := List.getElem?_take_of_lt (by omega)
  have h2 : ((d.take 63).drop 58).take 5 = (d.drop 58).take 5 := by
    rw [List.drop_take, List.take_take]
    rfl
  have h3 : ((d.take 63).drop 58).take 4 = (d.drop 58).take 4 := by
    rw [List.drop_take, List.take_take]
    rfl
  rw [h1, h2, h3]

/-- A buffer decodes without error exactly when it has 63 bytes and its boolean text is
accepted. -/
theorem decodes_iff (F : Factom) (anp : AddressNamePair) (d : Bytes) :
    (∃ r rest, AddressNamePair.UnmarshalBinaryData F anp d = some (r, rest, none)) ↔
      63 ≤ d.length ∧ ∃ v, ParseBool (boolText d) = .ok v := by
  by_cases h : 63 ≤ d.length
  · rw [unmarshal_of_length F anp d h]
    cases hp : ParseBool (boolText d) with
    | error err => simp [h]
    | ok v => simp [h]
  · rw [unmarshal_short F anp d (by omega)]
    simp [h]

/-- A buffer decodes with error `e` exactly when it has 63 bytes and the parser rejects
its boolean text with `e`; the bytes returned are then the buffer itself. -/
theorem decode_error_iff (F : Factom) (anp : AddressNamePair) (d : Bytes) (e : Error) :
    (∃ r rest, AddressNamePair.UnmarshalBinaryData F anp d = some (r, rest, some e)) ↔
      63 ≤ d.length ∧ ParseBool (boolText d) = .error e := by
  by_cases h : 63 ≤ d.length
  · rw [unmarshal_of_length F anp d h]
    cases hp : ParseBool (boolText d) with
    | error err => simp [h]
    | ok v => simp [h]
  · rw [unmarshal_short F anp d (by omega)]
    simp [h]

theorem recordDecodes_take (F : Factom) (d : Bytes) :
    RecordDecodes F (d.take 63) ↔ 63 ≤ d.length ∧ ∃ v, ParseBool (boolText d) = .ok v := by
  unfold RecordDecodes
  rw [decodes_iff, boolText_take, List.length_take]
  constructor
  · rintro ⟨h1, h2⟩
    exact ⟨by omega, h2⟩
  · rintro ⟨h1, h2⟩
    exact ⟨by omega, h2⟩

/-- Once a record fails, every later iteration decodes the same bytes and fails with the
same error. -/
theorem unmarshalLoop_sticky (F : Factom) (d : Bytes) (e : Error)
    (hd : 63 ≤ d.length) (he : ParseBool (boolText d) = .error e) (n : Nat) (acc : Records) :
    ∃ lst, AddressList.unmarshalLoop F n acc d (some e) = some (lst, d, some e) := by
  induction n generalizing acc with
  | zero => exact ⟨acc, rfl⟩
  | succ n ih =>
    simp only [AddressList.unmarshalLoop, unmarshal_of_length F _ d hd, he]
    exact ih _

theorem unmarshalLoop_sticky_ne (F : Factom) (d : Bytes) (e : Error)
    (hd : 63 ≤ d.length) (he : ParseBool (boolText d) = .error e) (n : Nat)
    (acc lst : Records) (rest : Bytes) :
    AddressList.unmarshalLoop F n acc d (some e) ≠ some (lst, rest, none) := by
  obtain ⟨lst', hl⟩ := unmarshalLoop_sticky F d e hd he n acc
  rw [hl]
  simp

theorem unmarshalLoop_success (F : Factom) (n : Nat) (acc : Records) (d : Bytes)
    (e0 : Option Error) (lst : Records) (rest : Bytes)
    (h : AddressList.unmarshalLoop F n acc d e0 = some (lst, rest, none)) :
    63 * n ≤ d.length ∧ rest = d.drop (63 * n) ∧
      ∀ k < n, RecordDecodes F ((d.drop (63 * k)).take 63) := by
  induction n generalizing acc d e0 with
  | zero =>
    simp only [AddressList.unmarshalLoop, Option.some.injEq, Prod.mk.injEq] at h
    exact ⟨by omega, by simp [h.2.1], fun k hk => absurd hk (by omega)⟩
  | succ n ih =>
    by_cases hd : 63 ≤ d.length
    · simp only [AddressList.unmarshalLoop, unmarshal_of_length F _ d hd] at h
      cases hp : ParseBool (boolText d) with
      | error err =>
        simp only [hp] at h
        exact absurd h (unmarshalLoop_sticky_ne F d err hd hp n _ _ _)
      | ok v =>
        simp only [hp] at h
        obtain ⟨h1, h2, h3⟩ := ih _ _ _ h
        simp only [List.length_drop, List.drop_drop] at h1 h2 h3
        refine ⟨by omega, ?_, ?_⟩
        · rw [h2]
          congr 1
          omega
        · intro k hk
          cases k with
          | zero =>
            simp only [Nat.mul_zero, List.drop_zero]
            exact (recordDecodes_take F d).mpr ⟨hd, v, hp⟩
          | succ k =>
            have := h3 k (by omega)
            have he : 63 * (k + 1) = 63 + 63 * k := by omega
            rw [he]
            exact this
    · simp only [AddressList.unmarshalLoop, unmarshal_short F _ d (by omega)] at h
      exact absurd h (by simp)

theorem unmarshalLoop_complete (F : Factom) (n : Nat) (acc : Records) (d : Bytes)
    (hlen : 63 * n ≤ d.length)
    (hrec : ∀ k < n, RecordDecodes F ((d.drop (63 * k)).take 63)) :
    ∃ lst, AddressList.unmarshalLoop F n acc d none = some (lst, d.drop (63 * n), none)
      ∧ lst.length = acc.length + n := by
  induction n generalizing acc d with
  | zero => exact ⟨acc, by simp [AddressList.unmarshalLoop], rfl⟩
  | succ n ih =>
    have hd : 63 ≤ d.length := by omega
    have h0 := hrec 0 (by omega)
    simp only [Nat.mul_zero, List.drop_zero] at h0
    obtain ⟨-, v, hp⟩ := (recordDecodes_take F d).mp h0
    simp only [AddressList.unmarshalLoop, unmarshal_of_length F _ d hd, hp]
    have hrec' : ∀ k < n, RecordDecodes F (((d.drop 63).drop (63 * k)).take 63) := by
      intro k hk
      have := hrec (k + 1) (by omega)
      rw [List.drop_drop]
      have he : 63 * (k + 1) = 63 + 63 * k := by omega
      rw [he] at this
      exact this
    have hlen' : 63 * n ≤ (d.drop 63).length := by
      simp only [List.length_drop]
      omega
    obtain ⟨lst, h1, h2⟩ := ih (acc ++ [AddressNamePair.mk (trimNul (d.take 20))
      (F.base58Encode ((d.drop 20).take 38)) v 0]) (d.drop 63) hlen' hrec'
    refine ⟨lst, ?_, ?_⟩
    · have he : 63 * (n + 1) = 63 + 63 * n := by omega
      rw [he, ← List.drop_drop]
      exact h1
    · simp only [List.length_append, List.length_singleton] at h2
      omega

/-- The error of the first record that fails is the error the loop ends with. -/
theorem unmarshalLoop_first_error (F : Factom) (k n : Nat) (acc : Records) (d : Bytes)
    (e0 : Option Error) (e : Error) (hk : k < n) (hlen : 63 * (k + 1) ≤ d.length)
    (hrec : ∀ j < k, RecordDecodes F ((d.drop (63 * j)).take 63))
    (hbad : ParseBool (boolText (d.drop (63 * k))) = .error e) :
    ∃ lst rest, AddressList.unmarshalLoop F n acc d e0 = some (lst, rest, some e) := by
  induction k generalizing n acc d e0 with
  | zero =>
    obtain ⟨m, rfl⟩ : ∃ m, n = m + 1 := ⟨n - 1, by omega⟩
    have hd : 63 ≤ d.length := by omega
    simp only [Nat.mul_zero, List.drop_zero] at hbad
    simp only [AddressList.unmarshalLoop, unmarshal_of_length F _ d hd, hbad]
    exact (unmarshalLoop_sticky F d e hd hbad m _).elim fun lst hl => ⟨lst, d, hl⟩
  | succ k ih =>
    obtain ⟨m, rfl⟩ : ∃ m, n = m + 1 := ⟨n - 1, by omega⟩
    have hd : 63 ≤ d.length := by omega
    have h0 := hrec 0 (by omega)
    simp only [Nat.mul_zero, List.drop_zero] at h0
    obtain ⟨-, v, hp⟩ := (recordDecodes_take F d).mp h0
    simp only [AddressList.unmarshalLoop, unmarshal_of_length F _ d hd, hp]
    apply ih
    · omega
    · simp only [List.length_drop]
      omega
    · intro j hj
      have := hrec (j + 1) (by omega)
      rw [List.drop_drop]
      have he : 63 * (j + 1) = 63 + 63 * j := by omega
      rw [he] at this
      exact this
    · rw [List.drop_drop]
      have he : 63 * (k + 1) = 63 + 63 * k := by omega
      rw [he] at hbad
      exact hbad

/-- The list's `UnmarshalBinaryData` faults on a buffer of fewer than 8 bytes. -/
theorem list_unmarshal_short (F : Factom) (l0 : AddressList) (b : Bytes)
    (h : b.length < 8) : l0.UnmarshalBinaryData F b = none := by
  have h' : ¬ 8 ≤ b.length := by omega
  simp [AddressList.UnmarshalBinaryData, sliceTo, h']

/-- The list's `UnmarshalBinaryData` on a buffer of at least 8 bytes, in terms of its
loop. -/
theorem list_unmarshal_iff (F : Factom) (l0 l : AddressList) (b rest : Bytes)
    (err : Option Error) (h : 8 ≤ b.length) :
    l0.UnmarshalBinaryData F b = some (l, rest, err) ↔
      ∃ lst, AddressList.unmarshalLoop F (getUint64 (b.take 8)) l0.List (b.drop 8) none
          = some (lst, rest, err) ∧
        l = { Length := getUint64 (b.take 8), List := lst } := by
  simp only [AddressList.UnmarshalBinaryData, sliceTo, sliceFrom, h, if_true,
    Option.bind_eq_bind, Option.some_bind]
  cases hl : AddressList.unmarshalLoop F (getUint64 (b.take 8)) l0.List (b.drop 8) none with
  | none => simp
  | some res =>
    obtain ⟨lst, d, e⟩ := res
    simp only [Option.some_bind, Option.some.injEq, Prod.mk.injEq]
    constructor
    · rintro ⟨rfl, rfl, rfl⟩
      exact ⟨lst, ⟨rfl, rfl, rfl⟩, rfl⟩
    · rintro ⟨lst', ⟨rfl, rfl, rfl⟩, rfl⟩
      exact ⟨rfl, rfl, rfl⟩

theorem recordAt_eq (b : Bytes) (k : Nat) :
    recordAt b k = ((b.drop 8).drop (63 * k)).take 63 := by
  rw [recordAt, List.drop_drop]

/-- C15: decoding a buffer into a new list succeeds if and only if the buffer has at
least 8 bytes and, with `n` the big-endian number in its first 8 bytes, at least
8 + 63 * n bytes, and each of the `n` consecutive 63-byte records after the prefix
decodes without error; otherwise the call faults or returns an error. On success the
list holds exactly `n` records, `Length` is `n`, and the remainder is the buffer less
its first 8 + 63 * n bytes. When a record fails, its error is the one returned: later
iterations do not replace it by a success. -/
theorem C15_list_decode_success_iff (F : Factom) (b : Bytes) :
    ((∃ l rest, NewAddressList.UnmarshalBinaryData F b = some (l, rest, none)) ↔
      (8 ≤ b.length ∧ 8 + 63 * getUint64 (b.take 8) ≤ b.length ∧
        ∀ k < getUint64 (b.take 8), RecordDecodes F (recordAt b k))) ∧
    (∀ l rest, NewAddressList.UnmarshalBinaryData F b = some (l, rest, none) →
      l.List.length = getUint64 (b.take 8) ∧ l.Length = getUint64 (b.take 8) ∧
        rest = b.drop (8 + 63 * getUint64 (b.take 8))) ∧
    (∀ k e, k < getUint64 (b.take 8) → 8 + 63 * (k + 1) ≤ b.length →
      (∀ j < k, RecordDecodes F (recordAt b j)) →
      (∃ r rest, AddressNamePair.UnmarshalBinaryData F AddressNamePair.new (recordAt b k)
        = some (r, rest, some e)) →
      ∃ l rest, NewAddressList.UnmarshalBinaryData F b = some (l, rest, some e)) := by
  refine ⟨⟨?_, ?_⟩, ?_, ?_⟩
  · rintro ⟨l, rest, h⟩
    have h8 : 8 ≤ b.length := by
      by_contra hc
      rw [list_unmarshal_short F _ b (by omega)] at h
      exact absurd h (by simp)
    obtain ⟨lst, hl, -⟩ := (list_unmarshal_iff F _ l b rest none h8).mp h
    obtain ⟨h1, -, h3⟩ := unmarshalLoop_success F _ _ _ _ _ _ hl
    simp only [List.length_drop] at h1
    refine ⟨h8, by omega, fun k hk => ?_⟩
    rw [recordAt_eq]
    exact h3 k hk
  · rintro ⟨h8, hlen, hrec⟩
    have hlen' : 63 * getUint64 (b.take 8) ≤ (b.drop 8).length := by
      simp only [List.length_drop]
      omega
    obtain ⟨lst, hl, -⟩ := unmarshalLoop_complete F (getUint64 (b.take 8)) NewAddressList.List
      (b.drop 8) hlen' (fun k hk => by rw [← recordAt_eq]; exact hrec k hk)
    exact ⟨_, _, (list_unmarshal_iff F _ _ b _ none h8).mpr ⟨lst, hl, rfl⟩⟩
  · intro l rest h
    have h8 : 8 ≤ b.length := by
      by_contra hc
      rw [list_unmarshal_short F _ b (by omega)] at h
      exact absurd h (by simp)
    obtain ⟨lst, hl, rfl⟩ := (list_unmarshal_iff F _ l b rest none h8).mp h
    obtain ⟨-, h2, -⟩ := unmarshalLoop_success F _ _ _ _ _ _ hl
    have h4 := unmarshalLoop_length F _ _ _ _ _ hl
    simp only [NewAddressList, List.length_nil, Nat.zero_add] at h4
    refine ⟨h4, rfl, ?_⟩
    rw [h2, List.drop_drop]
  · intro k e hk hlen hrec hbad
    have h8 : 8 ≤ b.length := by omega
    have hbad' := (decode_error_iff F _ _ e).mp hbad
    rw [recordAt, boolText_take] at hbad'
    obtain ⟨lst, rest, hl⟩ := unmarshalLoop_first_error F k (getUint64 (b.take 8))
      NewAddressList.List (b.drop 8) none e hk
      (by simp only [List.length_drop]; omega)
      (fun j hj => by rw [← recordAt_eq]; exact hrec j hj)
      (by rw [List.drop_drop]; exact hbad'.2)
    exact ⟨_, _, (list_unmarshal_iff F _ _ b _ _ h8).mpr ⟨lst, hl, rfl⟩⟩

/-- C15, an instance: the wire form of a one-record list decodes into a new list, with
an empty remainder. -/
theorem list_decode_example :
    NewAddressList.UnmarshalBinaryData tableFactom ([0, 0, 0, 0, 0, 0, 0, 1] ++ bufLeadingNul)
      = some ({ Length := 1,
                List := [{ Name := [65], Address := addrFA1, Seeded := false, Balance := 0 }] },
          [], none) := by
  decide

/-- C16, the failing input evaluated: a buffer announcing one record whose boolean field
is the text "xxxxx" makes the list's `UnmarshalBinaryData` return the parser's error, and
yet the new list ends with `Length = 1` and one record holding the decoded name and
address. -/
theorem C16_failed_decode_populates :
    NewAddressList.UnmarshalBinaryData tableFactom ([0, 0, 0, 0, 0, 0, 0, 1] ++ bufBadBool)
      = some ({ Length := 1,
                List := [{ Name := [65], Address := addrFA1, Seeded := false, Balance := 0 }] },
          bufBadBool, some (.parseBoolInvalid [120, 120, 120, 120, 120])) ∧
    NewAddressList = { Length := 0, List := [] } := by
  exact ⟨by decide, rfl⟩

/-- C17: when `Get` finds the address at index `i`, `Remove` returns no error, `List`
becomes the old `List` with exactly the element at index `i` deleted (every record before
`i` keeps its position, every record after `i` moves down by one) and `Length` decreases
by 1 (uint64 subtraction, so exactly old - 1 unless the counter was 0); when `Get` does
not find the address, `Remove` returns an error and the list is unchanged. -/
theorem C17_remove (F : Factom) (l : AddressList) (address : GoString) :
    (∀ r i, l.Get F address = some (r, i) →
      (l.Remove F address).2 = none ∧
      (l.Remove F address).1.List = l.List.eraseIdx i ∧
      (∀ j, (l.Remove F address).1.List[j]? =
        if j < i then l.List[j]? else l.List[j + 1]?) ∧
      (l.Remove F address).1.List.length + 1 = l.List.length ∧
      (l.Remove F address).1.Length = (l.Length + 2 ^ 64 - 1) % 2 ^ 64 ∧
      (1 ≤ l.Length → l.Length < 2 ^ 64 → (l.Remove F address).1.Length = l.Length - 1)) ∧
    (l.Get F address = none →
      (l.Remove F address).2 = some .notFound ∧ (l.Remove F address).1 = l) := by
  constructor
  · intro r i hg
    rcases Remove_cases F l address with ⟨-, hn⟩ | ⟨r', i', hg', hi, he⟩
    · rw [hn] at hg
      exact absurd hg (by simp)
    · rw [hg] at hg'
      simp only [Option.some.injEq, Prod.mk.injEq] at hg'
      obtain ⟨rfl, rfl⟩ := hg'
      rw [he]
      refine ⟨rfl, rfl, ?_, ?_, rfl, ?_⟩
      · intro j
        exact List.getElem?_eraseIdx _ _ _
      · simp only [List.length_eraseIdx, hi, if_true]
        omega
      · intro h1 h2
        show (l.Length + 2 ^ 64 - 1) % 2 ^ 64 = l.Length - 1
        omega
  · intro hg
    simp [AddressList.Remove, hg]

/-- The four possible results of `GetAddress`, in the order in which the lists are
searched. -/
theorem GetAddress_cases (F : Factom) (w : WalletStruct) (address : GoString) :
    (∃ r i, w.FactoidAddresses.Get F address = some (r, i) ∧
      w.GetAddress F address = (some r, 1, (i : Int))) ∨
    (∃ r i, w.FactoidAddresses.Get F address = none ∧
      w.EntryCreditAddresses.Get F address = some (r, i) ∧
      w.GetAddress F address = (some r, 2, (i : Int))) ∨
    (∃ r i, w.FactoidAddresses.Get F address = none ∧
      w.EntryCreditAddresses.Get F address = none ∧
      w.ExternalAddresses.Get F address = some (r, i) ∧
      w.GetAddress F address = (some r, 3, (i : Int))) ∨
    (w.FactoidAddresses.Get F address = none ∧ w.EntryCreditAddresses.Get F address = none ∧
      w.ExternalAddresses.Get F address = none ∧ w.GetAddress F address = (none, -1, -1)) := by
  unfold WalletStruct.GetAddress
  cases h1 : w.FactoidAddresses.Get F address with
  | some p => exact Or.inl ⟨p.1, p.2, rfl, rfl⟩
  | none =>
    cases h2 : w.EntryCreditAddresses.Get F address with
    | some p => exact Or.inr (Or.inl ⟨p.1, p.2, rfl, rfl, rfl⟩)
    | none =>
      cases h3 : w.ExternalAddresses.Get F address with
      | some p => exact Or.inr (Or.inr (Or.inl ⟨p.1, p.2, rfl, rfl, rfl, rfl⟩))
      | none => exact Or.inr (Or.inr (Or.inr ⟨rfl, rfl, rfl, rfl⟩))

/-- C18: `GetAddress` returns list 1 with the record and index that the factoid list's
`Get` finds; otherwise list 2 with what the entry credit list's `Get` finds; otherwise
list 3 with what the external list's `Get` finds; otherwise list -1 with a nil record
and index -1. Whenever the list is 1, 2 or 3, the record at the returned index of that
list is the returned record and has the queried address. -/
theorem C18_get_address (F : Factom) (w : WalletStruct) (address : GoString) :
    (∀ r i, w.FactoidAddresses.Get F address = some (r, i) →
      w.GetAddress F address = (some r, 1, (i : Int)) ∧
      w.FactoidAddresses.List[i]? = some r ∧ r.Address = address) ∧
    (w.FactoidAddresses.Get F address = none →
      ∀ r i, w.EntryCreditAddresses.Get F address = some (r, i) →
        w.GetAddress F address = (some r, 2, (i : Int)) ∧
        w.EntryCreditAddresses.List[i]? = some r ∧ r.Address = address) ∧
    (w.FactoidAddresses.Get F address = none → w.EntryCreditAddresses.Get F address = none →
      ∀ r i, w.ExternalAddresses.Get F address = some (r, i) →
        w.GetAddress F address = (some r, 3, (i : Int)) ∧
        w.ExternalAddresses.List[i]? = some r ∧ r.Address = address) ∧
    (w.FactoidAddresses.Get F address = none → w.EntryCreditAddresses.Get F address = none →
      w.ExternalAddresses.Get F address = none →
        w.GetAddress F address = (none, -1, -1)) := by
  refine ⟨?_, ?_, ?_, ?_⟩
  · intro r i h
    obtain ⟨-, h2, h3, -⟩ := Get_eq_some F _ address r i h
    exact ⟨by simp [WalletStruct.GetAddress, h], h2, h3⟩
  · intro h1 r i h
    obtain ⟨-, h2, h3, -⟩ := Get_eq_some F _ address r i h
    exact ⟨by simp [WalletStruct.GetAddress, h1, h], h2, h3⟩
  · intro h1 h1' r i h
    obtain ⟨-, h2, h3, -⟩ := Get_eq_some F _ address r i h
    exact ⟨by simp [WalletStruct.GetAddress, h1, h1', h], h2, h3⟩
  · intro h1 h2 h3
    simp [WalletStruct.GetAddress, h1, h2, h3]

/-- What a result of `GetAddress` with a list number from 1 to 3 says about the lists. -/
theorem GetAddress_found (F : Factom) (w : WalletStruct) (address : GoString)
    (r : AddressNamePair) (c i : Int) (h : w.GetAddress F address = (some r, c, i)) :
    ∃ n : Nat, i = (n : Int) ∧
      ((c = 1 ∧ w.FactoidAddresses.Get F address = some (r, n)) ∨
       (c = 2 ∧ w.EntryCreditAddresses.Get F address = some (r, n)) ∨
       (c = 3 ∧ w.ExternalAddresses.Get F address = some (r, n))) := by
  rcases GetAddress_cases F w address with ⟨r', n, hg, he⟩ | ⟨r', n, -, hg, he⟩ |
    ⟨r', n, -, -, hg, he⟩ | ⟨-, -, -, he⟩
  · rw [he] at h
    simp only [Prod.mk.injEq, Option.some.injEq] at h
    obtain ⟨rfl, rfl, rfl⟩ := h
    exact ⟨n, rfl, Or.inl ⟨rfl, hg⟩⟩
  · rw [he] at h
    simp only [Prod.mk.injEq, Option.some.injEq] at h
    obtain ⟨rfl, rfl, rfl⟩ := h
    exact ⟨n, rfl, Or.inr (Or.inl ⟨rfl, hg⟩)⟩
  · rw [he] at h
    simp only [Prod.mk.injEq, Option.some.injEq] at h
    obtain ⟨rfl, rfl, rfl⟩ := h
    exact ⟨n, rfl, Or.inr (Or.inr ⟨rfl, hg⟩)⟩
  · rw [he] at h
    simp at h

/-- A result of `GetAddress` with list number -1 is the not-found result. -/
theorem GetAddress_not_found (F : Factom) (w : WalletStruct) (address : GoString)
    (h : (w.GetAddress F address).2.1 = -1) : w.GetAddress F address = (none, -1, -1) := by
  rcases GetAddress_cases F w address with ⟨r', n, -, he⟩ | ⟨r', n, -, -, he⟩ |
    ⟨r', n, -, -, -, he⟩ | ⟨-, -, -, he⟩
  · rw [he] at h; simp at h
  · rw [he] at h; simp at h
  · rw [he] at h; simp at h
  · exact he

theorem Remove_of_found (F : Factom) (l : AddressList) (address : GoString)
    (r : AddressNamePair) (n : Nat) (hg : l.Get F address = some (r, n)) :
    l.Remove F address =
      ({ Length := (l.Length + 2 ^ 64 - 1) % 2 ^ 64, List := l.List.eraseIdx n }, none) := by
  rcases Remove_cases F l address with ⟨-, hn⟩ | ⟨r', i', hg', -, he⟩
  · rw [hn] at hg
    exact absurd hg (by simp)
  · rw [hg] at hg'
    simp only [Option.some.injEq, Prod.mk.injEq] at hg'
    obtain ⟨rfl, rfl⟩ := hg'
    exact he

/-- C19: when `GetAddress` reports the address in list 1, 2 or 3 at index `i`,
`RemoveAddressFromAnyList` returns no error and the record that `GetAddress` found; that
list loses exactly the record at index `i` (the other records keep their order) and its
`Length` decreases by 1 (uint64 subtraction), and the other two lists are unchanged. When
`GetAddress` reports not found, it returns an error and the wallet is unchanged. -/
theorem C19_remove_from_any_list (F : Factom) (w : WalletStruct) (address : GoString) :
    (∀ r i, w.GetAddress F address = (some r, 1, i) →
      w.RemoveAddressFromAnyList F address =
        ({ w with FactoidAddresses :=
            { Length := (w.FactoidAddresses.Length + 2 ^ 64 - 1) % 2 ^ 64,
              List := w.FactoidAddresses.List.eraseIdx i.toNat } }, some r, none)) ∧
    (∀ r i, w.GetAddress F address = (some r, 2, i) →
      w.RemoveAddressFromAnyList F address =
        ({ w with EntryCreditAddresses :=
            { Length := (w.EntryCreditAddresses.Length + 2 ^ 64 - 1) % 2 ^ 64,
              List := w.EntryCreditAddresses.List.eraseIdx i.toNat } }, some r, none)) ∧
    (∀ r i, w.GetAddress F address = (some r, 3, i) →
      w.RemoveAddressFromAnyList F address =
        ({ w with ExternalAddresses :=
            { Length := (w.ExternalAddresses.Length + 2 ^ 64 - 1) % 2 ^ 64,
              List := w.ExternalAddresses.List.eraseIdx i.toNat } }, some r, none)) ∧
    ((w.GetAddress F address).2.1 = -1 →
      w.RemoveAddressFromAnyList F address = (w, none, some .impossibleToReach)) := by
  refine ⟨?_, ?_, ?_, ?_⟩
  · intro r i h
    obtain ⟨n, rfl, hc⟩ := GetAddress_found F w address r 1 i h
    rcases hc with ⟨-, hg⟩ | ⟨hc, -⟩ | ⟨hc, -⟩
    · simp [WalletStruct.RemoveAddressFromAnyList, h, WalletStruct.RemoveAddress,
        Remove_of_found F _ address r n hg]
    · exact absurd hc (by decide)
    · exact absurd hc (by decide)
  · intro r i h
    obtain ⟨n, rfl, hc⟩ := GetAddress_found F w address r 2 i h
    rcases hc with ⟨hc, -⟩ | ⟨-, hg⟩ | ⟨hc, -⟩
    · exact absurd hc (by decide)
    · simp [WalletStruct.RemoveAddressFromAnyList, h, WalletStruct.RemoveAddress,
        Remove_of_found F _ address r n hg]
    · exact absurd hc (by decide)
  · intro r i h
    obtain ⟨n, rfl, hc⟩ := GetAddress_found F w address r 3 i h
    rcases hc with ⟨hc, -⟩ | ⟨hc, -⟩ | ⟨-, hg⟩
    · exact absurd hc (by decide)
    · exact absurd hc (by decide)
    · simp [WalletStruct.RemoveAddressFromAnyList, h, WalletStruct.RemoveAddress,
        Remove_of_found F _ address r n hg]
  · intro h
    have he := GetAddress_not_found F w address h
    simp [WalletStruct.RemoveAddressFromAnyList, he, WalletStruct.RemoveAddress]

theorem set_self (l : Records) (n : Nat) (r : AddressNamePair) (h : l[n]? = some r) :
    l.set n r = l := by
  apply List.ext_getElem?
  intro j
  rw [List.getElem?_set]
  by_cases hj : n = j
  · subst hj
    have hlt : n < l.length := by
      by_contra hc
      rw [List.getElem?_eq_none (by omega)] at h
      exact absurd h (by simp)
    simp [hlt, h]
  · simp [hj]

/-- The expression `l.List[n].ChangeName(toName)` at a valid index. -/
theorem changeNameAt_eq (l : AddressList) (n : Nat) (r : AddressNamePair)
    (toName : GoString) (h : l.List[n]? = some r) :
    l.changeNameAt (n : Int) toName =
      if toName.length > 20 then some (l, some .changeNameTooLong)
      else some ({ l with List := l.List.set n { r with Name := toName } }, none) := by
  have hn : ¬ ((n : Int) < 0) := by omega
  simp only [AddressList.changeNameAt, hn, if_false, Int.toNat_ofNat, h,
    AddressNamePair.ChangeName, MaxNameLength]
  split
  · simp [set_self l.List n r h]
  · rfl

/-- C20: when `GetAddress` finds the address in list 1, 2 or 3 at index `i` and the new
name is at most 20 bytes long, `ChangeAddressName` returns no error and the wallet changes
only in that record `i` of that list (the record `GetAddress` found) gets the new name:
its address and seeded flag, every other record, the order, the `Length` of the three
lists and the totals are as before. When the new name is longer than 20 bytes or the
address is not found, it returns an error and the wallet is unchanged. It never faults. -/
theorem C20_change_address_name (F : Factom) (w : WalletStruct) (address toName : GoString) :
    (∀ r i, w.GetAddress F address = (some r, 1, i) → toName.length ≤ 20 →
      w.FactoidAddresses.List[i.toNat]? = some r ∧
      w.ChangeAddressName F address toName =
        some ({ w with FactoidAddresses :=
          { w.FactoidAddresses with
            List := w.FactoidAddresses.List.set i.toNat { r with Name := toName } } },
          none)) ∧
    (∀ r i, w.GetAddress F address = (some r, 2, i) → toName.length ≤ 20 →
      w.EntryCreditAddresses.List[i.toNat]? = some r ∧
      w.ChangeAddressName F address toName =
        some ({ w with EntryCreditAddresses :=
          { w.EntryCreditAddresses with
            List := w.EntryCreditAddresses.List.set i.toNat { r with Name := toName } } },
          none)) ∧
    (∀ r i, w.GetAddress F address = (some r, 3, i) → toName.length ≤ 20 →
      w.ExternalAddresses.List[i.toNat]? = some r ∧
      w.ChangeAddressName F address toName =
        some ({ w with ExternalAddresses :=
          { w.ExternalAddresses with
            List := w.ExternalAddresses.List.set i.toNat { r with Name := toName } } },
          none)) ∧
    (toName.length > 20 ∨ (w.GetAddress F address).2.1 = -1 →
      ∃ e, w.ChangeAddressName F address toName = some (w, some e)) := by
  refine ⟨?_, ?_, ?_, ?_⟩
  · intro r i h hlen
    obtain ⟨n, rfl, hc⟩ := GetAddress_found F w address r 1 i h
    rcases hc with ⟨-, hg⟩ | ⟨hc, -⟩ | ⟨hc, -⟩
    · obtain ⟨-, hi, ha, -⟩ := Get_eq_some F _ address r n hg
      have hl : ¬ toName.length > 20 := by omega
      refine ⟨by simpa using hi, ?_⟩
      simp [WalletStruct.ChangeAddressName, h, ha, changeNameAt_eq _ n r toName hi, hl]
    · exact absurd hc (by decide)
    · exact absurd hc (by decide)
  · intro r i h hlen
    obtain ⟨n, rfl, hc⟩ := GetAddress_found F w address r 2 i h
    rcases hc with ⟨hc, -⟩ | ⟨-, hg⟩ | ⟨hc, -⟩
    · exact absurd hc (by decide)
    · obtain ⟨-, hi, ha, -⟩ := Get_eq_some F _ address r n hg
      have hl : ¬ toName.length > 20 := by omega
      refine ⟨by simpa using hi, ?_⟩
      simp [WalletStruct.ChangeAddressName, h, ha, changeNameAt_eq _ n r toName hi, hl]
    · exact absurd hc (by decide)
  · intro r i h hlen
    obtain ⟨n, rfl, hc⟩ := GetAddress_found F w address r 3 i h
    rcases hc with ⟨hc, -⟩ | ⟨hc, -⟩ | ⟨-, hg⟩
    · exact absurd hc (by decide)
    · exact absurd hc (by decide)
    · obtain ⟨-, hi, ha, -⟩ := Get_eq_some F _ address r n hg
      have hl : ¬ toName.length > 20 := by omega
      refine ⟨by simpa using hi, ?_⟩
      simp [WalletStruct.ChangeAddressName, h, ha, changeNameAt_eq _ n r toName hi, hl]
  · intro hc
    rcases GetAddress_cases F w address with ⟨r, n, hg, he⟩ | ⟨r, n, -, hg, he⟩ |
      ⟨r, n, -, -, hg, he⟩ | ⟨-, -, -, he⟩
    · have hlong : toName.length > 20 := by
        rcases hc with hc | hc
        · exact hc
        · rw [he] at hc; simp at hc
      obtain ⟨-, hi, ha, -⟩ := Get_eq_some F _ address r n hg
      exact ⟨.changeNameTooLong, by
        simp [WalletStruct.ChangeAddressName, he, ha, changeNameAt_eq _ n r toName hi, hlong]⟩
    · have hlong : toName.length > 20 := by
        rcases hc with hc | hc
        · exact hc
        · rw [he] at hc; simp at hc
      obtain ⟨-, hi, ha, -⟩ := Get_eq_some F _ address r n hg
      exact ⟨.changeNameTooLong, by
        simp [WalletStruct.ChangeAddressName, he, ha, changeNameAt_eq _ n r toName hi, hlong]⟩
    · have hlong : toName.length > 20 := by
        rcases hc with hc | hc
        · exact hc
        · rw [he] at hc; simp at hc
      obtain ⟨-, hi, ha, -⟩ := Get_eq_some F _ address r n hg
      exact ⟨.changeNameTooLong, by
        simp [WalletStruct.ChangeAddressName, he, ha, changeNameAt_eq _ n r toName hi, hlong]⟩
    · exact ⟨.addressNotFound, by simp [WalletStruct.ChangeAddressName, he]⟩

/-- The failing input of C11 evaluated: with the empty address (which is not valid) and
list 1, 2 or 3, `AddAddress` and `AddSeededAddress` fault at `address[:2]` instead of
returning an error; so they do with a one-byte address. -/
theorem C11_short_address_faults :
    tableFactom.IsValidAddress [] = false ∧
    NewWallet.AddAddress tableFactom [65] [] 1 = none ∧
    NewWallet.AddAddress tableFactom [65] [] 2 = none ∧
    NewWallet.AddAddress tableFactom [65] [] 3 = none ∧
    NewWallet.AddAddress tableFactom [65] [70] 1 = none ∧
    NewWallet.AddSeededAddress tableFactom [65] [] 1 = none :=
  ⟨rfl, rfl, rfl, rfl, rfl, rfl⟩

theorem addAddress_no_fault (F : Factom) (w : WalletStruct) (name address : GoString)
    (list : Int) (h2 : 2 ≤ address.length) : w.addAddress F name address list ≠ none := by
  have hs : sliceTo address 2 = some (address.take 2) := by simp [sliceTo, h2]
  unfold WalletStruct.addAddress
  split
  · simp
  · simp only [hs]
    split
    · simp
    · split_ifs <;> simp

theorem addAddress_ok_external (F : Factom) (w : WalletStruct) (name address : GoString)
    (h : w.addAddress F name address 3 = some none) :
    address.take 2 = strEC ∨ address.take 2 = strFA := by
  cases hs : sliceTo address 2 with
  | none =>
    simp only [WalletStruct.addAddress, hs] at h
    split at h <;> simp at h
    split at h <;> simp at h
  | some pre =>
    have hpre := sliceTo_eq_some _ _ _ hs
    subst hpre
    simp [WalletStruct.addAddress, hs] at h
    split at h
    · simp at h
    · split at h
      · simp at h
      · rename_i hp
        by_contra hc
        exact hp ⟨fun h1 => hc (Or.inl h1), fun h1 => hc (Or.inr h1)⟩

/-- For addresses of at least two bytes the validation of `AddAddress` is as C11 states
it: a list number other than 1, 2, 3, a name longer than 20 bytes, an address that is not
valid or an address with the wrong two-byte start gives an error, without a fault, and
leaves the wallet unchanged. -/
theorem AddAddress_rejects (F : Factom) (w : WalletStruct) (name address : GoString)
    (list : Int) (h2 : 2 ≤ address.length)
    (hbad : ¬ (list = 1 ∨ list = 2 ∨ list = 3) ∨ name.length > 20 ∨
      F.IsValidAddress address = false ∨ (list = 1 ∧ address.take 2 ≠ strFA) ∨
      (list = 2 ∧ address.take 2 ≠ strEC) ∨
      (list = 3 ∧ address.take 2 ≠ strFA ∧ address.take 2 ≠ strEC)) :
    ∃ e, w.AddAddress F name address list = some (w, none, some e) := by
  cases ha : w.addAddress F name address list with
  | none => exact absurd ha (addAddress_no_fault F w name address list h2)
  | some oe =>
    cases oe with
    | some e => exact ⟨e, by simp [WalletStruct.AddAddress, ha]⟩
    | none =>
      obtain ⟨hl, hfa, hec, hv⟩ := addAddress_ok F w name address list ha
      have hlong : name.length > 20 := by
        rcases hbad with h | h | h | ⟨h, hp⟩ | ⟨h, hp⟩ | ⟨h, hp1, hp2⟩
        · exact absurd hl h
        · exact h
        · rw [hv] at h; exact absurd h (by decide)
        · exact absurd (hfa h) hp
        · exact absurd (hec h) hp
        · subst h
          rcases addAddress_ok_external F w name address ha with h' | h'
          · exact absurd h' hp2
          · exact absurd h' hp1
      have hN : NewAddress F name address = .error .nameTooLong := by
        simp [NewAddress, MaxNameLength, hlong]
      rcases hl with rfl | rfl | rfl
      · exact ⟨.nameTooLong, by simp [WalletStruct.AddAddress, ha, AddressList.Add, hN]⟩
      · exact ⟨.nameTooLong, by simp [WalletStruct.AddAddress, ha, AddressList.Add, hN]⟩
      · exact ⟨.nameTooLong, by simp [WalletStruct.AddAddress, ha, AddressList.Add, hN]⟩

/-- An instance of C19 and C20: in a wallet holding one entry credit address, renaming it
changes the name of that record only, and removing it then empties the list. -/
theorem rename_then_remove_example :
    NewWallet.run tableFactom
      [.AddAddress [65] addrEC1 2, .ChangeAddressName addrEC1 [66, 111, 98]]
      = some { NewWallet with
          EntryCreditAddresses :=
            { Length := 1,
              List := [{ Name := [66, 111, 98], Address := addrEC1, Seeded := false,
                         Balance := 0 }] } } ∧
    NewWallet.run tableFactom
      [.AddAddress [65] addrEC1 2, .ChangeAddressName addrEC1 [66, 111, 98],
       .RemoveAddressFromAnyList addrEC1]
      = some NewWallet := by
  exact ⟨by decide, by decide⟩

theorem record_IsSameAs_iff (a b : AddressNamePair) :
    a.IsSameAs b = true ↔ a.Address = b.Address ∧ a.Name = b.Name := by
  unfold AddressNamePair.IsSameAs AddressNamePair.IsSimilarTo
  by_cases h1 : a.Address = b.Address
  · by_cases h2 : a.Name = b.Name
    · simp [h1, h2]
    · simp [h1, h2]
  · simp [h1]

/-- When the loop of `IsSameAs` answers true, every record scanned has a record in `b`
with the same address and name. -/
theorem isSameLoop_covers (F : Factom) (b : AddressList) (as : Records)
    (h : AddressList.isSameLoop F b as = true) :
    ∀ r ∈ as, ∃ r' ∈ b.List, r'.Address = r.Address ∧ r'.Name = r.Name := by
  induction as with
  | nil => intro r hr; simp at hr
  | cons anp t ih =>
    simp only [AddressList.isSameLoop] at h
    cases hg : b.Get F anp.Address with
    | none => simp [hg] at h
    | some p =>
      obtain ⟨inap, j⟩ := p
      simp only [hg] at h
      obtain ⟨-, hj, -, -⟩ := Get_eq_some F b _ inap j hg
      cases hs : anp.IsSameAs inap with
      | false => simp [hs] at h
      | true =>
        simp only [hs, Bool.not_true, Bool.false_eq_true, if_false] at h
        obtain ⟨ha, hn⟩ := (record_IsSameAs_iff anp inap).mp hs
        intro r hr
        simp only [List.mem_cons] at hr
        rcases hr with rfl | hr
        · exact ⟨inap, List.getElem?_mem hj, ha.symm, hn.symm⟩
        · exact ih h r hr

/-- The list's `IsSameAs`, when the addresses of `a` are valid and `b` holds no address
twice: the counters agree and `b` covers `a`. -/
theorem IsSameAs_iff (F : Factom) (a b : AddressList) (hv : a.AllValid F)
    (hnd : b.NoDuplicates) :
    a.IsSameAs F b = true ↔ a.Length = b.Length ∧ a.Covers b := by
  unfold AddressList.IsSameAs AddressList.Covers
  by_cases hl : a.Length = b.Length
  · simp only [hl, ne_eq, not_true_eq_false, if_false, true_and]
    exact ⟨isSameLoop_covers F b a.List, isSameLoop_true F b a.List hv hnd⟩
  · simp [hl]

/-- C21: for lists that satisfy the list invariants, `A.IsSameAs(B)` is true if and only
if `A.Length = B.Length` and every record of `A` has a record in `B` with the same
address and the same name; in particular `A.IsSameAs(P)` is true for every reordering
`P` of the records of `A`. -/
theorem C21_is_same_as_iff (F : Factom) (a b : AddressList) (ha : a.Invariants F)
    (hb : b.Invariants F) :
    (a.IsSameAs F b = true ↔ a.Length = b.Length ∧ a.Covers b) ∧
    (∀ p : AddressList, p.Length = a.Length → p.List.Perm a.List →
      a.IsSameAs F p = true) := by
  refine ⟨IsSameAs_iff F a b ha.1 hb.2.1, ?_⟩
  intro p hlen hperm
  have hnd : p.NoDuplicates := by
    unfold AddressList.NoDuplicates
    exact ((hperm.map AddressNamePair.Address).nodup_iff).mpr ha.2.1
  rw [IsSameAs_iff F a p ha.1 hnd]
  refine ⟨hlen.symm, ?_⟩
  intro r hr
  exact ⟨r, hperm.symm.subset hr, rfl, rfl⟩

/-- C21, witness: two lists holding the same two records in opposite orders. -/
theorem C21_is_same_as_iff_witness :
    AddressList.IsSameAs tableFactom
      { Length := 2,
        List := [{ Name := [65], Address := addrFA1, Seeded := false, Balance := 0 },
                 { Name := [66], Address := addrEC1, Seeded := true, Balance := 0 }] }
      { Length := 2,
        List := [{ Name := [66], Address := addrEC1, Seeded := true, Balance := 0 },
                 { Name := [65], Address := addrFA1, Seeded := false, Balance := 0 }] }
      = true :=
  (C21_is_same_as_iff tableFactom
    { Length := 2,
      List := [{ Name := [65], Address := addrFA1, Seeded := false, Balance := 0 },
               { Name := [66], Address := addrEC1, Seeded := true, Balance := 0 }] }
    { Length := 2,
      List := [{ Name := [66], Address := addrEC1, Seeded := true, Balance := 0 },
               { Name := [65], Address := addrFA1, Seeded := false, Balance := 0 }] }
    ⟨by unfold AddressList.AllValid; decide, by unfold AddressList.NoDuplicates; decide, rfl⟩
    ⟨by unfold AddressList.AllValid; decide, by unfold AddressList.NoDuplicates; decide,
      rfl⟩).2
    _ rfl (List.Perm.swap _ _ _)

/-- C22: calling `ResetSeeded` twice in a row leaves the list in exactly the state that
one call leaves it in. -/
theorem C22_reset_seeded_idempotent (l : AddressList) :
    l.ResetSeeded.ResetSeeded = l.ResetSeeded := by
  simp [AddressList.ResetSeeded, List.map_map, Function.comp_def]


/-- Between lists that satisfy the invariants and have equal counters, covering goes
both ways: the records of `a` pair off with those of `b`. -/
theorem Covers_symm (F : Factom) (a b : AddressList) (ha : a.Invariants F)
    (hb : b.Invariants F) (hlen : a.Length = b.Length) (hc : a.Covers b) : b.Covers a := by
  obtain ⟨-, hnda, hla⟩ := ha
  obtain ⟨-, hndb, hlb⟩ := hb
  have hsub : a.List.map AddressNamePair.Address ⊆ b.List.map AddressNamePair.Address := by
    intro x hx
    obtain ⟨r, hr, rfl⟩ := List.mem_map.mp hx
    obtain ⟨r', hr', hra, -⟩ := hc r hr
    exact List.mem_map.mpr ⟨r', hr', hra⟩
  have hlen' : (b.List.map AddressNamePair.Address).length
      ≤ (a.List.map AddressNamePair.Address).length := by
    unfold AddressList.LengthOk at hla hlb
    simp only [List.length_map]
    omega
  have hperm := (List.subperm_of_subset hnda hsub).perm_of_length_le hlen'
  intro r' hr'
  have hmem : r'.Address ∈ a.List.map AddressNamePair.Address :=
    hperm.symm.subset (List.mem_map_of_mem _ hr')
  obtain ⟨r, hr, hra⟩ := List.mem_map.mp hmem
  obtain ⟨r'', hr'', hra'', hrn''⟩ := hc r hr
  have heq : r'' = r' := eq_of_same_address b hndb r'' r' hr'' hr' (hra''.trans hra)
  subst heq
  exact ⟨r, hr, hra, hrn''.symm⟩

theorem IsSameAs_true_symm (F : Factom) (a b : AddressList) (ha : a.Invariants F)
    (hb : b.Invariants F) (h : a.IsSameAs F b = true) : b.IsSameAs F a = true := by
  obtain ⟨hlen, hc⟩ := (IsSameAs_iff F a b ha.1 hb.2.1).mp h
  exact (IsSameAs_iff F b a hb.1 ha.2.1).mpr ⟨hlen.symm, Covers_symm F a b ha hb hlen hc⟩

/-- C27: on lists that satisfy the list invariants `IsSameAs` is symmetric; and there
are two lists, the first holding two records with the same address, for which
`A.IsSameAs(B)` is true while `B.IsSameAs(A)` is false. -/
theorem C27_is_same_as_symmetric :
    (∀ (F : Factom) (a b : AddressList), a.Invariants F → b.Invariants F →
      a.IsSameAs F b = b.IsSameAs F a) ∧
    (¬ (AddressList.mk 2
          [{ Name := [65], Address := addrFA1, Seeded := false, Balance := 0 },
           { Name := [65], Address := addrFA1, Seeded := false, Balance := 0 }]).NoDuplicates ∧
      AddressList.IsSameAs tableFactom
        { Length := 2,
          List := [{ Name := [65], Address := addrFA1, Seeded := false, Balance := 0 },
                   { Name := [65], Address := addrFA1, Seeded := false, Balance := 0 }] }
        { Length := 2,
          List := [{ Name := [65], Address := addrFA1, Seeded := false, Balance := 0 },
                   { Name := [66], Address := addrFA2, Seeded := false, Balance := 0 }] }
        = true ∧
      AddressList.IsSameAs tableFactom
        { Length := 2,
          List := [{ Name := [65], Address := addrFA1, Seeded := false, Balance := 0 },
                   { Name := [66], Address := addrFA2, Seeded := false, Balance := 0 }] }
        { Length := 2,
          List := [{ Name := [65], Address := addrFA1, Seeded := false, Balance := 0 },
                   { Name := [65], Address := addrFA1, Seeded := false, Balance := 0 }] }
        = false) := by
  refine ⟨?_, ?_, by decide, by decide⟩
  · intro F a b ha hb
    cases h1 : a.IsSameAs F b with
    | true => exact (IsSameAs_true_symm F a b ha hb h1).symm
    | false =>
      cases h2 : b.IsSameAs F a with
      | false => rfl
      | true =>
        have := IsSameAs_true_symm F b a hb ha h2
        rw [h1] at this
        exact absurd this (by decide)
  · unfold AddressList.NoDuplicates
    decide

theorem ResetSeeded_unseeded (l : AddressList) : l.ResetSeeded.Unseeded := by
  intro r hr
  simp only [AddressList.ResetSeeded, List.mem_map] at hr
  obtain ⟨x, -, rfl⟩ := hr
  rfl

/-- Record by record, `ResetSeeded` keeps name, address and balance. -/
theorem ResetSeeded_getElem? (l : AddressList) (i : Nat) :
    l.ResetSeeded.List[i]? = (l.List[i]?).map fun r => { r with Seeded := false } := by
  simp [AddressList.ResetSeeded]

theorem Add_unseeded (F : Factom) (l : AddressList) (name address : GoString)
    (h : l.Unseeded) : (l.Add F name address).1.Unseeded := by
  simp only [AddressList.Add]
  cases hN : NewAddress F name address with
  | error e => exact h
  | ok a =>
    obtain ⟨rfl, -, -⟩ := NewAddress_eq_ok F name address a hN
    rcases add_cases F l { Name := name, Address := address, Seeded := false, Balance := 0 }
      with ⟨he, -, -⟩ | ⟨he, -⟩
    · simp only [he]
      intro r hr
      simp only [AddressList.appended, List.mem_append, List.mem_singleton] at hr
      rcases hr with hr | rfl
      · exact h r hr
      · rfl
    · simp only [he]
      exact h

theorem Remove_unseeded (F : Factom) (l : AddressList) (address : GoString)
    (h : l.Unseeded) : (l.Remove F address).1.Unseeded := by
  rcases Remove_cases F l address with ⟨he, -⟩ | ⟨r, i, -, -, he⟩
  · rw [he]; exact h
  · rw [he]
    intro x hx
    exact h x ((List.eraseIdx_sublist l.List i).subset hx)

theorem changeNameAt_unseeded (l l' : AddressList) (i : Int) (toName : GoString)
    (err : Option Error) (hc : l.changeNameAt i toName = some (l', err))
    (h : l.Unseeded) : l'.Unseeded := by
  unfold AddressList.changeNameAt at hc
  by_cases hi : i < 0
  · simp [hi] at hc
  · simp only [hi, if_false] at hc
    cases hr : l.List[i.toNat]? with
    | none => simp [hr] at hc
    | some r =>
      simp only [hr, Option.some.injEq, Prod.mk.injEq] at hc
      obtain ⟨rfl, -⟩ := hc
      intro x hx
      rcases List.mem_or_eq_of_mem_set hx with hx | rfl
      · exact h x hx
      · have hrs : r.Seeded = false := h r (List.getElem?_mem hr)
        unfold AddressNamePair.ChangeName
        split
        · exact hrs
        · exact hrs

theorem AddAddress_external_unseeded (F : Factom) (w w' : WalletStruct)
    (name address : GoString) (list : Int) (res : Option AddressNamePair × Option Error)
    (h : w.AddAddress F name address list = some (w', res))
    (hu : w.ExternalAddresses.Unseeded) : w'.ExternalAddresses.Unseeded := by
  unfold WalletStruct.AddAddress at h
  cases ha : w.addAddress F name address list with
  | none => simp [ha] at h
  | some oe =>
    cases oe with
    | some e =>
      simp only [ha, Option.some.injEq, Prod.mk.injEq] at h
      rw [← h.1]
      exact hu
    | none =>
      obtain ⟨hl, -, -, -⟩ := addAddress_ok F w name address list ha
      simp only [ha] at h
      rcases hl with rfl | rfl | rfl
      · simp only [if_true, Option.some.injEq, Prod.mk.injEq] at h
        rw [← h.1]
        exact hu
      · simp only [show ¬ ((2 : Int) = 1) by decide, if_false, if_true, Option.some.injEq,
          Prod.mk.injEq] at h
        rw [← h.1]
        exact hu
      · simp only [show ¬ ((3 : Int) = 1) by decide, show ¬ ((3 : Int) = 2) by decide,
          if_false, if_true, Option.some.injEq, Prod.mk.injEq] at h
        rw [← h.1]
        exact Add_unseeded F _ name address hu

theorem AddSeededAddress_external_unseeded (F : Factom) (w w' : WalletStruct)
    (name address : GoString) (list : Int) (res : Option AddressNamePair × Option Error)
    (h : w.AddSeededAddress F name address list = some (w', res))
    (hu : w.ExternalAddresses.Unseeded) : w'.ExternalAddresses.Unseeded := by
  unfold WalletStruct.AddSeededAddress at h
  cases ha : w.addAddress F name address list with
  | none => simp [ha] at h
  | some oe =>
    cases oe with
    | some e =>
      simp only [ha, Option.some.injEq, Prod.mk.injEq] at h
      rw [← h.1]
      exact hu
    | none =>
      obtain ⟨hl, -, -, -⟩ := addAddress_ok F w name address list ha
      simp only [ha] at h
      rcases hl with rfl | rfl | rfl
      · simp only [if_true, Option.some.injEq, Prod.mk.injEq] at h
        rw [← h.1]
        exact hu
      · simp only [show ¬ ((2 : Int) = 1) by decide, if_false, if_true, Option.some.injEq,
          Prod.mk.injEq] at h
        rw [← h.1]
        exact hu
      · simp only [show ¬ ((3 : Int) = 1) by decide, show ¬ ((3 : Int) = 2) by decide,
          if_false, if_true, Option.some.injEq, Prod.mk.injEq] at h
        rw [← h.1]
        exact Add_unseeded F _ name address hu

theorem RemoveAddress_external_unseeded (F : Factom) (w : WalletStruct)
    (address : GoString) (list : Int) (hu : w.ExternalAddresses.Unseeded) :
    (w.RemoveAddress F address list).1.ExternalAddresses.Unseeded := by
  unfold WalletStruct.RemoveAddress
  split
  · exact hu
  · split
    · split <;> exact hu
    · split
      · split <;> exact hu
      · split
        · have hk := Remove_unseeded F _ address hu
          split
          · rename_i he; simp only [he] at hk; exact hk
          · rename_i he; simp only [he] at hk; exact hk
        · exact hu

theorem RemoveAddressFromAnyList_external_unseeded (F : Factom) (w : WalletStruct)
    (address : GoString) (hu : w.ExternalAddresses.Unseeded) :
    (w.RemoveAddressFromAnyList F address).1.ExternalAddresses.Unseeded := by
  unfold WalletStruct.RemoveAddressFromAnyList
  split
  rename_i anp list idx hg
  split
  · exact hu
  · have hk := RemoveAddress_external_unseeded F w address list hu
    split
    · rename_i he; simp only [he] at hk; exact hk
    · rename_i he; simp only [he] at hk; exact hk

theorem ChangeAddressName_external_unseeded (F : Factom) (w w' : WalletStruct)
    (address toName : GoString) (err : Option Error)
    (h : w.ChangeAddressName F address toName = some (w', err))
    (hu : w.ExternalAddresses.Unseeded) : w'.ExternalAddresses.Unseeded := by
  unfold WalletStruct.ChangeAddressName at h
  split at h
  · simp only [Option.some.injEq, Prod.mk.injEq] at h
    rw [← h.1]; exact hu
  · rename_i anp list i hg
    split at h
    · simp only [Option.some.injEq, Prod.mk.injEq] at h
      rw [← h.1]; exact hu
    · split at h
      · split at h
        · cases hc : w.FactoidAddresses.changeNameAt i toName with
          | none => simp [hc] at h
          | some p =>
            obtain ⟨l', e⟩ := p
            simp only [hc, Option.map_some', Option.some.injEq, Prod.mk.injEq] at h
            rw [← h.1]
            exact hu
        · split at h
          · cases hc : w.EntryCreditAddresses.changeNameAt i toName with
            | none => simp [hc] at h
            | some p =>
              obtain ⟨l', e⟩ := p
              simp only [hc, Option.map_some', Option.some.injEq, Prod.mk.injEq] at h
              rw [← h.1]
              exact hu
          · split at h
            · cases hc : w.ExternalAddresses.changeNameAt i toName with
              | none => simp [hc] at h
              | some p =>
                obtain ⟨l', e⟩ := p
                simp only [hc, Option.map_some', Option.some.injEq, Prod.mk.injEq] at h
                rw [← h.1]
                exact changeNameAt_unseeded _ _ _ _ _ hc hu
            · simp only [Option.some.injEq, Prod.mk.injEq] at h
              rw [← h.1]; exact hu
      · simp only [Option.some.injEq, Prod.mk.injEq] at h
        rw [← h.1]; exact hu

theorem step_external_unseeded (F : Factom) (w w' : WalletStruct) (op : WalletOp)
    (h : w.step F op = some w') (hu : w.ExternalAddresses.Unseeded) :
    w'.ExternalAddresses.Unseeded := by
  cases op with
  | AddAddress name address list =>
    simp only [WalletStruct.step, Option.map_eq_some'] at h
    obtain ⟨⟨w1, res⟩, hr, rfl⟩ := h
    exact AddAddress_external_unseeded F w _ name address list res hr hu
  | AddSeededAddress name address list =>
    simp only [WalletStruct.step, Option.map_eq_some'] at h
    obtain ⟨⟨w1, res⟩, hr, rfl⟩ := h
    exact AddSeededAddress_external_unseeded F w _ name address list res hr hu
  | RemoveAddress address list =>
    simp only [WalletStruct.step, Option.some.injEq] at h
    rw [← h]; exact RemoveAddress_external_unseeded F w address list hu
  | RemoveAddressFromAnyList address =>
    simp only [WalletStruct.step, Option.some.injEq] at h
    rw [← h]; exact RemoveAddressFromAnyList_external_unseeded F w address hu
  | ChangeAddressName address toName =>
    simp only [WalletStruct.step, Option.map_eq_some'] at h
    obtain ⟨⟨w1, err⟩, hr, rfl⟩ := h
    exact ChangeAddressName_external_unseeded F w _ address toName err hr hu
  | ResetSeeded =>
    simp only [WalletStruct.step, Option.some.injEq] at h
    rw [← h]; exact hu

theorem run_external_unseeded (F : Factom) (w w' : WalletStruct) (ops : List WalletOp)
    (hu : w.ExternalAddresses.Unseeded) (h : w.run F ops = some w') :
    w'.ExternalAddresses.Unseeded := by
  induction ops generalizing w with
  | nil =>
    simp only [WalletStruct.run, Option.some.injEq] at h
    rw [← h]; exact hu
  | cons op ops ih =>
    simp only [WalletStruct.run] at h
    cases hs : w.step F op with
    | none => simp [hs] at h
    | some w1 =>
      simp only [hs] at h
      exact ih w1 (step_external_unseeded F w w1 op hs hu) h

/-- What the body of the wallet's `ResetSeeded` does: every record of `FactoidAddresses`
and of `EntryCreditAddresses` has `Seeded = false` afterwards, and in these two lists the
`Length`, the number of records, and record by record the name, address and balance are
unchanged; `ExternalAddresses` is not touched. A wallet reached from `NewWallet` by the
wallet's own methods holds no seeded external record, so the call leaves none there. -/
theorem wallet_ResetSeeded_effect (F : Factom) (w : WalletStruct) :
    w.ResetSeeded.FactoidAddresses.Unseeded ∧
    w.ResetSeeded.EntryCreditAddresses.Unseeded ∧
    w.ResetSeeded.ExternalAddresses = w.ExternalAddresses ∧
    w.ResetSeeded.FactoidTotal = w.FactoidTotal ∧ w.ResetSeeded.ECTotal = w.ECTotal ∧
    w.ResetSeeded.FactoidAddresses.Length = w.FactoidAddresses.Length ∧
    w.ResetSeeded.EntryCreditAddresses.Length = w.EntryCreditAddresses.Length ∧
    (∀ i : Nat, w.ResetSeeded.FactoidAddresses.List[i]? =
      (w.FactoidAddresses.List[i]?).map
        fun (r : AddressNamePair) => { r with Seeded := false }) ∧
    (∀ i : Nat, w.ResetSeeded.EntryCreditAddresses.List[i]? =
      (w.EntryCreditAddresses.List[i]?).map
        fun (r : AddressNamePair) => { r with Seeded := false }) ∧
    (∀ ops, NewWallet.run F ops = some w → w.ResetSeeded.ExternalAddresses.Unseeded) := by
  refine ⟨ResetSeeded_unseeded _, ResetSeeded_unseeded _, rfl, rfl, rfl, rfl, rfl,
    ResetSeeded_getElem? _, ResetSeeded_getElem? _, ?_⟩
  intro ops h
  apply run_external_unseeded F NewWallet w ops _ h
  intro r hr
  simp [NewWallet, NewAddressList] at hr

/-- The failing input of C23 evaluated: in a new wallet whose external list received a
seeded record through `ExternalAddresses.AddSeeded`, the wallet's `ResetSeeded`, whose
comment says "Simply remove all seeded flags", leaves that record with `Seeded = true`:
after the call not every record of the three lists has `Seeded = false`. -/
theorem C23_external_stays_seeded :
    walletSeededExternal.ExternalAddresses.List
      = [{ Name := [65], Address := addrFA1, Seeded := true, Balance := 0 }] ∧
    walletSeededExternal.ResetSeeded.ExternalAddresses.List
      = [{ Name := [65], Address := addrFA1, Seeded := true, Balance := 0 }] ∧
    ¬ walletSeededExternal.ResetSeeded.ExternalAddresses.Unseeded := by
  refine ⟨by decide, by decide, ?_⟩
  intro h
  have := h { Name := [65], Address := addrFA1, Seeded := true, Balance := 0 } (by decide)
  exact absurd this (by decide)

/-- C24: the wallet's `MarshalBinary` returns no error and the bytes of the factoid
list's `MarshalBinary`, then those of the entry credit list, then those of the external
list; its `UnmarshalBinaryData` decodes the three lists in that order, each from the
bytes the previous one returned, and stops at the first list that returns an error (the
lists after it are left as they were) or faults. -/
theorem C24_wallet_codec (F : Factom) (w : WalletStruct) :
    w.MarshalBinary F =
      ((w.FactoidAddresses.MarshalBinary F).1 ++ (w.EntryCreditAddresses.MarshalBinary F).1
        ++ (w.ExternalAddresses.MarshalBinary F).1, none) ∧
    (∀ data : Bytes,
      (w.FactoidAddresses.UnmarshalBinaryData F data = none →
        w.UnmarshalBinaryData F data = none) ∧
      (∀ fa d1 e, w.FactoidAddresses.UnmarshalBinaryData F data = some (fa, d1, some e) →
        w.UnmarshalBinaryData F data = some ({ w with FactoidAddresses := fa }, d1, some e)) ∧
      (∀ fa d1, w.FactoidAddresses.UnmarshalBinaryData F data = some (fa, d1, none) →
        (w.EntryCreditAddresses.UnmarshalBinaryData F d1 = none →
          w.UnmarshalBinaryData F data = none) ∧
        (∀ ec d2 e, w.EntryCreditAddresses.UnmarshalBinaryData F d1 = some (ec, d2, some e) →
          w.UnmarshalBinaryData F data =
            some ({ w with FactoidAddresses := fa, EntryCreditAddresses := ec }, d2, some e)) ∧
        (∀ ec d2, w.EntryCreditAddresses.UnmarshalBinaryData F d1 = some (ec, d2, none) →
          (w.ExternalAddresses.UnmarshalBinaryData F d2 = none →
            w.UnmarshalBinaryData F data = none) ∧
          (∀ ex d3 e, w.ExternalAddresses.UnmarshalBinaryData F d2 = some (ex, d3, e) →
            w.UnmarshalBinaryData F data =
              some ({ w with FactoidAddresses := fa, EntryCreditAddresses := ec,
                             ExternalAddresses := ex }, d3, e))))) := by
  constructor
  · simp only [WalletStruct.MarshalBinary, MarshalBinary_eq]
  · intro data
    refine ⟨?_, ?_, ?_⟩
    · intro h
      simp [WalletStruct.UnmarshalBinaryData, h]
    · intro fa d1 e h
      simp [WalletStruct.UnmarshalBinaryData, h]
    · intro fa d1 h
      refine ⟨?_, ?_, ?_⟩
      · intro h2
        simp [WalletStruct.UnmarshalBinaryData, h, h2]
      · intro ec d2 e h2
        simp [WalletStruct.UnmarshalBinaryData, h, h2]
      · intro ec d2 h2
        refine ⟨?_, ?_⟩
        · intro h3
          simp [WalletStruct.UnmarshalBinaryData, h, h2, h3]
        · intro ex d3 e h3
          simp [WalletStruct.UnmarshalBinaryData, h, h2, h3]

set_option maxRecDepth 20000 in
/-- An instance of C24: a wallet with one factoid and one external record is encoded as
three list encodings, 8 + 63, 8 and 8 + 63 bytes long, and decoding those bytes into a
new wallet gives the wallet back. -/
theorem wallet_codec_example :
    (WalletStruct.MarshalBinary tableFactom
      { NewWallet with
        FactoidAddresses :=
          { Length := 1,
            List := [{ Name := [65], Address := addrFA1, Seeded := true, Balance := 0 }] },
        ExternalAddresses :=
          { Length := 1,
            List := [{ Name := [66], Address := addrEC1, Seeded := false, Balance := 0 }] } }
      ).1.length = 150 ∧
    NewWallet.UnmarshalBinaryData tableFactom
      (WalletStruct.MarshalBinary tableFactom
        { NewWallet with
          FactoidAddresses :=
            { Length := 1,
              List := [{ Name := [65], Address := addrFA1, Seeded := true, Balance := 0 }] },
          ExternalAddresses :=
            { Length := 1,
              List := [{ Name := [66], Address := addrEC1, Seeded := false, Balance := 0 }] } }
        ).1
      = some ({ NewWallet with
          FactoidAddresses :=
            { Length := 1,
              List := [{ Name := [65], Address := addrFA1, Seeded := true, Balance := 0 }] },
          ExternalAddresses :=
            { Length := 1,
              List := [{ Name := [66], Address := addrEC1, Seeded := false, Balance := 0 }] } },
        [], none) := by
  exact ⟨by decide, by decide⟩


theorem mapGet_mapSet (m : AnpMap) (k k' : GoString) (v : AddressNamePair) :
    mapGet (mapSet m k v) k' = if k = k' then some v else mapGet m k' := by
  induction m with
  | nil => simp [mapSet, mapGet]
  | cons e rest ih =>
    obtain ⟨k0, v0⟩ := e
    by_cases h0 : k0 = k
    · subst h0
      by_cases h1 : k0 = k' <;> simp [mapSet, mapGet, h1]
    · by_cases h1 : k0 = k'
      · subst h1
        have h2 : ¬ k = k0 := fun h => h0 h.symm
        simp [mapSet, mapGet, h0, h2]
      · simp [mapSet, mapGet, h0, h1, ih]

theorem Keyed_mapSet (m : AnpMap) (a : AddressNamePair) (h : Keyed m) :
    Keyed (mapSet m a.Address a) := by
  intro k v hg
  rw [mapGet_mapSet] at hg
  split at hg
  · rename_i hk
    simp only [Option.some.injEq] at hg
    rw [← hg]
    exact hk
  · exact h k v hg

theorem Keyed_fillMap (l : Records) (m : AnpMap) (h : Keyed m) : Keyed (fillMap l m) := by
  induction l generalizing m with
  | nil => exact h
  | cons a rest ih => exact ih _ (Keyed_mapSet m a h)

theorem fillMap_isSome (l : Records) (m : AnpMap) (k : GoString)
    (h : (mapGet m k).isSome = true ∨ ∃ r ∈ l, r.Address = k) :
    (mapGet (fillMap l m) k).isSome = true := by
  induction l generalizing m with
  | nil =>
    rcases h with h | ⟨r, hr, -⟩
    · exact h
    · simp at hr
  | cons a rest ih =>
    simp only [fillMap]
    apply ih
    rcases h with h | ⟨r, hr, hk⟩
    · left
      rw [mapGet_mapSet]
      split
      · rfl
      · exact h
    · simp only [List.mem_cons] at hr
      rcases hr with rfl | hr
      · left
        rw [mapGet_mapSet, if_pos hk]
        rfl
      · exact Or.inr ⟨r, hr, hk⟩

theorem mapGet_lookupLoop (g : GoString → Option Int) (m : AnpMap) (t : Int)
    (k : GoString) :
    mapGet (lookupLoop g m t).1 k = (mapGet m k).map (balanceOf g) := by
  induction m generalizing t with
  | nil => rfl
  | cons e rest ih =>
    obtain ⟨k0, v0⟩ := e
    simp only [lookupLoop]
    cases hg : g v0.Address with
    | none =>
      simp only [mapGet]
      split
      · simp [balanceOf, hg]
      · exact ih t
    | some bal =>
      simp only [mapGet]
      split
      · simp [balanceOf, hg]
      · exact ih _

/-- Writing back the looked-up map: every record of the list gets the balance that the
lookup of its own address gives, and nothing else of it changes. -/
theorem writeBack_lookup (g : GoString → Option Int) (l : Records) (m : AnpMap) (t : Int)
    (hk : Keyed m) (hall : ∀ r ∈ l, (mapGet m r.Address).isSome = true) :
    writeBack (lookupLoop g m t).1 l = l.map (balanceOf g) := by
  induction l with
  | nil => rfl
  | cons r rest ih =>
    simp only [writeBack, List.map_cons, mapGet_lookupLoop]
    have hs := hall r (by simp)
    cases hv : mapGet m r.Address with
    | none => rw [hv] at hs; exact absurd hs (by decide)
    | some v =>
      have ha : v.Address = r.Address := hk _ _ hv
      simp only [Option.map_some']
      rw [ih (fun x hx => hall x (by simp [hx]))]
      congr 1
      unfold balanceOf
      rw [ha]
      cases g r.Address <;> rfl

theorem Keyed_nil : Keyed [] := by
  intro k v h
  simp [mapGet] at h

theorem writeBack_fill (g : GoString → Option Int) (l : Records) :
    writeBack (if (fillMap l []).length > 0 then lookupLoop g (fillMap l []) 0
      else (fillMap l [], 0)).1 l = l.map (balanceOf g) := by
  have hk := Keyed_fillMap l [] Keyed_nil
  have hall : ∀ r ∈ l, (mapGet (fillMap l []) r.Address).isSome = true :=
    fun r hr => fillMap_isSome l [] r.Address (Or.inr ⟨r, hr, rfl⟩)
  split
  · exact writeBack_lookup g l _ 0 hk hall
  · rename_i hlen
    have hnil : fillMap l [] = [] := by
      cases h : fillMap l [] with
      | nil => rfl
      | cons e t => rw [h] at hlen; simp at hlen
    cases l with
    | nil => rfl
    | cons r rest =>
      have := hall r (by simp)
      rw [hnil] at this
      simp [mapGet] at this

/-- Whatever the map holds, writing back changes nothing but balances. -/
theorem writeBack_getElem? (m : AnpMap) (l : Records) (i : Nat) :
    ((writeBack m l)[i]?).map (fun r => (r.Name, r.Address, r.Seeded)) =
      (l[i]?).map (fun r => (r.Name, r.Address, r.Seeded)) := by
  induction l generalizing i with
  | nil => rfl
  | cons r rest ih =>
    cases i with
    | zero =>
      simp only [writeBack, List.getElem?_cons_zero, Option.map_some']
      cases mapGet m r.Address <;> rfl
    | succ i =>
      simp only [writeBack, List.getElem?_cons_succ]
      exact ih i

theorem writeBack_length (m : AnpMap) (l : Records) : (writeBack m l).length = l.length := by
  induction l with
  | nil => rfl
  | cons r rest ih => simp [writeBack, ih]

theorem mem_mapSet (m : AnpMap) (k : GoString) (v : AddressNamePair)
    (e : GoString × AddressNamePair) (h : e ∈ mapSet m k v) : e ∈ m ∨ e.2 = v := by
  induction m with
  | nil =>
    simp only [mapSet, List.mem_singleton] at h
    exact Or.inr (by rw [h])
  | cons e0 rest ih =>
    obtain ⟨k0, v0⟩ := e0
    simp only [mapSet] at h
    split at h
    · simp only [List.mem_cons] at h
      rcases h with h | h
      · exact Or.inr (by rw [h])
      · exact Or.inl (by simp [h])
    · simp only [List.mem_cons] at h
      rcases h with h | h
      · exact Or.inl (by simp [h])
      · rcases ih h with h' | h'
        · exact Or.inl (by simp [h'])
        · exact Or.inr h'

theorem mem_fillMap (l : Records) (m : AnpMap) (e : GoString × AddressNamePair)
    (h : e ∈ fillMap l m) : e ∈ m ∨ e.2 ∈ l := by
  induction l generalizing m with
  | nil => exact Or.inl h
  | cons a rest ih =>
    simp only [fillMap] at h
    rcases ih _ h with h' | h'
    · rcases mem_mapSet m a.Address a e h' with h'' | h''
      · exact Or.inl h''
      · exact Or.inr (by simp [h''])
    · exact Or.inr (by simp [h'])

theorem externalLoop_isSome (gf ge : GoString → Option Int) (m : AnpMap)
    (h : ∀ e ∈ m, 2 ≤ e.2.Address.length) : ∃ m', externalLoop gf ge m = some m' := by
  induction m with
  | nil => exact ⟨[], rfl⟩
  | cons e rest ih =>
    obtain ⟨k, a⟩ := e
    have h2 : 2 ≤ a.Address.length := h (k, a) (by simp)
    obtain ⟨m', hm'⟩ := ih (fun e he => h e (by simp [he]))
    simp only [externalLoop, sliceTo, h2, if_true, hm', Option.map_some']
    exact ⟨_, rfl⟩

theorem float64Shift_small (fuel a : Nat) (h : a < 2 ^ 53) : float64Shift fuel a = 0 := by
  cases fuel with
  | zero => rfl
  | succ n => simp only [float64Shift, if_pos h]

/-- An amount of magnitude at most 2^53 is converted to `float64` without rounding. -/
theorem float64OfInt64_exact (x : Int) (h : x.natAbs ≤ 2 ^ 53) : float64OfInt64 x = x := by
  rcases Nat.lt_or_ge x.natAbs (2 ^ 53) with hlt | hge
  · unfold float64OfInt64
    simp only [float64Shift_small _ _ hlt, pow_zero, Nat.div_one, Nat.mod_one, Nat.mul_zero,
      Nat.lt_one_iff, if_true, Nat.mul_one]
    split <;> omega
  · have he : x.natAbs = 2 ^ 53 := Nat.le_antisymm h hge
    rcases Int.natAbs_eq x with hx | hx
    · rw [he] at hx
      rw [hx]
      decide
    · rw [he] at hx
      rw [hx]
      decide

theorem enriched_map (g : GoString → Option Int) (l : Records) :
    Enriched g l (l.map (balanceOf g)) := by
  refine ⟨by simp, ?_⟩
  intro i r hr
  refine ⟨balanceOf g r, by simp [hr], ?_⟩
  unfold balanceOf
  cases hg : g r.Address with
  | none => exact ⟨rfl, rfl, rfl, fun _ => rfl, fun bal hb => by simp at hb⟩
  | some b =>
    refine ⟨rfl, rfl, rfl, fun hn => by simp at hn, fun bal hb => ?_⟩
    simp only [Option.some.injEq] at hb
    subst hb
    exact ⟨rfl, fun h => float64OfInt64_exact b h⟩

/-- C25 (as amended): when every record of `ExternalAddresses` has an address of at
least two bytes, `AddBalancesToAddresses` returns, and afterwards every record of
`FactoidAddresses` and `EntryCreditAddresses` whose lookup returned an error has
`Balance = -1` and every record whose lookup succeeded has the looked-up amount
converted to `float64`, which is the amount itself when its magnitude is at most 2^53;
the balance of a record depends on the lookup of its own address only; and in all three
lists the names, addresses, seeded flags, the order, the number of records and `Length`
are unchanged. -/
theorem C25_balances (getFactoidBalance getECBalance : GoString → Option Int)
    (w : WalletStruct) (hext : ∀ r ∈ w.ExternalAddresses.List, 2 ≤ r.Address.length) :
    ∃ w', w.AddBalancesToAddresses getFactoidBalance getECBalance = some w' ∧
      Enriched getFactoidBalance w.FactoidAddresses.List w'.FactoidAddresses.List ∧
      Enriched getECBalance w.EntryCreditAddresses.List w'.EntryCreditAddresses.List ∧
      w'.FactoidAddresses.Length = w.FactoidAddresses.Length ∧
      w'.EntryCreditAddresses.Length = w.EntryCreditAddresses.Length ∧
      w'.ExternalAddresses.Length = w.ExternalAddresses.Length ∧
      w'.ExternalAddresses.List.length = w.ExternalAddresses.List.length ∧
      (∀ i : Nat, (w'.ExternalAddresses.List[i]?).map
          (fun (r : AddressNamePair) => (r.Name, r.Address, r.Seeded)) =
        (w.ExternalAddresses.List[i]?).map
          (fun (r : AddressNamePair) => (r.Name, r.Address, r.Seeded))) := by
  have hex : ∃ ex, (if (fillMap w.ExternalAddresses.List []).length > 0 then
      externalLoop getFactoidBalance getECBalance (fillMap w.ExternalAddresses.List [])
      else some (fillMap w.ExternalAddresses.List [])) = some ex := by
    split
    · apply externalLoop_isSome
      intro e he
      rcases mem_fillMap _ _ e he with h | h
      · simp at h
      · exact hext _ h
    · exact ⟨_, rfl⟩
  obtain ⟨ex, hex⟩ := hex
  have hres : w.AddBalancesToAddresses getFactoidBalance getECBalance = some
      { FactoidAddresses :=
          { w.FactoidAddresses with
            List := writeBack (if (fillMap w.FactoidAddresses.List []).length > 0 then
                lookupLoop getFactoidBalance (fillMap w.FactoidAddresses.List []) 0
              else (fillMap w.FactoidAddresses.List [], 0)).1 w.FactoidAddresses.List },
        EntryCreditAddresses :=
          { w.EntryCreditAddresses with
            List := writeBack (if (fillMap w.EntryCreditAddresses.List []).length > 0 then
                lookupLoop getECBalance (fillMap w.EntryCreditAddresses.List []) 0
              else (fillMap w.EntryCreditAddresses.List [], 0)).1
                w.EntryCreditAddresses.List },
        ExternalAddresses :=
          { w.ExternalAddresses with List := writeBack ex w.ExternalAddresses.List },
        FactoidTotal := (if (fillMap w.FactoidAddresses.List []).length > 0 then
            lookupLoop getFactoidBalance (fillMap w.FactoidAddresses.List []) 0
          else (fillMap w.FactoidAddresses.List [], 0)).2,
        ECTotal := (if (fillMap w.EntryCreditAddresses.List []).length > 0 then
            lookupLoop getECBalance (fillMap w.EntryCreditAddresses.List []) 0
          else (fillMap w.EntryCreditAddresses.List [], 0)).2 } := by
    simp only [WalletStruct.AddBalancesToAddresses, hex]
  refine ⟨_, hres, ?_, ?_, rfl, rfl, rfl, ?_, ?_⟩
  · show Enriched getFactoidBalance w.FactoidAddresses.List (writeBack _ _)
    rw [writeBack_fill]
    exact enriched_map _ _
  · show Enriched getECBalance w.EntryCreditAddresses.List (writeBack _ _)
    rw [writeBack_fill]
    exact enriched_map _ _
  · exact writeBack_length _ _
  · intro i
    exact writeBack_getElem? _ _ i

/-- C25, witness: a wallet with an external record (an entry credit address of 52
bytes), two factoid records and one entry credit record. The lookup fails for the first
factoid record, which gets -1, and gives 2^53 + 1 for the second, which gets 2^53; the
two other records get 7. -/
theorem C25_balances_witness :
    walletThreeLists.ExternalAddresses.List
      = [{ Name := [68], Address := addrEC2, Seeded := false, Balance := 0 }] ∧
    (∀ r ∈ walletThreeLists.ExternalAddresses.List, 2 ≤ r.Address.length) ∧
    ∃ w', walletThreeLists.AddBalancesToAddresses lookupDemo lookupDemo = some w' ∧
      w'.FactoidAddresses.List =
        [{ Name := [65], Address := addrFA1, Seeded := false, Balance := -1 },
         { Name := [66], Address := addrFA2, Seeded := true,
           Balance := 9007199254740992 }] ∧
      w'.EntryCreditAddresses.List =
        [{ Name := [67], Address := addrEC1, Seeded := false, Balance := 7 }] ∧
      w'.ExternalAddresses.List =
        [{ Name := [68], Address := addrEC2, Seeded := false, Balance := 7 }] ∧
      Enriched lookupDemo walletThreeLists.FactoidAddresses.List w'.FactoidAddresses.List ∧
      Enriched lookupDemo walletThreeLists.EntryCreditAddresses.List
        w'.EntryCreditAddresses.List :=
  have hext : ∀ r ∈ walletThreeLists.ExternalAddresses.List, 2 ≤ r.Address.length := by
    decide
  have h := C25_balances lookupDemo lookupDemo walletThreeLists hext
  ⟨rfl, hext, h.elim fun w' hw => by
    have he : walletThreeLists.AddBalancesToAddresses lookupDemo lookupDemo = some
        { FactoidAddresses :=
            { Length := 2,
              List := [{ Name := [65], Address := addrFA1, Seeded := false, Balance := -1 },
                       { Name := [66], Address := addrFA2, Seeded := true,
                         Balance := 9007199254740992 }] },
          EntryCreditAddresses :=
            { Length := 1,
              List := [{ Name := [67], Address := addrEC1, Seeded := false, Balance := 7 }] },
          ExternalAddresses :=
            { Length := 1,
              List := [{ Name := [68], Address := addrEC2, Seeded := false, Balance := 7 }] },
          FactoidTotal := 9007199254740993, ECTotal := 7 } := by decide
    have hw1 := hw.1
    rw [he] at hw1
    simp only [Option.some.injEq] at hw1
    refine ⟨w', hw.1, ?_, ?_, ?_, hw.2.1, hw.2.2.1⟩
    · rw [← hw1]
    · rw [← hw1]
    · rw [← hw1]⟩

/-- C25, counterexample: with an external record whose address is the single byte "F",
the call faults at `a.Address[:2]`, and the factoid record, whose lookup succeeds, is
left without its balance; and in a wallet with one factoid record whose lookup gives
2^53 + 1, the balance stored is 2^53, the nearest `float64`, not the amount. -/
theorem C25_counterexample_fault_and_rounding :
    walletShortExternal.AddBalancesToAddresses (fun _ => some 5) (fun _ => some 5) = none ∧
    walletOneFactoid.AddBalancesToAddresses (fun _ => some 9007199254740993)
        (fun _ => none)
      = some { walletOneFactoid with
          FactoidAddresses :=
            { Length := 1,
              List := [{ Name := [65], Address := addrFA1, Seeded := false,
                         Balance := 9007199254740992 }] },
          FactoidTotal := 9007199254740993 } ∧
    (9007199254740992 : Int) ≠ 9007199254740993 := by
  refine ⟨rfl, ?_, by decide⟩
  decide

end EnterpriseWallet
